import Mathlib

/-!
# specs-actors: Init actor, Cron actor and the market state checker

A shallow embedding of

* `actors/runtime/runtime.go`            (the `Runtime` capability surface),
* `actors/builtin/init/init_actor.go`    (`InitActorState`, `InitActor`),
* `actors/builtin/cron/cron_actor.go`    (`CronActor`),
* `actors/builtin/market/testing.go`     (`CheckStateInvariants`),

followed by theorems about them.

An actor method is a program over the `Runtime` interface.  It is embedded as a
function of a runtime model `Runtime` (the answers the virtual machine gives) and
of a run state `RtState` (the log of the runtime operations invoked so far, the
actor's persisted state identifier and the object store); it yields the method's
outcome and the run state at the end.
-/

namespace SpecsActors

/-! ## Primitive types -/

/-- Number of values of a Go `uint64`. -/
def U64 : Nat := 2 ^ 64

/-- Modelled from the spec: `addr.Address` of the go-address library, an opaque principal
identifier with an ID kind (a dense integer identity) and robust kinds. -/
inductive Address where
  | ID (id : Nat)
  | Actor (payload : Nat)
  | Key (payload : Nat)
  deriving DecidableEq, Repr

/-- Library call `addr.NewIDAddress(id)`: the ID address of an integer identity.  The source
asserts that it reports no error. -/
def NewIDAddress (id : Nat) : Address := Address.ID id

/-- Type `abi.ActorCodeID`. -/
abbrev ActorCodeID := Nat

/-- Type `abi.MethodNum`. -/
abbrev MethodNum := Nat

/-- Type `abi.MethodParams`, serialized parameters; `[]` is the Go `nil`. -/
abbrev MethodParams := List Nat

/-- Type `abi.TokenAmount`. -/
abbrev TokenAmount := Int

/-- Content identifier `cid.Cid` (also `abi.ActorSubstateCID`). -/
abbrev Cid := Nat

/-- Exit codes of package `exitcode` that the runtime interface names, the authorization
failure of the caller checks, and any other code a callee may end with. -/
inductive ExitCode where
  | OK
  | InvalidArguments_User
  | InconsistentState_User
  | InsufficientFunds_User
  | RuntimeAPIError
  | InvalidCaller
  | Other (code : Nat)
  deriving DecidableEq, Repr

/-- Constants of package `builtin` used by the two actors. -/
structure Builtin where
  SystemActorAddr : Address
  FirstNonSingletonActorId : Nat
  MethodConstructor : MethodNum
  AccountActorCodeID : ActorCodeID
  PaymentChannelActorCodeID : ActorCodeID
  StorageMinerActorCodeID : ActorCodeID
  StoragePowerActorCodeID : ActorCodeID

/-! ## Init actor state (`init_actor.go`, lines 18-42) -/

/-- The Go map `map[addr.Address]abi.ActorID`: a partial function on addresses.  An
`abi.ActorID` is an unsigned 64-bit integer, a natural number below `U64`. -/
abbrev AddressMap := Address → Option Nat

/-- Map assignment `m[k] = v`. -/
def AddressMap.set (m : AddressMap) (k : Address) (v : Nat) : AddressMap :=
  fun a => if a = k then some v else m a

/-- The empty map literal `map[addr.Address]abi.ActorID{}`. -/
def AddressMap.empty : AddressMap := fun _ => none

structure InitActorState where
  AddressMap : AddressMap
  NextID : Nat
  NetworkName : String

/-- Method `(s *InitActorState) ResolveAddress`. -/
def InitActorState.ResolveAddress (s : InitActorState) (address : Address) : Address :=
  match s.AddressMap address with
  | some actorID => NewIDAddress actorID
  | none => address

/-- Method `(s *InitActorState) MapAddressToNewID`: the state after the call and the ID
address returned.  `s.NextID++` is the increment of a 64-bit machine integer (`abi.ActorID`
is converted with `uint64(actorID)`; it is taken as unsigned), which wraps around after its
last value. -/
def InitActorState.MapAddressToNewID (s : InitActorState) (address : Address) :
    InitActorState × Address :=
  let actorID := s.NextID
  ({ AddressMap := s.AddressMap.set address actorID
     NextID := (s.NextID + 1) % U64
     NetworkName := s.NetworkName },
   NewIDAddress actorID)

/-! ## The runtime (`runtime.go`) -/

/-- Type `vmr.InvocInput`. -/
structure InvocInput where
  To : Address
  Method : MethodNum
  Params : MethodParams
  Value : TokenAmount
  deriving DecidableEq, Repr

/-- Type `vmr.SendReturn`, the serialized return value of a send. -/
abbrev SendReturn := List Nat

/-- Type `vmr.EmptyReturn`. -/
structure EmptyReturn where
  deriving DecidableEq, Repr

/-- A call of a method of `Runtime` or of `ActorStateHandle`, with its arguments. -/
inductive Op where
  | ImmediateCaller
  | ValidateImmediateCallerAcceptAny
  | ValidateImmediateCallerIs (addrs : List Address)
  | AcquireState
  | Take
  | Release (checkStateCID : Cid)
  | UpdateRelease (newStateCID : Cid)
  | AbortArgMsg (msg : String)
  | AbortAPI (msg : String)
  | ValueReceived
  | GetActorCodeID (a : Address)
  | Send (toAddr : Address) (methodNum : MethodNum) (params : MethodParams) (value : TokenAmount)
  | SendCatchingErrors (input : InvocInput)
  | NewActorAddress
  | CreateActor (codeId : ActorCodeID) (address : Address)
  | IpldGet (c : Cid)
  | IpldPut (x : InitActorState)

/-- The caller-authorization checks of the interface. -/
def Op.isCallerCheck : Op → Bool
  | .ValidateImmediateCallerAcceptAny => true
  | .ValidateImmediateCallerIs _ => true
  | _ => false

def Op.isAcquireState : Op → Bool
  | .AcquireState => true
  | _ => false

def Op.isRelease : Op → Bool
  | .Release _ => true
  | _ => false

def Op.isUpdateRelease : Op → Bool
  | .UpdateRelease _ => true
  | _ => false

def Op.isSend : Op → Bool
  | .Send _ _ _ _ => true
  | _ => false

def Op.isSendCatchingErrors : Op → Bool
  | .SendCatchingErrors _ => true
  | _ => false

def Op.isNewActorAddress : Op → Bool
  | .NewActorAddress => true
  | _ => false

def Op.isAbortArgMsg : Op → Bool
  | .AbortArgMsg _ => true
  | _ => false

def Op.isCreateActor : Op → Bool
  | .CreateActor _ _ => true
  | _ => false

/-- Modelled from the spec: the answers of the virtual machine behind the `Runtime`
interface during one invocation.  The accessors are stable for the invocation; the result
of a nested dispatch may depend on everything the invocation did before it, so the two
send oracles receive the log of the operations invoked so far. -/
structure Runtime where
  ImmediateCaller : Address
  ValueReceived : TokenAmount
  GetActorCodeID : Address → Option ActorCodeID
  NewActorAddress : Address
  NetworkName : String
  /-- Content addressing of the store: the identifier `IpldPut` gives an object. -/
  cidOf : InitActorState → Cid
  /-- Outcome of the callee of `Send`: its return value, or the exit code it aborted with. -/
  Send : List Op → Address → MethodNum → MethodParams → TokenAmount → Except ExitCode SendReturn
  /-- Outcome of the callee of `SendCatchingErrors`. -/
  SendCatchingErrors : List Op → InvocInput → SendReturn × ExitCode

/-- The part of the world an invocation changes, and the log of its runtime calls (oldest
first). -/
structure RtState where
  log : List Op
  /-- The persisted state identifier of the receiving actor. -/
  stateCID : Cid
  /-- The object store, as far as Init actor states are concerned. -/
  store : Cid → Option InitActorState

/-- How an invocation can fail to return: an abort carrying an exit code, or a failed Go
assertion (`Assert`, `AssertMsg`). -/
inductive Failure where
  | abort (code : ExitCode)
  | assertion
  deriving DecidableEq, Repr

/-- An actor program: from the runtime and the run state to its outcome and the run state
where it stopped. -/
def RT (α : Type) : Type := Runtime → RtState → Except Failure α × RtState

namespace RT

def ret {α : Type} (a : α) : RT α := fun _ s => (.ok a, s)

def andThen {α β : Type} (m : RT α) (f : α → RT β) : RT β := fun rt s =>
  match m rt s with
  | (.ok a, s1) => f a rt s1
  | (.error e, s1) => (.error e, s1)

instance : Monad RT where
  pure := ret
  bind := andThen

/-- Record a call in the log. -/
def emit (op : Op) : RT Unit := fun _ s => (.ok (), { s with log := s.log ++ [op] })

/-- Unwind the invocation. -/
def fail {α : Type} (e : Failure) : RT α := fun _ s => (.error e, s)

/-- Function `autil.AssertMsg` (and `autil.Assert`). -/
def AssertMsg (ok : Bool) : RT Unit := fun _ s =>
  if ok then (.ok (), s) else (.error Failure.assertion, s)

/-- Interface method `rt.ImmediateCaller()`. -/
def ImmediateCaller : RT Address := fun rt s =>
  (.ok rt.ImmediateCaller, { s with log := s.log ++ [Op.ImmediateCaller] })

/-- Interface method `rt.ValidateImmediateCallerAcceptAny()`: accepts every caller. -/
def ValidateImmediateCallerAcceptAny : RT Unit := emit Op.ValidateImmediateCallerAcceptAny

/-- Modelled from the spec: interface method `rt.ValidateImmediateCallerIs(addrs...)`
aborts the invocation with an authorization failure if the caller is none of `addrs`. -/
def ValidateImmediateCallerIs (addrs : List Address) : RT Unit := fun rt s =>
  let s1 := { s with log := s.log ++ [Op.ValidateImmediateCallerIs addrs] }
  if addrs.contains rt.ImmediateCaller then (.ok (), s1)
  else (.error (Failure.abort ExitCode.InvalidCaller), s1)

/-- Interface method `rt.GetActorCodeID(addr)`. -/
def GetActorCodeID (a : Address) : RT (Option ActorCodeID) := fun rt s =>
  (.ok (rt.GetActorCodeID a), { s with log := s.log ++ [Op.GetActorCodeID a] })

/-- Interface method `rt.AbortArgMsg(msg)`: "Calls Abort with InvalidArguments_User". -/
def AbortArgMsg {α : Type} (msg : String) : RT α := fun _ s =>
  (.error (Failure.abort ExitCode.InvalidArguments_User),
   { s with log := s.log ++ [Op.AbortArgMsg msg] })

/-- Interface method `rt.AbortAPI(msg)`: "Calls Abort with RuntimeAPIError". -/
def AbortAPI {α : Type} (msg : String) : RT α := fun _ s =>
  (.error (Failure.abort ExitCode.RuntimeAPIError),
   { s with log := s.log ++ [Op.AbortAPI msg] })

/-- Interface method `rt.ValueReceived()`. -/
def ValueReceived : RT TokenAmount := fun rt s =>
  (.ok rt.ValueReceived, { s with log := s.log ++ [Op.ValueReceived] })

/-- Package function `vmr.NetworkName()`. -/
def NetworkName : RT String := fun rt s => (.ok rt.NetworkName, s)

/-- Interface method `rt.NewActorAddress()`. -/
def NewActorAddress : RT Address := fun rt s =>
  (.ok rt.NewActorAddress, { s with log := s.log ++ [Op.NewActorAddress] })

/-- Interface method `rt.CreateActor(codeId, address)`. -/
def CreateActor (codeId : ActorCodeID) (address : Address) : RT Unit :=
  emit (Op.CreateActor codeId address)

/-- Interface method `rt.Send`: "If the invoked method does not return successfully, this
caller will be aborted too." -/
def Send (toAddr : Address) (methodNum : MethodNum) (params : MethodParams)
    (value : TokenAmount) : RT SendReturn := fun rt s =>
  let s1 := { s with log := s.log ++ [Op.Send toAddr methodNum params value] }
  match rt.Send s.log toAddr methodNum params value with
  | .ok r => (.ok r, s1)
  | .error code => (.error (Failure.abort code), s1)

/-- Interface method `rt.SendCatchingErrors`: "Sends a message to another actor, trapping
an unsuccessful execution." -/
def SendCatchingErrors (input : InvocInput) : RT (SendReturn × ExitCode) := fun rt s =>
  (.ok (rt.SendCatchingErrors s.log input),
   { s with log := s.log ++ [Op.SendCatchingErrors input] })

/-- Interface method `rt.IpldGet(c, &o)`: the object, if the store has it. -/
def IpldGet (c : Cid) : RT (Option InitActorState) := fun _ s =>
  (.ok (s.store c), { s with log := s.log ++ [Op.IpldGet c] })

/-- Interface method `rt.IpldPut(x)`: stores the object and returns its identifier. -/
def IpldPut (x : InitActorState) : RT Cid := fun rt s =>
  (.ok (rt.cidOf x),
   { s with log := s.log ++ [Op.IpldPut x]
            store := fun c => if c = rt.cidOf x then some x else s.store c })

end RT

/-- Interface `vmr.ActorStateHandle`: the guard holds the state identifier observed when
it was acquired. -/
structure ActorStateHandle where
  held : Cid

namespace RT

/-- Interface method `rt.AcquireState()`. -/
def AcquireState : RT ActorStateHandle := fun _ s =>
  (.ok { held := s.stateCID }, { s with log := s.log ++ [Op.AcquireState] })

end RT

namespace ActorStateHandle

/-- Handle method `h.Take()`. -/
def Take (h : ActorStateHandle) : RT Cid := fun _ s =>
  (.ok h.held, { s with log := s.log ++ [Op.Take] })

/-- Modelled from the spec: handle method `h.UpdateRelease(newStateCID)` commits the new
identifier as the actor's persisted state. -/
def UpdateRelease (_h : ActorStateHandle) (newStateCID : Cid) : RT Unit := fun _ s =>
  (.ok (), { s with log := s.log ++ [Op.UpdateRelease newStateCID], stateCID := newStateCID })

/-- Modelled from the spec: handle method `h.Release(checkStateCID)` commits no change; an
identifier other than the one acquired is a fatal internal error. -/
def Release (h : ActorStateHandle) (checkStateCID : Cid) : RT Unit := fun _ s =>
  let s1 := { s with log := s.log ++ [Op.Release checkStateCID] }
  if checkStateCID = h.held then (.ok (), s1) else (.error Failure.assertion, s1)

end ActorStateHandle

/-! ## Init actor (`init_actor.go`, lines 44-132) -/

namespace InitActor

/-- Function `_loadState`. -/
def _loadState : RT (ActorStateHandle × InitActorState) := do
  let h ← RT.AcquireState
  let stateCID ← h.Take
  let got ← RT.IpldGet stateCID
  match got with
  | none => RT.AbortAPI "state not found"
  | some state => pure (h, state)

/-- Function `Release`. -/
def Release (h : ActorStateHandle) (st : InitActorState) : RT Unit := do
  let checkCID ← RT.IpldPut st
  h.Release checkCID

/-- Function `UpdateRelease`. -/
def UpdateRelease (h : ActorStateHandle) (st : InitActorState) : RT Unit := do
  let newCID ← RT.IpldPut st
  h.UpdateRelease newCID

/-- Function `_codeIDSupportsExec`. -/
def _codeIDSupportsExec (b : Builtin) (callerCodeID execCodeID : ActorCodeID) : Bool :=
  if execCodeID = b.AccountActorCodeID then
    false
  else if execCodeID = b.PaymentChannelActorCodeID then
    true
  else if execCodeID = b.StorageMinerActorCodeID then
    if callerCodeID = b.StoragePowerActorCodeID then true else false
  else
    false

/-- The state literal of `Constructor`.  The conversion `abi.ActorID(...)` of the constant
is to an unsigned 64-bit integer. -/
def Constructor.st (b : Builtin) (networkName : String) : InitActorState :=
  { AddressMap := AddressMap.empty
    NextID := b.FirstNonSingletonActorId % U64
    NetworkName := networkName }

/-- Method `(a *InitActor) Constructor`. -/
def Constructor (b : Builtin) : RT EmptyReturn := do
  RT.ValidateImmediateCallerIs [b.SystemActorAddr]
  let h ← RT.AcquireState
  let networkName ← RT.NetworkName
  let st := Constructor.st b networkName
  UpdateRelease h st
  pure {}

structure ExecReturn where
  IDAddress : Address
  RobustAddress : Address
  deriving DecidableEq, Repr

/-- Method `(a *InitActor) Exec`.  The second `rt.ImmediateCaller()` is the argument of
`AssertMsg`, which Go evaluates before the call. -/
def Exec (b : Builtin) (execCodeID : ActorCodeID) (constructorParams : MethodParams) :
    RT ExecReturn := do
  RT.ValidateImmediateCallerAcceptAny
  let caller ← RT.ImmediateCaller
  let callerCode ← RT.GetActorCodeID caller
  let _ ← RT.ImmediateCaller
  match callerCode with
  | none => RT.fail Failure.assertion
  | some callerCodeID =>
    if !_codeIDSupportsExec b callerCodeID execCodeID then
      RT.AbortArgMsg "Caller type cannot create an actor of requested type"
    else
      let uniqueAddress ← RT.NewActorAddress
      let (h, st) ← _loadState
      let (st, idAddr) := st.MapAddressToNewID uniqueAddress
      UpdateRelease h st
      RT.CreateActor execCodeID idAddr
      let value ← RT.ValueReceived
      let _ ← RT.Send idAddr b.MethodConstructor constructorParams value
      pure { IDAddress := idAddr, RobustAddress := uniqueAddress }

end InitActor

/-! ## Cron actor (`cron_actor.go`) -/

structure CronTableEntry where
  ToAddr : Address
  MethodNum : MethodNum
  deriving DecidableEq, Repr

structure CronActor where
  Entries : List CronTableEntry

namespace CronActor

/-- Method `(a *CronActor) Constructor`. -/
def Constructor (b : Builtin) (_a : CronActor) : RT EmptyReturn := do
  RT.ValidateImmediateCallerIs [b.SystemActorAddr]
  pure {}

/-- The body of `for _, entry := range a.Entries` in `EpochTick`, over the entries left. -/
def EpochTick.loop : List CronTableEntry → RT Unit
  | [] => pure ()
  | entry :: rest => do
    let _ ← RT.SendCatchingErrors
      { To := entry.ToAddr, Method := entry.MethodNum, Params := [], Value := 0 }
    EpochTick.loop rest

/-- Method `(a *CronActor) EpochTick`. -/
def EpochTick (b : Builtin) (a : CronActor) : RT EmptyReturn := do
  RT.ValidateImmediateCallerIs [b.SystemActorAddr]
  EpochTick.loop a.Entries
  pure {}

end CronActor

/-- The run state in which a method starts: an empty log. -/
def RtState.start (stateCID : Cid) (store : Cid → Option InitActorState) : RtState :=
  { log := [], stateCID := stateCID, store := store }

/-- The callback that EpochTick sends for an entry. -/
def CronActor.EpochTick.input (entry : CronTableEntry) : InvocInput :=
  { To := entry.ToAddr, Method := entry.MethodNum, Params := [], Value := 0 }

/-! ## Market state checker (`market/testing.go`) -/

namespace Market

/-- A Go `error` value. -/
structure Error where
  code : Nat
  deriving DecidableEq, Repr

/-- A Go `string`, a sequence of bytes; map keys are strings. -/
abbrev Key := List Nat

/-- Conversion `int64(x)` of an unsigned 64-bit integer. -/
def toInt64 (x : Nat) : Int :=
  if x % 2 ^ 64 < 2 ^ 63 then ((x % 2 ^ 64 : Nat) : Int) else ((x % 2 ^ 64 : Nat) : Int) - 2 ^ 64

/-- Conversion `abi.DealID(x)` of a signed 64-bit integer to the unsigned `uint64`. -/
def toDealID (x : Int) : Nat := (x % 2 ^ 64).toNat

/-- The loop of `strconv.ParseUint(s, 10, 64)` over the bytes left, with the value `n` read
so far: the value and whether an error is reported (`none` is a syntax error, for which
the caller returns 0). -/
def ParseUint.loop : List Nat → Nat → Option (Nat × Bool)
  | [], n => some (n, false)
  | c :: rest, n =>
    if 48 ≤ c ∧ c ≤ 57 then
      if n ≥ (2 ^ 64 - 1) / 10 + 1 then some (2 ^ 64 - 1, true)
      else if n * 10 + (c - 48) > 2 ^ 64 - 1 then some (2 ^ 64 - 1, true)
      else ParseUint.loop rest (n * 10 + (c - 48))
    else none

/-- Library function `strconv.ParseUint(s, 10, 64)`. -/
def ParseUint (s : Key) : Option (Nat × Bool) :=
  match s with
  | [] => none
  | _ => ParseUint.loop s 0

/-- Library function `strconv.ParseInt(s, 10, 64)`: the value returned and whether the
error returned is non-nil.  Byte 43 is `+`, byte 45 is `-`, bytes 48 to 57 are the digits. -/
def ParseInt (s : Key) : Int × Bool :=
  match s with
  | [] => (0, true)
  | c :: rest =>
    let neg := decide (c = 45)
    let digits := if c = 43 ∨ c = 45 then rest else s
    match ParseUint digits with
    | none => (0, true)
    | some (un, _) =>
      if !neg && decide (un ≥ 2 ^ 63) then (2 ^ 63 - 1, true)
      else if neg && decide (un > 2 ^ 63) then (-(2 ^ 63), true)
      else (if neg then -(un : Int) else (un : Int), false)

/-- Decimal digits of a natural number, most significant first, as bytes. -/
def decimal.loop : Nat → Nat → List Nat → List Nat
  | 0, _, acc => acc
  | fuel + 1, n, acc =>
    if n / 10 = 0 then (48 + n % 10) :: acc
    else decimal.loop fuel (n / 10) ((48 + n % 10) :: acc)

/-- Library function `strconv.FormatInt(x, 10)`. -/
def decimal (x : Int) : Key :=
  if x < 0 then 45 :: decimal.loop (x.natAbs + 1) x.natAbs []
  else decimal.loop (x.natAbs + 1) x.natAbs []

/-- Type `DealProposal` of the market package, as its serialized content. -/
structure DealProposal where
  content : Nat
  deriving DecidableEq, Repr

/-- Type `DealState` of the market package; the epochs are signed 64-bit integers. -/
structure DealState where
  SectorStartEpoch : Int
  LastUpdatedEpoch : Int
  SlashEpoch : Int
  deriving DecidableEq, Repr

/-- What the checker takes from outside `testing.go`: the sentinel `epochUndefined` of the
market package, the fingerprint `DealProposal.Cid()`, and the library parsers `cid.Parse`
and `address.NewFromBytes`. -/
structure Env where
  epochUndefined : Int
  proposalCid : DealProposal → Except Error Cid
  cidParse : Key → Except Error Cid
  addressFromBytes : Key → Except Error Address

/-- Modelled from the spec: a persisted collection of package `adt` as its typed iteration
sees it, "visits entries once, in key order": the entries visited, and the store fault
that ends the iteration after them, if any. -/
structure Walk (κ ν : Type) where
  entries : List (κ × ν)
  fault : Option Error

/-- The iteration of `ForEach` over the entries left: the callback updates the variables
it captured (`σ`) and may return an error, which stops the iteration. -/
def Walk.ForEach.go {κ ν σ : Type} (f : σ → κ → ν → σ × Option Error) (fault : Option Error) :
    List (κ × ν) → σ → σ × Option Error
  | [], s => (s, fault)
  | (k, v) :: rest, s =>
    match f s k v with
    | (s1, some e) => (s1, some e)
    | (s1, none) => Walk.ForEach.go f fault rest s1

/-- Modelled from the spec: method `ForEach` of `adt.Array` and `adt.Map`. -/
def Walk.ForEach {κ ν σ : Type} (w : Walk κ ν) (f : σ → κ → ν → σ × Option Error) (s : σ) :
    σ × Option Error :=
  Walk.ForEach.go f w.fault w.entries s

/-- Modelled from the spec: `adt.BalanceTable`, address → amount.  The raw lookup of an
address fails with a store fault, finds nothing, or finds an amount. -/
structure BalanceTable where
  lookup : Address → Except Error (Option Int)

/-- Modelled from the spec: method `BalanceTable.Get`; an absent address has balance 0. -/
def BalanceTable.Get (t : BalanceTable) (a : Address) : Except Error Int :=
  match t.lookup a with
  | .error e => .error e
  | .ok none => .ok 0
  | .ok (some v) => .ok v

/-- Modelled from the spec: the `SetMultimap` of the market package, epoch → set of deal
IDs: a map `mp` from keys to sets.  A set is loaded when it is looked up; it is a
collection of deal IDs. -/
structure SetMultimap where
  mp : Walk Key (Except Error (Walk Nat Unit))

/-- Modelled from the spec: the key of an epoch in the multimap is its decimal string. -/
def SetMultimap.key (epoch : Int) : Key := decimal epoch

/-- Modelled from the spec: method `SetMultimap.ForEach(epoch, fn)` looks up the set stored
under the key of `epoch`; without one it does nothing, otherwise it calls `fn` on each deal
ID of the set. -/
def SetMultimap.ForEach {σ : Type} (mm : SetMultimap) (epoch : Int)
    (fn : σ → Nat → σ × Option Error) (s : σ) : σ × Option Error :=
  match mm.mp.entries.lookup (SetMultimap.key epoch) with
  | none => (s, none)
  | some (.error e) => (s, some e)
  | some (.ok set) => set.ForEach (fun s id _ => fn s id) s

/-- The market actor's `State` together with what the store holds under each of its
roots: the result of `adt.AsArray`, `adt.AsMap`, `adt.AsBalanceTable` or `AsSetMultimap`
on the root.  `NextID` is an unsigned 64-bit `abi.DealID`; array indices are signed 64-bit
integers. -/
structure Snapshot where
  TotalClientLockedCollateral : Int
  TotalProviderLockedCollateral : Int
  TotalClientStorageFee : Int
  NextID : Nat
  Proposals : Except Error (Walk Int DealProposal)
  States : Except Error (Walk Int DealState)
  PendingProposals : Except Error (Walk Key DealProposal)
  EscrowTable : Except Error BalanceTable
  LockedTable : Except Error (Walk Key Int)
  DealOpsByEpoch : Except Error SetMultimap

/-- Type `StateSummary`.  The counters are unsigned 64-bit integers that count the entries
visited in a collection of the store, which holds fewer than 2^64 of them; they are
naturals. -/
structure StateSummary where
  ProposalCount : Nat
  PendingProposalCount : Nat
  DealStateCount : Nat
  LockTableCount : Nat
  DealOpEpochCount : Nat
  DealOpCount : Nat
  deriving DecidableEq, Repr

/-- The messages of the checker, one constructor per format string of `testing.go`, with
the arguments formatted. -/
inductive Msg where
  | negativeTotalClientLockedCollateral (clientLocked : Int)
  | negativeTotalProviderLockedCollateral (clientLocked : Int)
  | negativeTotalClientStorageFee (clientLocked : Int)
  | duplicateDealProposal (dealID : Int)
  | nextIDNotGreater (nextID : Nat) (maxDealID : Int)
  | startEpochUndefined (dealID : Int) (dealState : DealState)
  | lastUpdatedBeforeStart (dealID : Int) (dealState : DealState)
  | slashedBeforeStart (dealID : Int) (dealState : DealState)
  | dealStateWithoutProposal (dealID : Int)
  | pendingKeyMismatch (pcid proposalCID : Cid)
  | pendingNotInProposals (pcid : Cid)
  | lockedGreaterThanEscrow (addr : Address) (lockedAmount escrowAmount : Int)
  | lockedTotalMismatch (lockedTotal providerLocked clientLocked storageFee : Int)
  | dealOpsKeyNotNatural (key : Key)
  | dealOpWithoutProposal (id : Nat) (epoch : Int)
  deriving DecidableEq, Repr

/-- Modelled from the spec: `builtin.MessageAccumulator`, the list of messages recorded. -/
abbrev MessageAccumulator := List Msg

/-- Modelled from the spec: method `acc.Require(predicate, msg, args...)` records the
message when the predicate is false. -/
def MessageAccumulator.Require (acc : MessageAccumulator) (predicate : Bool) (msg : Msg) :
    MessageAccumulator :=
  if predicate then acc else acc ++ [msg]

/-- The three values `CheckStateInvariants` returns; `none` is the Go `nil`. -/
structure CheckResult where
  summary : Option StateSummary
  acc : Option MessageAccumulator
  err : Option Error
  deriving DecidableEq, Repr

/-- The variables captured by the callback over the proposals. -/
structure ProposalVars where
  allIDs : List Nat
  proposalCids : List Cid
  maxDealID : Int
  proposalCount : Nat
  acc : MessageAccumulator

/-- The callback of `proposals.ForEach` (lines 53-72). -/
def proposalStep (env : Env) (s : ProposalVars) (dealID : Int) (proposal : DealProposal) :
    ProposalVars × Option Error :=
  let s := { s with allIDs := toDealID dealID :: s.allIDs }
  match env.proposalCid proposal with
  | .error e => (s, some e)
  | .ok pcid =>
    let found := s.proposalCids.contains pcid
    let acc := s.acc.Require (!found) (Msg.duplicateDealProposal dealID)
    ({ s with
        acc := acc
        proposalCids := pcid :: s.proposalCids
        maxDealID := if dealID > s.maxDealID then dealID else s.maxDealID
        proposalCount := s.proposalCount + 1 }, none)

/-- The variables captured by the callbacks after the proposals: a counter and the
accumulator. -/
structure CountVars where
  count : Nat
  acc : MessageAccumulator

/-- The callback of `dealStates.ForEach` (lines 90-108). -/
def dealStateStep (env : Env) (allIDs : List Nat) (s : CountVars) (dealID : Int)
    (dealState : DealState) : CountVars × Option Error :=
  let acc := s.acc.Require (decide (dealState.SectorStartEpoch ≥ 0))
    (Msg.startEpochUndefined dealID dealState)
  let acc := acc.Require
    (decide (dealState.LastUpdatedEpoch = env.epochUndefined) ||
      decide (dealState.LastUpdatedEpoch ≥ dealState.SectorStartEpoch))
    (Msg.lastUpdatedBeforeStart dealID dealState)
  let acc := acc.Require
    (decide (dealState.SlashEpoch = env.epochUndefined) ||
      decide (dealState.SlashEpoch ≥ dealState.SectorStartEpoch))
    (Msg.slashedBeforeStart dealID dealState)
  let found := allIDs.contains (toDealID dealID)
  let acc := acc.Require found (Msg.dealStateWithoutProposal dealID)
  ({ count := s.count + 1, acc := acc }, none)

/-- The callback of `pendingProposals.ForEach` (lines 123-140). -/
def pendingStep (env : Env) (proposalCids : List Cid) (s : CountVars) (key : Key)
    (pendingProposal : DealProposal) : CountVars × Option Error :=
  match env.cidParse key with
  | .error e => (s, some e)
  | .ok proposalCID =>
    match env.proposalCid pendingProposal with
    | .error e => (s, some e)
    | .ok pcid =>
      let acc := s.acc.Require (decide (pcid = proposalCID))
        (Msg.pendingKeyMismatch pcid proposalCID)
      let found := proposalCids.contains pcid
      let acc := acc.Require found (Msg.pendingNotInProposals pcid)
      ({ count := s.count + 1, acc := acc }, none)

/-- The variables captured by the callback over the locked table. -/
structure LockVars where
  lockedTotal : Int
  lockTableCount : Nat
  acc : MessageAccumulator

/-- The callback of the locked table's `ForEach` (lines 161-178). -/
def lockedStep (env : Env) (escrowTable : BalanceTable) (s : LockVars) (key : Key)
    (lockedAmount : Int) : LockVars × Option Error :=
  match env.addressFromBytes key with
  | .error e => (s, some e)
  | .ok addr =>
    let s := { s with lockedTotal := s.lockedTotal + lockedAmount }
    match escrowTable.Get addr with
    | .error e => (s, some e)
    | .ok escrowAmount =>
      let acc := s.acc.Require (decide (escrowAmount ≥ lockedAmount))
        (Msg.lockedGreaterThanEscrow addr lockedAmount escrowAmount)
      ({ s with acc := acc, lockTableCount := s.lockTableCount + 1 }, none)

/-- The variables captured by the callbacks over the deal ops. -/
structure DealOpVars where
  dealOpEpochCount : Nat
  dealOpCount : Nat
  acc : MessageAccumulator

/-- The inner callback of the deal ops (lines 207-212). -/
def dealOpStep (allIDs : List Nat) (epoch : Int) (s : DealOpVars) (id : Nat) :
    DealOpVars × Option Error :=
  let found := allIDs.contains id
  let acc := s.acc.Require found (Msg.dealOpWithoutProposal id epoch)
  ({ s with acc := acc, dealOpCount := s.dealOpCount + 1 }, none)

/-- The callback of `dealOps.mp.ForEach` (lines 202-213).  The requirement is the source's
`err != nil`. -/
def dealOpsStep (allIDs : List Nat) (dealOps : SetMultimap) (s : DealOpVars) (key : Key)
    (_setRoot : Except Error (Walk Nat Unit)) : DealOpVars × Option Error :=
  let parsed := ParseInt key
  let epoch := parsed.1
  let acc := s.acc.Require parsed.2 (Msg.dealOpsKeyNotNatural key)
  let s := { s with acc := acc, dealOpEpochCount := s.dealOpEpochCount + 1 }
  dealOps.ForEach epoch (dealOpStep allIDs epoch) s

/-- Function `CheckStateInvariants`. -/
def CheckStateInvariants (env : Env) (st : Snapshot) : CheckResult :=
  let acc : MessageAccumulator := []
  let acc := acc.Require (decide (st.TotalClientLockedCollateral ≥ 0))
    (Msg.negativeTotalClientLockedCollateral st.TotalClientLockedCollateral)
  let acc := acc.Require (decide (st.TotalProviderLockedCollateral ≥ 0))
    (Msg.negativeTotalProviderLockedCollateral st.TotalClientLockedCollateral)
  let acc := acc.Require (decide (st.TotalClientStorageFee ≥ 0))
    (Msg.negativeTotalClientStorageFee st.TotalClientLockedCollateral)
  -- Proposals
  match st.Proposals with
  | .error err => { summary := none, acc := some acc, err := some err }
  | .ok proposals =>
  match proposals.ForEach (proposalStep env)
      { allIDs := [], proposalCids := [], maxDealID := -1, proposalCount := 0, acc := acc } with
  | (p, some err) => { summary := none, acc := some p.acc, err := some err }
  | (p, none) =>
  let acc := p.acc.Require (decide (toInt64 st.NextID > p.maxDealID))
    (Msg.nextIDNotGreater st.NextID p.maxDealID)
  -- Deal States
  match st.States with
  | .error err => { summary := none, acc := some acc, err := some err }
  | .ok dealStates =>
  match dealStates.ForEach (dealStateStep env p.allIDs) { count := 0, acc := acc } with
  | (d, some err) => { summary := none, acc := some d.acc, err := some err }
  | (d, none) =>
  -- Pending Proposals
  match st.PendingProposals with
  | .error err => { summary := none, acc := none, err := some err }
  | .ok pendingProposals =>
  match pendingProposals.ForEach (pendingStep env p.proposalCids) { count := 0, acc := d.acc } with
  | (q, some err) => { summary := none, acc := some q.acc, err := some err }
  | (q, none) =>
  -- Escrow Table and Locked Table
  match st.EscrowTable with
  | .error err => { summary := none, acc := some q.acc, err := some err }
  | .ok escrowTable =>
  match st.LockedTable with
  | .error err => { summary := none, acc := some q.acc, err := some err }
  | .ok lockTable =>
  match lockTable.ForEach (lockedStep env escrowTable)
      { lockedTotal := 0, lockTableCount := 0, acc := q.acc } with
  | (l, some err) => { summary := none, acc := some l.acc, err := some err }
  | (l, none) =>
  let expectedLockTotal := st.TotalProviderLockedCollateral + st.TotalClientLockedCollateral +
    st.TotalClientStorageFee
  let acc := l.acc.Require (decide (l.lockedTotal = expectedLockTotal))
    (Msg.lockedTotalMismatch l.lockedTotal st.TotalProviderLockedCollateral
      st.TotalClientLockedCollateral st.TotalClientStorageFee)
  -- Deal Ops by Epoch
  match st.DealOpsByEpoch with
  | .error err => { summary := none, acc := some acc, err := some err }
  | .ok dealOps =>
  match dealOps.mp.ForEach (dealOpsStep p.allIDs dealOps)
      { dealOpEpochCount := 0, dealOpCount := 0, acc := acc } with
  | (o, some err) => { summary := none, acc := some o.acc, err := some err }
  | (o, none) =>
    { summary := some
        { ProposalCount := p.proposalCount
          PendingProposalCount := q.count
          DealStateCount := d.count
          LockTableCount := l.lockTableCount
          DealOpEpochCount := o.dealOpEpochCount
          DealOpCount := o.dealOpCount }
      acc := some o.acc
      err := none }

end Market

/-! ## Vocabulary of the properties, and sample data -/

/-- Sample `builtin` constants with pairwise distinct code identifiers. -/
def sampleBuiltin : Builtin :=
  { SystemActorAddr := Address.ID 0
    FirstNonSingletonActorId := 100
    MethodConstructor := 1
    AccountActorCodeID := 10
    PaymentChannelActorCodeID := 11
    StorageMinerActorCodeID := 12
    StoragePowerActorCodeID := 13 }

/-- The four code identifiers of `builtin` that `_codeIDSupportsExec` compares with are
pairwise distinct. -/
def Builtin.codesDistinct (b : Builtin) : Prop :=
  b.AccountActorCodeID ≠ b.PaymentChannelActorCodeID ∧
  b.AccountActorCodeID ≠ b.StorageMinerActorCodeID ∧
  b.AccountActorCodeID ≠ b.StoragePowerActorCodeID ∧
  b.PaymentChannelActorCodeID ≠ b.StorageMinerActorCodeID ∧
  b.PaymentChannelActorCodeID ≠ b.StoragePowerActorCodeID ∧
  b.StorageMinerActorCodeID ≠ b.StoragePowerActorCodeID

/-- The operations that Exec performs only after its code-ID check. -/
def Op.isExecEffect (op : Op) : Bool :=
  op.isNewActorAddress || op.isAcquireState || op.isCreateActor || op.isSend

/-- Exec stopped at its code-ID check: it aborted with the argument error through
`AbortArgMsg` and performed none of the operations that follow the check. -/
def InitActor.Exec.rejected (b : Builtin) (e : ActorCodeID) (params : MethodParams)
    (rt : Runtime) (s : RtState) : Prop :=
  (InitActor.Exec b e params rt s).1 = .error (Failure.abort ExitCode.InvalidArguments_User) ∧
  (InitActor.Exec b e params rt s).2.log.any Op.isAbortArgMsg = true ∧
  (InitActor.Exec b e params rt s).2.log.any Op.isExecEffect = false

/-- A sequence of `MapAddressToNewID` calls, one per address: the final state and the ID
addresses returned, in call order. -/
def InitActorState.mapAll (s : InitActorState) : List Address → InitActorState × List Address
  | [] => (s, [])
  | a :: rest =>
    let r := s.MapAddressToNewID a
    let rs := InitActorState.mapAll r.1 rest
    (rs.1, r.2 :: rs.2)

/-- Two ID addresses, the first with the smaller ID. -/
def Address.idLt (x y : Address) : Prop :=
  ∃ i j, x = NewIDAddress i ∧ y = NewIDAddress j ∧ i < j

/-- The invariant of the Init actor state: every value of the mapping is below `NextID`,
and no two addresses share an ID. -/
def InitActorState.inv (s : InitActorState) : Prop :=
  (∀ a v, s.AddressMap a = some v → v < s.NextID) ∧
  (∀ a a' v, s.AddressMap a = some v → s.AddressMap a' = some v → a = a')

/-- A state whose counter holds the largest `ActorID`. -/
def lastIDState : InitActorState :=
  { AddressMap := AddressMap.empty, NextID := U64 - 1, NetworkName := "net" }

/-- A sample runtime: the caller is actor 50 running the storage-power code, every nested
send succeeds and every callback to actor 7 fails. -/
def sampleRuntime : Runtime :=
  { ImmediateCaller := Address.ID 50
    ValueReceived := 5
    GetActorCodeID := fun a => if a = Address.ID 50 then some 13 else none
    NewActorAddress := Address.Actor 1
    NetworkName := "net"
    cidOf := fun st => st.NextID
    Send := fun _ _ _ _ _ => .ok []
    SendCatchingErrors := fun _ input =>
      if input.To = Address.ID 7 then ([], ExitCode.InconsistentState_User) else ([], ExitCode.OK) }

/-- The sample runtime with the system actor as the caller. -/
def systemRuntime : Runtime := { sampleRuntime with ImmediateCaller := Address.ID 0 }

/-- The sample runtime with a callee that aborts every nested send with exit code 7. -/
def failingRuntime : Runtime :=
  { sampleRuntime with Send := fun _ _ _ _ _ => .error (ExitCode.Other 7) }

/-- A store that holds the constructor's state under every identifier. -/
def sampleStore : Cid → Option InitActorState :=
  fun _ => some (InitActor.Constructor.st sampleBuiltin "net")

/-- A cron table with two entries, the first to actor 7 and the second to actor 8. -/
def sampleCron : CronActor :=
  { Entries := [{ ToAddr := Address.ID 7, MethodNum := 2 }, { ToAddr := Address.ID 8, MethodNum := 3 }] }

namespace Market

/-- A snapshot all of whose collections load and iterate without a store fault, as plain
data: the entries of each collection in iteration order, and the sets of the multimap. -/
structure Readable where
  TotalClientLockedCollateral : Int
  TotalProviderLockedCollateral : Int
  TotalClientStorageFee : Int
  NextID : Nat
  proposals : List (Int × DealProposal)
  states : List (Int × DealState)
  pending : List (Key × DealProposal)
  escrow : Address → Option Int
  locked : List (Key × Int)
  dealOps : List (Key × List Nat)

/-- The set of a readable multimap as the store yields it. -/
def Readable.set (ids : List Nat) : Except Error (Walk Nat Unit) :=
  .ok { entries := ids.map (fun id => (id, ())), fault := none }

/-- The snapshot that the checker receives for readable data. -/
def Readable.toSnapshot (r : Readable) : Snapshot :=
  { TotalClientLockedCollateral := r.TotalClientLockedCollateral
    TotalProviderLockedCollateral := r.TotalProviderLockedCollateral
    TotalClientStorageFee := r.TotalClientStorageFee
    NextID := r.NextID
    Proposals := .ok { entries := r.proposals, fault := none }
    States := .ok { entries := r.states, fault := none }
    PendingProposals := .ok { entries := r.pending, fault := none }
    EscrowTable := .ok { lookup := fun a => .ok (r.escrow a) }
    LockedTable := .ok { entries := r.locked, fault := none }
    DealOpsByEpoch := .ok { mp :=
      { entries := r.dealOps.map (fun e => (e.1, Readable.set e.2))
        fault := none } } }

/-- The six invariants of the checker, in the words of the specification: (1) non-negative
aggregates; (2) unique proposal fingerprints, and every deal ID plus one at most NextID;
(3) well-formed deal states that reference proposals; (4) pending proposals keyed by their
own fingerprint and backed by a proposal; (5) locked at most escrow for each address, and
the locked total equal to the sum of the aggregates; (6) deal-ops keys that parse as
non-negative integer epochs, with deal IDs that reference proposals. -/
def Readable.invariants (env : Env) (r : Readable) : Prop :=
  (0 ≤ r.TotalClientLockedCollateral ∧ 0 ≤ r.TotalProviderLockedCollateral ∧
    0 ≤ r.TotalClientStorageFee) ∧
  ((∀ e ∈ r.proposals, ∃ c, env.proposalCid e.2 = .ok c) ∧
    (r.proposals.map (fun e => env.proposalCid e.2)).Nodup ∧
    (∀ e ∈ r.proposals, 0 ≤ e.1 ∧ e.1 + 1 ≤ (r.NextID : Int))) ∧
  (∀ e ∈ r.states,
    0 ≤ e.2.SectorStartEpoch ∧
    (e.2.LastUpdatedEpoch = env.epochUndefined ∨ e.2.SectorStartEpoch ≤ e.2.LastUpdatedEpoch) ∧
    (e.2.SlashEpoch = env.epochUndefined ∨ e.2.SectorStartEpoch ≤ e.2.SlashEpoch) ∧
    e.1 ∈ r.proposals.map Prod.fst) ∧
  (∀ e ∈ r.pending, ∃ c, env.cidParse e.1 = .ok c ∧ env.proposalCid e.2 = .ok c ∧
    ∃ p ∈ r.proposals, env.proposalCid p.2 = .ok c) ∧
  ((∀ e ∈ r.locked, ∃ a, env.addressFromBytes e.1 = .ok a ∧ 0 ≤ e.2 ∧
      e.2 ≤ (r.escrow a).getD 0) ∧
    (r.locked.map Prod.snd).sum = r.TotalProviderLockedCollateral +
      r.TotalClientLockedCollateral + r.TotalClientStorageFee) ∧
  (∀ e ∈ r.dealOps, (ParseInt e.1).2 = false ∧ 0 ≤ (ParseInt e.1).1 ∧
    ∀ id ∈ e.2, (id : Int) ∈ r.proposals.map Prod.fst)

/-- A sample environment: the undefined epoch is -1, the fingerprint of a proposal is 1000
plus its content, a key with the single byte `n` is the identifier `n` and the ID address
`n`. -/
def sampleEnv : Env :=
  { epochUndefined := -1
    proposalCid := fun p => .ok (1000 + p.content)
    cidParse := fun key => match key with
      | [n] => .ok n
      | _ => .error { code := 1 }
    addressFromBytes := fun key => match key with
      | [n] => .ok (Address.ID n)
      | _ => .error { code := 2 } }

/-- The positive case of the specification: one proposal at deal ID 7, its deal state
(sector start 100, last updated 150, slash undefined), NextID 8, escrow and locked 10 for
one address, aggregates 4 + 3 + 3, no pending proposals and no deal ops. -/
def positiveCase : Readable :=
  { TotalClientLockedCollateral := 3
    TotalProviderLockedCollateral := 4
    TotalClientStorageFee := 3
    NextID := 8
    proposals := [(7, { content := 1 })]
    states := [(7, { SectorStartEpoch := 100, LastUpdatedEpoch := 150, SlashEpoch := -1 })]
    pending := []
    escrow := fun a => if a = Address.ID 9 then some 10 else none
    locked := [([9], 10)]
    dealOps := [] }

/-- The positive case with one deal op: deal 7 under the epoch key "150" (bytes 49, 53,
48). -/
def dealOpCase : Readable :=
  { positiveCase with dealOps := [([49, 53, 48], [7])] }

end Market

/-! ### Market: what the checker records on readable data -/

namespace Market

/-- The fingerprint of a proposal whose `Cid()` reports no error. -/
def Env.cidOf (env : Env) (p : DealProposal) : Cid :=
  match env.proposalCid p with
  | .ok c => c
  | .error _ => 0

/-- The content identifier that a key parses to with `cid.Parse`. -/
def Env.keyCid (env : Env) (key : Key) : Cid :=
  match env.cidParse key with
  | .ok c => c
  | .error _ => 0

/-- The address that a key decodes to with `address.NewFromBytes`. -/
def Env.keyAddress (env : Env) (key : Key) : Address :=
  match env.addressFromBytes key with
  | .ok a => a
  | .error _ => Address.ID 0

/-- Every key and proposal that the checker decodes does decode: each proposal and each
pending proposal has a fingerprint, each pending key parses as a content identifier and
each key of the locked table as an address. -/
def Readable.decodes (env : Env) (r : Readable) : Prop :=
  (∀ e ∈ r.proposals, ∃ c, env.proposalCid e.2 = .ok c) ∧
  (∀ e ∈ r.pending, (∃ c, env.cidParse e.1 = .ok c) ∧ ∃ c, env.proposalCid e.2 = .ok c) ∧
  (∀ e ∈ r.locked, ∃ a, env.addressFromBytes e.1 = .ok a)

/-- The keys of the proposals and deal-state arrays are array indices, from 0 to below
2^63, and the deal IDs of the deal ops and NextID are unsigned 64-bit integers. -/
def Readable.typed (r : Readable) : Prop :=
  (∀ e ∈ r.proposals, 0 ≤ e.1 ∧ e.1 < 2 ^ 63) ∧
  (∀ e ∈ r.states, 0 ≤ e.1 ∧ e.1 < 2 ^ 63) ∧
  (∀ e ∈ r.dealOps, ∀ id ∈ e.2, id < 2 ^ 64) ∧
  r.NextID < 2 ^ 64

/-- The balance of the escrow table for an address, 0 without an entry. -/
def Readable.escrowOf (r : Readable) (a : Address) : Int := (r.escrow a).getD 0

/-- The set `allIDs` after the walk over the proposals. -/
def Readable.allIDs (r : Readable) : List Nat :=
  (r.proposals.map (fun e => toDealID e.1)).reverse

/-- The set `proposalCids` after the walk over the proposals. -/
def Readable.proposalCids (env : Env) (r : Readable) : List Cid :=
  (r.proposals.map (fun e => env.cidOf e.2)).reverse

/-- The variable `maxDealID` after the walk over `ps`, from the value `m`. -/
def maxDealIDFrom (m : Int) (ps : List (Int × DealProposal)) : Int :=
  ps.foldl (fun m e => if e.1 > m then e.1 else m) m

/-- The variable `maxDealID` after the walk over the proposals. -/
def Readable.maxDealID (r : Readable) : Int := maxDealIDFrom (-1) r.proposals

/-- The messages of the three requirements on the aggregates (lines 27-37). -/
def aggregateMsgs (r : Readable) : List Msg :=
  (if r.TotalClientLockedCollateral < 0 then
      [Msg.negativeTotalClientLockedCollateral r.TotalClientLockedCollateral] else []) ++
  (if r.TotalProviderLockedCollateral < 0 then
      [Msg.negativeTotalProviderLockedCollateral r.TotalClientLockedCollateral] else []) ++
  (if r.TotalClientStorageFee < 0 then
      [Msg.negativeTotalClientStorageFee r.TotalClientLockedCollateral] else [])

/-- The duplicate messages of the walk over the proposals left, `seen` being the
fingerprints of the proposals walked before. -/
def duplicateMsgs (env : Env) : List Cid → List (Int × DealProposal) → List Msg
  | _, [] => []
  | seen, e :: rest =>
    (if env.cidOf e.2 ∈ seen then [Msg.duplicateDealProposal e.1] else []) ++
      duplicateMsgs env (env.cidOf e.2 :: seen) rest

/-- The message of the requirement on NextID (line 78). -/
def nextIDMsgs (r : Readable) : List Msg :=
  if toInt64 r.NextID > r.maxDealID then [] else [Msg.nextIDNotGreater r.NextID r.maxDealID]

/-- The messages of the four requirements on one deal state (lines 91-104). -/
def dealStateMsgs (env : Env) (allIDs : List Nat) (e : Int × DealState) : List Msg :=
  (if e.2.SectorStartEpoch < 0 then [Msg.startEpochUndefined e.1 e.2] else []) ++
  (if e.2.LastUpdatedEpoch ≠ env.epochUndefined ∧ e.2.LastUpdatedEpoch < e.2.SectorStartEpoch
    then [Msg.lastUpdatedBeforeStart e.1 e.2] else []) ++
  (if e.2.SlashEpoch ≠ env.epochUndefined ∧ e.2.SlashEpoch < e.2.SectorStartEpoch
    then [Msg.slashedBeforeStart e.1 e.2] else []) ++
  (if toDealID e.1 ∈ allIDs then [] else [Msg.dealStateWithoutProposal e.1])

/-- The messages of the two requirements on one pending proposal (lines 133-136). -/
def pendingMsgs (env : Env) (proposalCids : List Cid) (e : Key × DealProposal) : List Msg :=
  (if env.cidOf e.2 = env.keyCid e.1 then []
    else [Msg.pendingKeyMismatch (env.cidOf e.2) (env.keyCid e.1)]) ++
  (if env.cidOf e.2 ∈ proposalCids then [] else [Msg.pendingNotInProposals (env.cidOf e.2)])

/-- The message of the requirement on one entry of the locked table (line 173). -/
def lockedMsgs (env : Env) (r : Readable) (e : Key × Int) : List Msg :=
  if r.escrowOf (env.keyAddress e.1) < e.2 then
    [Msg.lockedGreaterThanEscrow (env.keyAddress e.1) e.2 (r.escrowOf (env.keyAddress e.1))]
  else []

/-- The message of the requirement on the locked total (line 185). -/
def lockedTotalMsgs (r : Readable) : List Msg :=
  if (r.locked.map Prod.snd).sum = r.TotalProviderLockedCollateral +
      r.TotalClientLockedCollateral + r.TotalClientStorageFee then []
  else [Msg.lockedTotalMismatch (r.locked.map Prod.snd).sum r.TotalProviderLockedCollateral
      r.TotalClientLockedCollateral r.TotalClientStorageFee]

/-- The deal IDs that the checker visits for an outer key of the deal ops: those of the set
stored under the key of the epoch that `strconv.ParseInt` returned for the outer key. -/
def Readable.visited (r : Readable) (key : Key) : List Nat :=
  match r.dealOps.lookup (SetMultimap.key (ParseInt key).1) with
  | some ids => ids
  | none => []

/-- The messages recorded for one outer key of the deal ops (lines 203-212). -/
def dealOpsMsgs (r : Readable) (key : Key) : List Msg :=
  (if (ParseInt key).2 = true then [] else [Msg.dealOpsKeyNotNatural key]) ++
  ((r.visited key).filter (fun id => !r.allIDs.contains id)).map
    (fun id => Msg.dealOpWithoutProposal id (ParseInt key).1)

/-- All messages of a run on readable data, in the order of the requirements. -/
def Readable.violations (env : Env) (r : Readable) : List Msg :=
  aggregateMsgs r ++ duplicateMsgs env [] r.proposals ++ nextIDMsgs r ++
  r.states.flatMap (dealStateMsgs env r.allIDs) ++
  r.pending.flatMap (pendingMsgs env (r.proposalCids env)) ++
  r.locked.flatMap (lockedMsgs env r) ++ lockedTotalMsgs r ++
  r.dealOps.flatMap (fun e => dealOpsMsgs r e.1)

/-- The summary of a run on readable data. -/
def Readable.summary (r : Readable) : StateSummary :=
  { ProposalCount := r.proposals.length
    PendingProposalCount := r.pending.length
    DealStateCount := r.states.length
    LockTableCount := r.locked.length
    DealOpEpochCount := r.dealOps.length
    DealOpCount := (r.dealOps.map (fun e => (r.visited e.1).length)).sum }

end Market

namespace Market

/-- The requirement of `testing.go` that records a message, numbered in source order:
0 to 2 the aggregates, 3 the duplicate proposals, 4 NextID, 5 to 8 the deal states,
9 and 10 the pending proposals, 11 locked against escrow, 12 the locked total, 13 the
deal-ops keys, 14 the deal ops. -/
def Msg.kind : Msg → Nat
  | .negativeTotalClientLockedCollateral _ => 0
  | .negativeTotalProviderLockedCollateral _ => 1
  | .negativeTotalClientStorageFee _ => 2
  | .duplicateDealProposal _ => 3
  | .nextIDNotGreater _ _ => 4
  | .startEpochUndefined _ _ => 5
  | .lastUpdatedBeforeStart _ _ => 6
  | .slashedBeforeStart _ _ => 7
  | .dealStateWithoutProposal _ => 8
  | .pendingKeyMismatch _ _ => 9
  | .pendingNotInProposals _ => 10
  | .lockedGreaterThanEscrow _ _ _ => 11
  | .lockedTotalMismatch _ _ _ _ => 12
  | .dealOpsKeyNotNatural _ => 13
  | .dealOpWithoutProposal _ _ => 14

/-- The messages up to the deal states, for readable data. -/
def Readable.earlyViolations (env : Env) (r : Readable) : List Msg :=
  aggregateMsgs r ++ duplicateMsgs env [] r.proposals ++ nextIDMsgs r ++
  r.states.flatMap (dealStateMsgs env r.allIDs)

end Market

namespace Market

/-- The violations of one deal state, in the words of the specification: a negative start
epoch, a defined last-updated epoch before the start, a defined slash epoch before the
start, and a key that is the ID of no proposal. -/
def Readable.dealStateViolations (env : Env) (r : Readable) (e : Int × DealState) : List Msg :=
  (if e.2.SectorStartEpoch < 0 then [Msg.startEpochUndefined e.1 e.2] else []) ++
  (if e.2.LastUpdatedEpoch ≠ env.epochUndefined ∧ e.2.LastUpdatedEpoch < e.2.SectorStartEpoch
    then [Msg.lastUpdatedBeforeStart e.1 e.2] else []) ++
  (if e.2.SlashEpoch ≠ env.epochUndefined ∧ e.2.SlashEpoch < e.2.SectorStartEpoch
    then [Msg.slashedBeforeStart e.1 e.2] else []) ++
  (if e.1 ∈ r.proposals.map Prod.fst then [] else [Msg.dealStateWithoutProposal e.1])

/-- The missing-proposal violations of the deal IDs stored under one outer key of the deal
ops, in the words of the specification. -/
def Readable.dealOpViolations (r : Readable) (e : Key × List Nat) : List Msg :=
  (e.2.filter (fun (id : Nat) => decide (Int.ofNat id ∉ r.proposals.map Prod.fst))).map
    (fun id => Msg.dealOpWithoutProposal id (ParseInt e.1).1)

/-- Every outer key of the deal ops is the key that the multimap gives the epoch it parses
to, and no key occurs twice. -/
def Readable.canonicalKeys (r : Readable) : Prop :=
  (∀ e ∈ r.dealOps, SetMultimap.key (ParseInt e.1).1 = e.1) ∧
  (r.dealOps.map Prod.fst).Nodup

/-- The positive case with two deal-ops keys: "150" (bytes 49, 53, 48), which parses, and
"abc" (bytes 97, 98, 99), which does not. -/
def keyCase : Readable :=
  { positiveCase with dealOps := [([49, 53, 48], [7]), ([97, 98, 99], [7])] }

/-- The positive case with NextID = 2^63. -/
def largeNextIDCase : Readable :=
  { positiveCase with NextID := 9223372036854775808 }

/-- The positive case with NextID = 5, below the proposal at deal ID 7. -/
def smallNextIDCase : Readable :=
  { positiveCase with NextID := 5 }

/-- The positive case with deal 9, which has no proposal, stored under the deal-ops key
"abc". -/
def orphanOpCase : Readable :=
  { positiveCase with dealOps := [([97, 98, 99], [9])] }

/-- The positive case with a second proposal and the deal-ops key "x" (byte 120), under
which the deal IDs 7 and 8 are stored. -/
def strayKeyCase : Readable :=
  { positiveCase with
    NextID := 9
    proposals := [(7, { content := 1 }), (8, { content := 2 })]
    dealOps := [([120], [7, 8])] }

/-- The positive case with a pending proposal under a key of two bytes, which the sample
`cid.Parse` rejects. -/
def badPendingKeyCase : Readable :=
  { positiveCase with pending := [([1, 2], { content := 1 })] }

/-- A snapshot with NextID = 5 below its proposal at deal ID 7, whose pending-proposals map
cannot be loaded from the store. -/
def pendingFaultCase : Snapshot :=
  { smallNextIDCase.toSnapshot with PendingProposals := .error { code := 5 } }

/-- The same data with the deal-states array failing to load in place of the pending
proposals. -/
def statesFaultCase : Snapshot :=
  { smallNextIDCase.toSnapshot with States := .error { code := 5 } }

/-- The positive case with two pending proposals: the first under a key of two bytes, which
the sample `cid.Parse` rejects, the second under the key that parses to the identifier 4,
with fingerprint 1005. -/
def stoppedPendingCase : Readable :=
  { positiveCase with pending := [([1, 2], { content := 1 }), ([4], { content := 5 })] }

/-- The positive case with escrow 5 against locked 10 for its address and aggregates
4 + 3 + 4 = 11 against the locked total 10, and with one pending proposal under a key that
the sample `cid.Parse` rejects. -/
def stoppedLockedCase : Readable :=
  { positiveCase with
    TotalClientStorageFee := 4
    escrow := fun a => if a = Address.ID 9 then some 5 else none
    pending := [([1, 2], { content := 1 })] }

/-- The positive case with deal 9, which has no proposal, stored under the deal-ops key
"150", and with one pending proposal under a key that the sample `cid.Parse` rejects. -/
def stoppedDealOpCase : Readable :=
  { positiveCase with
    pending := [([1, 2], { content := 1 })]
    dealOps := [([49, 53, 48], [9])] }

end Market

/-! ### The logs of Exec -/

/-- The log of Exec up to the code-ID check. -/
def InitActor.Exec.logCheck (rt : Runtime) : List Op :=
  [Op.ValidateImmediateCallerAcceptAny, Op.ImmediateCaller,
   Op.GetActorCodeID rt.ImmediateCaller, Op.ImmediateCaller]

/-- The log of Exec from the check to the state load. -/
def InitActor.Exec.logLoad (stateCID : Cid) : List Op :=
  [Op.NewActorAddress, Op.AcquireState, Op.Take, Op.IpldGet stateCID]

/-- The state Exec commits when it loaded `st`. -/
def InitActor.Exec.newState (rt : Runtime) (st : InitActorState) : InitActorState :=
  (st.MapAddressToNewID rt.NewActorAddress).1

/-- The log of Exec from the state load up to, and without, the nested send. -/
def InitActor.Exec.logCommit (rt : Runtime) (e : ActorCodeID) (st : InitActorState) : List Op :=
  [Op.IpldPut (InitActor.Exec.newState rt st),
   Op.UpdateRelease (rt.cidOf (InitActor.Exec.newState rt st)),
   Op.CreateActor e (NewIDAddress st.NextID),
   Op.ValueReceived]

/-! ## How the methods run

The complete runs of the methods of the Init actor and of the Cron actor, case by case. -/

theorem InitActor.Exec_run_nocode (b : Builtin) (rt : Runtime) (s : RtState)
    (e : ActorCodeID) (params : MethodParams)
    (hc : rt.GetActorCodeID rt.ImmediateCaller = none) :
    InitActor.Exec b e params rt s =
      (.error Failure.assertion, { s with log := s.log ++ InitActor.Exec.logCheck rt }) := by
  simp [InitActor.Exec, bind, RT.andThen, RT.ValidateImmediateCallerAcceptAny, RT.emit,
    RT.ImmediateCaller, RT.GetActorCodeID, hc, RT.fail, InitActor.Exec.logCheck]

theorem InitActor.Exec_run_reject (b : Builtin) (rt : Runtime) (s : RtState)
    (c e : ActorCodeID) (params : MethodParams)
    (hc : rt.GetActorCodeID rt.ImmediateCaller = some c)
    (hs : InitActor._codeIDSupportsExec b c e = false) :
    InitActor.Exec b e params rt s =
      (.error (Failure.abort ExitCode.InvalidArguments_User),
       { s with log := s.log ++ InitActor.Exec.logCheck rt ++
           [Op.AbortArgMsg "Caller type cannot create an actor of requested type"] }) := by
  simp [InitActor.Exec, bind, RT.andThen, RT.ValidateImmediateCallerAcceptAny, RT.emit,
    RT.ImmediateCaller, RT.GetActorCodeID, hc, hs, RT.AbortArgMsg, InitActor.Exec.logCheck]

theorem InitActor.Exec_run_nostate (b : Builtin) (rt : Runtime) (s : RtState)
    (c e : ActorCodeID) (params : MethodParams)
    (hc : rt.GetActorCodeID rt.ImmediateCaller = some c)
    (hs : InitActor._codeIDSupportsExec b c e = true)
    (hl : s.store s.stateCID = none) :
    InitActor.Exec b e params rt s =
      (.error (Failure.abort ExitCode.RuntimeAPIError),
       { s with log := s.log ++ InitActor.Exec.logCheck rt ++ InitActor.Exec.logLoad s.stateCID ++
           [Op.AbortAPI "state not found"] }) := by
  simp [InitActor.Exec, bind, RT.andThen, RT.ValidateImmediateCallerAcceptAny, RT.emit,
    RT.ImmediateCaller, RT.GetActorCodeID, hc, hs, RT.AbortAPI, InitActor.Exec.logCheck,
    InitActor.Exec.logLoad, RT.NewActorAddress, InitActor._loadState, RT.AcquireState,
    ActorStateHandle.Take, RT.IpldGet, hl]

theorem InitActor.Exec_run_loaded (b : Builtin) (rt : Runtime) (s : RtState)
    (c e : ActorCodeID) (params : MethodParams) (st : InitActorState)
    (hc : rt.GetActorCodeID rt.ImmediateCaller = some c)
    (hs : InitActor._codeIDSupportsExec b c e = true)
    (hl : s.store s.stateCID = some st) :
    InitActor.Exec b e params rt s =
      ((match rt.Send (s.log ++ InitActor.Exec.logCheck rt ++ InitActor.Exec.logLoad s.stateCID ++
                InitActor.Exec.logCommit rt e st)
              (NewIDAddress st.NextID) b.MethodConstructor params rt.ValueReceived with
        | .ok _ => .ok { IDAddress := NewIDAddress st.NextID, RobustAddress := rt.NewActorAddress }
        | .error code => .error (Failure.abort code)),
       { log := s.log ++ InitActor.Exec.logCheck rt ++ InitActor.Exec.logLoad s.stateCID ++
           InitActor.Exec.logCommit rt e st ++
           [Op.Send (NewIDAddress st.NextID) b.MethodConstructor params rt.ValueReceived]
         stateCID := rt.cidOf (InitActor.Exec.newState rt st)
         store := fun k => if k = rt.cidOf (InitActor.Exec.newState rt st)
           then some (InitActor.Exec.newState rt st) else s.store k }) := by
  simp [InitActor.Exec, bind, RT.andThen, RT.ValidateImmediateCallerAcceptAny, RT.emit,
    RT.ImmediateCaller, RT.GetActorCodeID, hc, hs, InitActor.Exec.logCheck,
    InitActor.Exec.logLoad, RT.NewActorAddress, InitActor._loadState, RT.AcquireState,
    ActorStateHandle.Take, RT.IpldGet, hl, InitActor.UpdateRelease, RT.IpldPut,
    ActorStateHandle.UpdateRelease, RT.CreateActor, RT.ValueReceived, RT.Send, pure, RT.ret,
    InitActor.Exec.logCommit, InitActor.Exec.newState, InitActorState.MapAddressToNewID]
  generalize rt.Send _ _ _ _ _ = r
  cases r <;> rfl

theorem InitActor.Constructor_run_denied (b : Builtin) (rt : Runtime) (s : RtState)
    (h : rt.ImmediateCaller ≠ b.SystemActorAddr) :
    InitActor.Constructor b rt s =
      (.error (Failure.abort ExitCode.InvalidCaller),
       { s with log := s.log ++ [Op.ValidateImmediateCallerIs [b.SystemActorAddr]] }) := by
  simp [InitActor.Constructor, bind, RT.andThen, RT.ValidateImmediateCallerIs, h]

theorem InitActor.Constructor_run_ok (b : Builtin) (rt : Runtime) (s : RtState)
    (h : rt.ImmediateCaller = b.SystemActorAddr) :
    InitActor.Constructor b rt s =
      (.ok {},
       { log := s.log ++ [Op.ValidateImmediateCallerIs [b.SystemActorAddr], Op.AcquireState,
           Op.IpldPut (InitActor.Constructor.st b rt.NetworkName),
           Op.UpdateRelease (rt.cidOf (InitActor.Constructor.st b rt.NetworkName))]
         stateCID := rt.cidOf (InitActor.Constructor.st b rt.NetworkName)
         store := fun k => if k = rt.cidOf (InitActor.Constructor.st b rt.NetworkName)
           then some (InitActor.Constructor.st b rt.NetworkName) else s.store k }) := by
  simp [InitActor.Constructor, bind, RT.andThen, RT.ValidateImmediateCallerIs, h,
    RT.AcquireState, RT.NetworkName, InitActor.UpdateRelease, RT.IpldPut,
    ActorStateHandle.UpdateRelease, pure, RT.ret]

theorem CronActor.EpochTick.loop_run (entries : List CronTableEntry) (rt : Runtime)
    (s : RtState) :
    CronActor.EpochTick.loop entries rt s =
      (.ok (), { s with log := (s.log ++
        entries.map (fun entry => Op.SendCatchingErrors (CronActor.EpochTick.input entry))) }) := by
  induction entries generalizing s with
  | nil => simp [CronActor.EpochTick.loop, pure, RT.ret]
  | cons entry rest ih =>
    simp [CronActor.EpochTick.loop, bind, RT.andThen, RT.SendCatchingErrors, ih,
      CronActor.EpochTick.input]

theorem CronActor.EpochTick_run_denied (b : Builtin) (a : CronActor) (rt : Runtime)
    (s : RtState) (h : rt.ImmediateCaller ≠ b.SystemActorAddr) :
    CronActor.EpochTick b a rt s =
      (.error (Failure.abort ExitCode.InvalidCaller),
       { s with log := s.log ++ [Op.ValidateImmediateCallerIs [b.SystemActorAddr]] }) := by
  simp [CronActor.EpochTick, bind, RT.andThen, RT.ValidateImmediateCallerIs, h]

theorem CronActor.EpochTick_run_ok (b : Builtin) (a : CronActor) (rt : Runtime)
    (s : RtState) (h : rt.ImmediateCaller = b.SystemActorAddr) :
    CronActor.EpochTick b a rt s =
      (.ok {},
       { s with log := (s.log ++ Op.ValidateImmediateCallerIs [b.SystemActorAddr] ::
          a.Entries.map (fun entry => Op.SendCatchingErrors (CronActor.EpochTick.input entry))) }) := by
  simp [CronActor.EpochTick, bind, RT.andThen, RT.ValidateImmediateCallerIs, h,
    CronActor.EpochTick.loop_run, pure, RT.ret]

theorem CronActor.Constructor_run (b : Builtin) (a : CronActor) (rt : Runtime) (s : RtState) :
    CronActor.Constructor b a rt s =
      (if rt.ImmediateCaller = b.SystemActorAddr then .ok {}
        else .error (Failure.abort ExitCode.InvalidCaller),
       { s with log := s.log ++ [Op.ValidateImmediateCallerIs [b.SystemActorAddr]] }) := by
  by_cases h : rt.ImmediateCaller = b.SystemActorAddr <;>
    simp [CronActor.Constructor, bind, RT.andThen, RT.ValidateImmediateCallerIs, h, pure, RT.ret]

/-- Under distinct code identifiers the check of `_codeIDSupportsExec` is the stated
disjunction. -/
theorem InitActor.codeIDSupportsExec_iff (b : Builtin) (c e : ActorCodeID)
    (hd : b.codesDistinct) :
    InitActor._codeIDSupportsExec b c e = true ↔
      (e = b.PaymentChannelActorCodeID ∨
        (e = b.StorageMinerActorCodeID ∧ c = b.StoragePowerActorCodeID)) := by
  obtain ⟨h1, h2, -, h4, -, -⟩ := hd
  unfold InitActor._codeIDSupportsExec
  by_cases ha : e = b.AccountActorCodeID
  · subst ha
    simp [h1, h2]
  · by_cases hp : e = b.PaymentChannelActorCodeID
    · simp [hp, h1.symm]
    · by_cases hm : e = b.StorageMinerActorCodeID
      · by_cases hw : c = b.StoragePowerActorCodeID <;> simp [hm, hw, h2.symm, h4.symm]
      · simp [ha, hp, hm]

/-! ## Init actor: authorization of Exec -/

/-- C1: with pairwise distinct Account, PaymentChannel, StorageMiner and StoragePower code
IDs, for a caller of code `c` and a requested code `e`, Exec aborts with the argument error
of `AbortArgMsg`, having issued no NewActorAddress, AcquireState, CreateActor or Send,
exactly when not (`e` is PaymentChannel, or `e` is StorageMiner and `c` is StoragePower);
so `e` = Account is rejected for every caller, and `e` = StorageMiner passes the check only
for a StoragePower caller. -/
theorem InitActor.Exec_rejected_iff (b : Builtin) (rt : Runtime) (cid : Cid)
    (store : Cid → Option InitActorState) (c e : ActorCodeID) (params : MethodParams)
    (hd : b.codesDistinct)
    (hc : rt.GetActorCodeID rt.ImmediateCaller = some c) :
    (InitActor.Exec.rejected b e params rt (RtState.start cid store) ↔
      ¬ (e = b.PaymentChannelActorCodeID ∨
          (e = b.StorageMinerActorCodeID ∧ c = b.StoragePowerActorCodeID))) ∧
    (e = b.AccountActorCodeID →
      InitActor.Exec.rejected b e params rt (RtState.start cid store)) ∧
    (e = b.StorageMinerActorCodeID →
      (¬ InitActor.Exec.rejected b e params rt (RtState.start cid store) ↔
        c = b.StoragePowerActorCodeID)) := by
  have key : InitActor.Exec.rejected b e params rt (RtState.start cid store) ↔
      InitActor._codeIDSupportsExec b c e = false := by
    unfold InitActor.Exec.rejected
    cases hs : InitActor._codeIDSupportsExec b c e
    · rw [InitActor.Exec_run_reject b rt _ c e params hc hs]
      simp [InitActor.Exec.logCheck, RtState.start, Op.isAbortArgMsg, Op.isExecEffect,
        Op.isNewActorAddress, Op.isAcquireState, Op.isCreateActor, Op.isSend]
    · cases hl : store cid with
      | none =>
        rw [InitActor.Exec_run_nostate b rt _ c e params hc hs hl]
        simp
      | some st =>
        rw [InitActor.Exec_run_loaded b rt _ c e params st hc hs hl]
        simp [InitActor.Exec.logCheck, InitActor.Exec.logLoad, RtState.start, Op.isExecEffect,
          Op.isNewActorAddress]
  have hiff := InitActor.codeIDSupportsExec_iff b c e hd
  obtain ⟨h1, h2, h3, h4, h5, h6⟩ := hd
  refine ⟨?_, ?_, ?_⟩
  · rw [key, ← hiff]; simp
  · intro he
    rw [key]
    cases hs : InitActor._codeIDSupportsExec b c e
    · rfl
    · rcases hiff.mp hs with hp | ⟨hm, -⟩
      · exact absurd (he.symm.trans hp) h1
      · exact absurd (he.symm.trans hm) h2
  · intro he
    rw [key]
    constructor
    · intro hn
      have hs : InitActor._codeIDSupportsExec b c e = true := by
        cases h : InitActor._codeIDSupportsExec b c e
        · exact absurd h hn
        · rfl
      rcases hiff.mp hs with hp | ⟨-, hw⟩
      · exact absurd (hp.symm.trans he) h4
      · exact hw
    · intro hw
      have hs : InitActor._codeIDSupportsExec b c e = true := hiff.mpr (Or.inr ⟨he, hw⟩)
      simp [hs]

/-- An account caller (code 10 of the sample constants) asking for a storage miner (code
12) is rejected by Exec. -/
theorem InitActor.Exec_rejected_iff_witness :
    sampleBuiltin.codesDistinct ∧
    InitActor.Exec.rejected sampleBuiltin 12 []
      { sampleRuntime with GetActorCodeID := fun _ => some 10 } (RtState.start 0 (fun _ => none)) :=
  ⟨by simp [Builtin.codesDistinct, sampleBuiltin],
   ((InitActor.Exec_rejected_iff sampleBuiltin
      { sampleRuntime with GetActorCodeID := fun _ => some 10 } 0 (fun _ => none) 10 12 []
      (by simp [Builtin.codesDistinct, sampleBuiltin]) rfl).1).mpr
      (by simp [sampleBuiltin])⟩

/-! ## Init actor: allocation of IDs -/

/-- Without wrap-around the ID addresses returned by a sequence of calls are those of
`NextID`, `NextID + 1`, ... in order, and the counter ends at `NextID` plus the number of
calls. -/
theorem InitActorState.mapAll_eq (s : InitActorState) (addrs : List Address)
    (h : s.NextID + addrs.length ≤ U64) :
    (s.mapAll addrs).2 = (List.range addrs.length).map (fun i => NewIDAddress (s.NextID + i)) ∧
    (addrs ≠ [] → (s.mapAll addrs).1.NextID = (s.NextID + addrs.length) % U64) := by
  induction addrs generalizing s with
  | nil => simp [InitActorState.mapAll]
  | cons a rest ih =>
    simp only [List.length_cons] at h
    have hlt : s.NextID + 1 < U64 ∨ rest = [] := by
      cases rest with
      | nil => exact Or.inr rfl
      | cons x xs => left; simp only [List.length_cons] at h; omega
    rcases hlt with hlt | hnil
    · have hn : (s.MapAddressToNewID a).1.NextID = s.NextID + 1 := by
        simp [InitActorState.MapAddressToNewID, Nat.mod_eq_of_lt hlt]
      have ih' := ih (s.MapAddressToNewID a).1 (by rw [hn]; omega)
      constructor
      · simp only [InitActorState.mapAll, ih'.1, List.length_cons, List.range_succ_eq_map,
          List.map_cons, List.map_map, hn]
        simp [InitActorState.MapAddressToNewID, Function.comp_def, Nat.add_assoc, Nat.add_comm 1]
      · intro _
        cases rest with
        | nil => simp [InitActorState.mapAll, InitActorState.MapAddressToNewID]
        | cons x xs =>
          simp only [InitActorState.mapAll] at ih' ⊢
          rw [ih'.2 (by simp), hn]
          simp [Nat.add_assoc, Nat.add_comm 1]
    · subst hnil
      simp [InitActorState.mapAll, InitActorState.MapAddressToNewID, List.range_succ]

/-- C2, as amended: for every state and every sequence of MapAddressToNewID calls that
does not carry the 64-bit counter past its last value (NextID plus the number of calls is
at most 2^64), the ID addresses allocated are strictly increasing in call order, so none
is allocated twice. -/
theorem InitActorState.mapAll_strictly_increasing (s : InitActorState) (addrs : List Address)
    (h : s.NextID + addrs.length ≤ U64) :
    List.Pairwise Address.idLt (s.mapAll addrs).2 ∧ (s.mapAll addrs).2.Nodup := by
  have hp : List.Pairwise Address.idLt (s.mapAll addrs).2 := by
    rw [(InitActorState.mapAll_eq s addrs h).1, List.pairwise_map]
    refine List.Pairwise.imp ?_ (List.pairwise_lt_range addrs.length)
    intro i j hij
    exact ⟨s.NextID + i, s.NextID + j, rfl, rfl, by omega⟩
  refine ⟨hp, hp.imp ?_⟩
  rintro x y ⟨i, j, rfl, rfl, hij⟩ heq
  simp only [NewIDAddress, Address.ID.injEq] at heq
  omega

/-- Three calls from the state written with counter 100 allocate 100, 101, 102. -/
theorem InitActorState.mapAll_strictly_increasing_witness :
    List.Pairwise Address.idLt
      ((InitActor.Constructor.st sampleBuiltin "net").mapAll
        [Address.Actor 1, Address.Actor 2, Address.Actor 1]).2 :=
  (InitActorState.mapAll_strictly_increasing (InitActor.Constructor.st sampleBuiltin "net")
    [Address.Actor 1, Address.Actor 2, Address.Actor 1] (by decide)).1

/-- C2 fails as stated: from a state whose counter is 2^64 - 1, two calls allocate the IDs
2^64 - 1 and then 0, which is not increasing. -/
theorem InitActorState.mapAll_wraps :
    (lastIDState.mapAll [Address.Actor 1, Address.Actor 2]).2
        = [Address.ID 18446744073709551615, Address.ID 0] ∧
    ¬ List.Pairwise Address.idLt (lastIDState.mapAll [Address.Actor 1, Address.Actor 2]).2 := by
  have e : (lastIDState.mapAll [Address.Actor 1, Address.Actor 2]).2
      = [Address.ID 18446744073709551615, Address.ID 0] := by decide
  refine ⟨e, ?_⟩
  rw [e]
  simp only [List.pairwise_cons, List.mem_singleton, forall_eq, not_and]
  rintro ⟨i, j, hi, hj, hij⟩
  simp only [NewIDAddress, Address.ID.injEq] at hi hj
  omega

/-! ## Init actor: stability of resolved addresses -/

/-- A call of MapAddressToNewID on another address leaves the entry of `a` alone. -/
theorem InitActorState.MapAddressToNewID_other (s : InitActorState) (a a' : Address)
    (h : a ≠ a') :
    (s.MapAddressToNewID a').1.AddressMap a = s.AddressMap a := by
  simp [InitActorState.MapAddressToNewID, AddressMap.set, h]

theorem InitActorState.mapAll_other (s : InitActorState) (a : Address) (addrs : List Address)
    (h : a ∉ addrs) :
    (s.mapAll addrs).1.AddressMap a = s.AddressMap a := by
  induction addrs generalizing s with
  | nil => rfl
  | cons x rest ih =>
    simp only [List.mem_cons, not_or] at h
    simp only [InitActorState.mapAll]
    rw [ih _ h.2, InitActorState.MapAddressToNewID_other s a x h.1]

/-- C3, as amended: once MapAddressToNewID has mapped an address `a`, ResolveAddress of `a`
is the ID address allocated then, and it stays so after every later sequence of
MapAddressToNewID calls on addresses other than `a`. -/
theorem InitActorState.ResolveAddress_stable (s : InitActorState) (a : Address)
    (later : List Address) (h : a ∉ later) :
    (s.MapAddressToNewID a).1.ResolveAddress a = (s.MapAddressToNewID a).2 ∧
    ((s.MapAddressToNewID a).1.mapAll later).1.ResolveAddress a
      = (s.MapAddressToNewID a).1.ResolveAddress a := by
  constructor
  · simp [InitActorState.ResolveAddress, InitActorState.MapAddressToNewID, AddressMap.set]
  · simp only [InitActorState.ResolveAddress, InitActorState.mapAll_other _ a later h]

/-- The address mapped first keeps its ID 100 while two other addresses are mapped. -/
theorem InitActorState.ResolveAddress_stable_witness :
    ((((InitActor.Constructor.st sampleBuiltin "net").MapAddressToNewID (Address.Actor 1)).1.mapAll
        [Address.Actor 2, Address.Key 3]).1.ResolveAddress (Address.Actor 1)
      = ((InitActor.Constructor.st sampleBuiltin "net").MapAddressToNewID
          (Address.Actor 1)).1.ResolveAddress (Address.Actor 1)) :=
  (InitActorState.ResolveAddress_stable (InitActor.Constructor.st sampleBuiltin "net")
    (Address.Actor 1) [Address.Actor 2, Address.Key 3] (by decide)).2

/-- C3 fails as stated: a later MapAddressToNewID call on the same address replaces its
entry, and ResolveAddress then returns the new ID address (101 in place of 100). -/
theorem InitActorState.ResolveAddress_remapped :
    ((InitActor.Constructor.st sampleBuiltin "net").MapAddressToNewID
        (Address.Actor 1)).1.ResolveAddress (Address.Actor 1) = Address.ID 100 ∧
    ((((InitActor.Constructor.st sampleBuiltin "net").MapAddressToNewID (Address.Actor 1)).1.mapAll
        [Address.Actor 1]).1.ResolveAddress (Address.Actor 1)) = Address.ID 101 ∧
    ((((InitActor.Constructor.st sampleBuiltin "net").MapAddressToNewID (Address.Actor 1)).1.mapAll
        [Address.Actor 1]).1.ResolveAddress (Address.Actor 1))
      ≠ ((InitActor.Constructor.st sampleBuiltin "net").MapAddressToNewID
          (Address.Actor 1)).1.ResolveAddress (Address.Actor 1) := by
  refine ⟨by decide, by decide, by decide⟩

/-! ## Init actor: the state invariant -/

/-- C4, as amended: the predicate "every value in AddressMap is less than NextID, and
AddressMap is injective" holds of every state that Init.Constructor writes to the store,
and a call of MapAddressToNewID, for every address argument, preserves it provided the
64-bit counter is not at its last value (NextID + 1 < 2^64). -/
theorem InitActorState.inv_constructor_and_step (b : Builtin) (rt : Runtime) (cid : Cid)
    (store : Cid → Option InitActorState) (s : InitActorState) (a : Address) :
    (∀ st, Op.IpldPut st ∈ (InitActor.Constructor b rt (RtState.start cid store)).2.log →
      st.inv) ∧
    (s.inv → s.NextID + 1 < U64 → (s.MapAddressToNewID a).1.inv) := by
  constructor
  · intro st hst
    by_cases hcall : rt.ImmediateCaller = b.SystemActorAddr
    · simp [InitActor.Constructor, bind, RT.andThen, RT.ValidateImmediateCallerIs, hcall,
        RT.AcquireState, RT.NetworkName, InitActor.UpdateRelease, RT.IpldPut,
        ActorStateHandle.UpdateRelease, pure, RT.ret, RtState.start] at hst
      subst hst
      simp [InitActorState.inv, InitActor.Constructor.st, AddressMap.empty]
    · simp [InitActor.Constructor, bind, RT.andThen, RT.ValidateImmediateCallerIs, hcall,
        RtState.start] at hst
  · rintro ⟨hlt, hinj⟩ hn
    have hnext : (s.MapAddressToNewID a).1.NextID = s.NextID + 1 := by
      simp [InitActorState.MapAddressToNewID, Nat.mod_eq_of_lt hn]
    constructor
    · intro x v hx
      rw [hnext]
      simp only [InitActorState.MapAddressToNewID, AddressMap.set] at hx
      split at hx
      · simp only [Option.some.injEq] at hx; omega
      · have := hlt x v hx; omega
    · intro x y v hx hy
      simp only [InitActorState.MapAddressToNewID, AddressMap.set] at hx hy
      split at hx <;> split at hy
      · simp_all
      · simp only [Option.some.injEq] at hx; have := hlt y v hy; omega
      · simp only [Option.some.injEq] at hy; have := hlt x v hx; omega
      · exact hinj x y v hx hy

/-- The state written by the constructor satisfies the invariant and keeps it when an
address is mapped. -/
theorem InitActorState.inv_constructor_and_step_witness :
    (InitActor.Constructor.st sampleBuiltin "net").inv ∧
    ((InitActor.Constructor.st sampleBuiltin "net").MapAddressToNewID (Address.Actor 1)).1.inv :=
  have hinv : (InitActor.Constructor.st sampleBuiltin "net").inv :=
    (InitActorState.inv_constructor_and_step sampleBuiltin
      { sampleRuntime with ImmediateCaller := Address.ID 0 } 0 (fun _ => none)
      (InitActor.Constructor.st sampleBuiltin "net") (Address.Actor 1)).1
      (InitActor.Constructor.st sampleBuiltin "net")
      (by simp [InitActor.Constructor, bind, RT.andThen, RT.ValidateImmediateCallerIs,
        RT.AcquireState, RT.NetworkName, InitActor.UpdateRelease, RT.IpldPut,
        ActorStateHandle.UpdateRelease, pure, RT.ret, RtState.start, sampleBuiltin,
        sampleRuntime])
  ⟨hinv,
   (InitActorState.inv_constructor_and_step sampleBuiltin sampleRuntime 0 (fun _ => none)
      (InitActor.Constructor.st sampleBuiltin "net") (Address.Actor 1)).2 hinv (by decide)⟩

/-- C4 fails as stated: the state with an empty mapping and counter 2^64 - 1 satisfies the
predicate, and after one MapAddressToNewID call the counter is 0 while the mapping holds
the value 2^64 - 1. -/
theorem InitActorState.inv_broken_by_wrap :
    lastIDState.inv ∧ ¬ (lastIDState.MapAddressToNewID (Address.Actor 1)).1.inv := by
  constructor
  · simp [InitActorState.inv, lastIDState, AddressMap.empty]
  · rintro ⟨hlt, -⟩
    have h := hlt (Address.Actor 1) (U64 - 1)
      (by simp [InitActorState.MapAddressToNewID, AddressMap.set, lastIDState])
    have h0 : (lastIDState.MapAddressToNewID (Address.Actor 1)).1.NextID = 0 := by decide
    rw [h0] at h
    exact Nat.not_lt_zero _ h

/-! ## Init actor: the successful Exec -/

/-- The successful run of Exec for every value of the counter: when Exec passes the
code-ID check, loads the state (AddressMap `m`, NextID `n`, NetworkName `name`) and the
nested send succeeds, with `u` the address NewActorAddress returned, then Exec stores and
commits with UpdateRelease the state (`m[u := n]`, `(n + 1) % 2^64`, `name`), next calls
CreateActor(execCodeID, ID-address(n)), next Send(ID-address(n), MethodConstructor,
constructorParams, ValueReceived()), and returns ExecReturn{ID-address(n), u}. -/
theorem InitActor.Exec_success (b : Builtin) (rt : Runtime) (cid : Cid)
    (store : Cid → Option InitActorState) (c e : ActorCodeID) (params : MethodParams)
    (m : AddressMap) (n : Nat) (name : String) (ret : SendReturn)
    (hc : rt.GetActorCodeID rt.ImmediateCaller = some c)
    (hs : InitActor._codeIDSupportsExec b c e = true)
    (hl : store cid = some { AddressMap := m, NextID := n, NetworkName := name })
    (hsend : rt.Send
      [Op.ValidateImmediateCallerAcceptAny, Op.ImmediateCaller,
       Op.GetActorCodeID rt.ImmediateCaller, Op.ImmediateCaller,
       Op.NewActorAddress, Op.AcquireState, Op.Take, Op.IpldGet cid,
       Op.IpldPut { AddressMap := m.set rt.NewActorAddress n, NextID := (n + 1) % U64,
                    NetworkName := name },
       Op.UpdateRelease (rt.cidOf { AddressMap := m.set rt.NewActorAddress n,
                                    NextID := (n + 1) % U64, NetworkName := name }),
       Op.CreateActor e (NewIDAddress n), Op.ValueReceived]
      (NewIDAddress n) b.MethodConstructor params rt.ValueReceived = .ok ret) :
    InitActor.Exec b e params rt (RtState.start cid store) =
      (.ok { IDAddress := NewIDAddress n, RobustAddress := rt.NewActorAddress },
       { log :=
          [Op.ValidateImmediateCallerAcceptAny, Op.ImmediateCaller,
           Op.GetActorCodeID rt.ImmediateCaller, Op.ImmediateCaller,
           Op.NewActorAddress, Op.AcquireState, Op.Take, Op.IpldGet cid,
           Op.IpldPut { AddressMap := m.set rt.NewActorAddress n, NextID := (n + 1) % U64,
                        NetworkName := name },
           Op.UpdateRelease (rt.cidOf { AddressMap := m.set rt.NewActorAddress n,
                                        NextID := (n + 1) % U64, NetworkName := name }),
           Op.CreateActor e (NewIDAddress n), Op.ValueReceived,
           Op.Send (NewIDAddress n) b.MethodConstructor params rt.ValueReceived]
         stateCID := rt.cidOf { AddressMap := m.set rt.NewActorAddress n,
                                NextID := (n + 1) % U64, NetworkName := name }
         store := fun k =>
           if k = rt.cidOf { AddressMap := m.set rt.NewActorAddress n,
                             NextID := (n + 1) % U64, NetworkName := name }
           then some { AddressMap := m.set rt.NewActorAddress n, NextID := (n + 1) % U64,
                       NetworkName := name }
           else store k }) := by
  rw [InitActor.Exec_run_loaded b rt _ c e params _ hc hs hl]
  simp only [RtState.start, InitActor.Exec.logCheck, InitActor.Exec.logLoad,
    InitActor.Exec.logCommit, InitActor.Exec.newState, InitActorState.MapAddressToNewID,
    List.nil_append, List.cons_append, hsend]

/-- The storage-power caller of the sample runtime creates a storage miner from the state
(empty mapping, counter 100): the new actor gets the ID address 100. -/
theorem InitActor.Exec_success_witness :
    (InitActor.Exec sampleBuiltin 12 [4] sampleRuntime
        (RtState.start 0 (fun _ => some (InitActor.Constructor.st sampleBuiltin "net")))).1
      = .ok { IDAddress := Address.ID 100, RobustAddress := Address.Actor 1 } :=
  congrArg Prod.fst
    (InitActor.Exec_success sampleBuiltin sampleRuntime 0
      (fun _ => some (InitActor.Constructor.st sampleBuiltin "net")) 13 12 [4]
      AddressMap.empty 100 "net" [] rfl (by decide) rfl rfl)

/-- C5, as amended: when Exec passes the code-ID check, loads the state (AddressMap `m`,
NextID `n`, NetworkName `name`) with `n + 1 < 2^64`, and the nested send succeeds, with `u`
the address NewActorAddress returned, then Exec stores and commits with UpdateRelease the
state (`m[u := n]`, `n + 1`, `name`), next calls CreateActor(execCodeID, ID-address(n)),
next Send(ID-address(n), MethodConstructor, constructorParams, ValueReceived()), in that
order, and returns ExecReturn{ID-address(n), u}. -/
theorem InitActor.Exec_success_bounded (b : Builtin) (rt : Runtime) (cid : Cid)
    (store : Cid → Option InitActorState) (c e : ActorCodeID) (params : MethodParams)
    (m : AddressMap) (n : Nat) (name : String) (ret : SendReturn)
    (hn : n + 1 < U64)
    (hc : rt.GetActorCodeID rt.ImmediateCaller = some c)
    (hs : InitActor._codeIDSupportsExec b c e = true)
    (hl : store cid = some { AddressMap := m, NextID := n, NetworkName := name })
    (hsend : rt.Send
      [Op.ValidateImmediateCallerAcceptAny, Op.ImmediateCaller,
       Op.GetActorCodeID rt.ImmediateCaller, Op.ImmediateCaller,
       Op.NewActorAddress, Op.AcquireState, Op.Take, Op.IpldGet cid,
       Op.IpldPut { AddressMap := m.set rt.NewActorAddress n, NextID := n + 1,
                    NetworkName := name },
       Op.UpdateRelease (rt.cidOf { AddressMap := m.set rt.NewActorAddress n,
                                    NextID := n + 1, NetworkName := name }),
       Op.CreateActor e (NewIDAddress n), Op.ValueReceived]
      (NewIDAddress n) b.MethodConstructor params rt.ValueReceived = .ok ret) :
    InitActor.Exec b e params rt (RtState.start cid store) =
      (.ok { IDAddress := NewIDAddress n, RobustAddress := rt.NewActorAddress },
       { log :=
          [Op.ValidateImmediateCallerAcceptAny, Op.ImmediateCaller,
           Op.GetActorCodeID rt.ImmediateCaller, Op.ImmediateCaller,
           Op.NewActorAddress, Op.AcquireState, Op.Take, Op.IpldGet cid,
           Op.IpldPut { AddressMap := m.set rt.NewActorAddress n, NextID := n + 1,
                        NetworkName := name },
           Op.UpdateRelease (rt.cidOf { AddressMap := m.set rt.NewActorAddress n,
                                        NextID := n + 1, NetworkName := name }),
           Op.CreateActor e (NewIDAddress n), Op.ValueReceived,
           Op.Send (NewIDAddress n) b.MethodConstructor params rt.ValueReceived]
         stateCID := rt.cidOf { AddressMap := m.set rt.NewActorAddress n,
                                NextID := n + 1, NetworkName := name }
         store := fun k =>
           if k = rt.cidOf { AddressMap := m.set rt.NewActorAddress n,
                             NextID := n + 1, NetworkName := name }
           then some { AddressMap := m.set rt.NewActorAddress n, NextID := n + 1,
                       NetworkName := name }
           else store k }) := by
  have hmod : (n + 1) % U64 = n + 1 := Nat.mod_eq_of_lt hn
  have h := InitActor.Exec_success b rt cid store c e params m n name ret hc hs hl
    (by rw [hmod]; exact hsend)
  rw [hmod] at h
  exact h

/-- The storage-power caller of the sample runtime creates a storage miner from the state
(empty mapping, counter 100): the new actor gets the ID address 100 and the committed
counter is 101. -/
theorem InitActor.Exec_success_bounded_witness :
    100 + 1 < U64 ∧
    InitActor.Exec sampleBuiltin 12 [4] sampleRuntime
        (RtState.start 0 (fun _ => some (InitActor.Constructor.st sampleBuiltin "net")))
      = (.ok { IDAddress := NewIDAddress 100, RobustAddress := Address.Actor 1 },
         { log :=
            [Op.ValidateImmediateCallerAcceptAny, Op.ImmediateCaller,
             Op.GetActorCodeID (Address.ID 50), Op.ImmediateCaller,
             Op.NewActorAddress, Op.AcquireState, Op.Take, Op.IpldGet 0,
             Op.IpldPut { AddressMap := AddressMap.empty.set (Address.Actor 1) 100,
                          NextID := 100 + 1, NetworkName := "net" },
             Op.UpdateRelease 101,
             Op.CreateActor 12 (NewIDAddress 100), Op.ValueReceived,
             Op.Send (NewIDAddress 100) sampleBuiltin.MethodConstructor [4] 5]
           stateCID := 101
           store := fun k =>
             if k = 101
             then some { AddressMap := AddressMap.empty.set (Address.Actor 1) 100,
                         NextID := 100 + 1, NetworkName := "net" }
             else some (InitActor.Constructor.st sampleBuiltin "net") }) :=
  ⟨by decide,
    InitActor.Exec_success_bounded sampleBuiltin sampleRuntime 0
      (fun _ => some (InitActor.Constructor.st sampleBuiltin "net")) 13 12 [4]
      AddressMap.empty 100 "net" [] (by decide) rfl (by decide) rfl rfl⟩

/-- C5 fails as stated: from the pre-call state (empty mapping, NextID = 2^64 - 1) the
successful Exec of the sample runtime returns the ID address 2^64 - 1 and commits the
state whose counter is 0, not 2^64. -/
theorem InitActor.Exec_commit_wraps :
    (InitActor.Exec sampleBuiltin 12 [4] sampleRuntime
        (RtState.start 0 (fun _ => some lastIDState))).1
      = .ok { IDAddress := NewIDAddress (U64 - 1), RobustAddress := Address.Actor 1 } ∧
    ((InitActor.Exec sampleBuiltin 12 [4] sampleRuntime
        (RtState.start 0 (fun _ => some lastIDState))).2.store
      (InitActor.Exec sampleBuiltin 12 [4] sampleRuntime
        (RtState.start 0 (fun _ => some lastIDState))).2.stateCID).map
        InitActorState.NextID = some 0 ∧
    (U64 - 1) + 1 ≠ 0 := by
  have h := InitActor.Exec_success sampleBuiltin sampleRuntime 0
    (fun _ => some lastIDState) 13 12 [4] AddressMap.empty (U64 - 1) "net" [] rfl
    (by decide) rfl rfl
  rw [h]
  refine ⟨rfl, ?_, by decide⟩
  simp only [if_true, Option.map_some']
  decide

/-! ## Init actor: propagation of a failed constructor -/

/-- A log that ends with its only nested send splits at that send in one way. -/
theorem Op.split_at_last_send (L pre post : List Op) (x y : Op)
    (hL : L.any Op.isSend = false) (hx : x.isSend = true)
    (h : pre ++ x :: post = L ++ [y]) : pre = L ∧ x = y ∧ post = [] := by
  induction L generalizing pre with
  | nil =>
    cases pre with
    | nil => simpa using h
    | cons p ps =>
      simp only [List.cons_append, List.nil_append, List.cons.injEq] at h
      exact absurd h.2 (by simp)
  | cons l ls ih =>
    simp only [List.any_cons, Bool.or_eq_false_iff] at hL
    cases pre with
    | nil =>
      simp only [List.nil_append, List.cons_append, List.cons.injEq] at h
      rw [h.1] at hx
      rw [hx] at hL
      exact absurd hL.1 (by simp)
    | cons p ps =>
      simp only [List.cons_append, List.cons.injEq] at h
      obtain ⟨h1, h2, h3⟩ := ih ps hL.2 h.2
      exact ⟨by rw [h.1, h1], h2, h3⟩

/-- C6: in every run of Exec, if the nested Send aborts (the callee ends with an exit code
instead of a return value) then Exec aborts with that code and returns no ExecReturn; and
whenever Exec returns an ExecReturn, the last operation of its run is the Send of
MethodConstructor to the new ID address and that send completed successfully. -/
theorem InitActor.Exec_send_propagates (b : Builtin) (rt : Runtime) (cid : Cid)
    (store : Cid → Option InitActorState) (e : ActorCodeID) (params : MethodParams) :
    (∀ pre post toAddr methodNum p v code,
      (InitActor.Exec b e params rt (RtState.start cid store)).2.log
          = pre ++ Op.Send toAddr methodNum p v :: post →
      rt.Send pre toAddr methodNum p v = .error code →
      (InitActor.Exec b e params rt (RtState.start cid store)).1
          = .error (Failure.abort code)) ∧
    (∀ r, (InitActor.Exec b e params rt (RtState.start cid store)).1 = .ok r →
      ∃ pre ret,
        (InitActor.Exec b e params rt (RtState.start cid store)).2.log
          = pre ++ [Op.Send r.IDAddress b.MethodConstructor params rt.ValueReceived] ∧
        rt.Send pre r.IDAddress b.MethodConstructor params rt.ValueReceived = .ok ret) := by
  cases hc : rt.GetActorCodeID rt.ImmediateCaller with
  | none =>
    rw [InitActor.Exec_run_nocode b rt _ e params hc]
    refine ⟨?_, by simp⟩
    intro pre post toAddr methodNum p v code hlog _
    have := congrArg (List.any · Op.isSend) hlog
    simp [RtState.start, InitActor.Exec.logCheck, Op.isSend] at this
  | some c =>
    cases hs : InitActor._codeIDSupportsExec b c e with
    | false =>
      rw [InitActor.Exec_run_reject b rt _ c e params hc hs]
      refine ⟨?_, by simp⟩
      intro pre post toAddr methodNum p v code hlog _
      have := congrArg (List.any · Op.isSend) hlog
      simp [RtState.start, InitActor.Exec.logCheck, Op.isSend] at this
    | true =>
      cases hl : store cid with
      | none =>
        rw [InitActor.Exec_run_nostate b rt _ c e params hc hs hl]
        refine ⟨?_, by simp⟩
        intro pre post toAddr methodNum p v code hlog _
        have := congrArg (List.any · Op.isSend) hlog
        simp [RtState.start, InitActor.Exec.logCheck, InitActor.Exec.logLoad, Op.isSend] at this
      | some st =>
        rw [InitActor.Exec_run_loaded b rt _ c e params st hc hs hl]
        constructor
        · intro pre post toAddr methodNum p v code hlog herr
          obtain ⟨hpre, hop, -⟩ := Op.split_at_last_send
            ((RtState.start cid store).log ++ InitActor.Exec.logCheck rt ++
              InitActor.Exec.logLoad (RtState.start cid store).stateCID ++
              InitActor.Exec.logCommit rt e st) pre post (Op.Send toAddr methodNum p v) _
            (by simp [RtState.start, InitActor.Exec.logCheck, InitActor.Exec.logLoad,
              InitActor.Exec.logCommit, Op.isSend]) rfl hlog.symm
          simp only [Op.Send.injEq] at hop
          obtain ⟨rfl, rfl, rfl, rfl⟩ := hop
          subst hpre
          simp only [herr]
        · cases hsend : rt.Send ((RtState.start cid store).log ++ InitActor.Exec.logCheck rt ++
              InitActor.Exec.logLoad (RtState.start cid store).stateCID ++
              InitActor.Exec.logCommit rt e st)
              (NewIDAddress st.NextID) b.MethodConstructor params rt.ValueReceived with
          | error code =>
            intro r hr
            simp at hr
          | ok ret =>
            intro r hr
            simp only [Except.ok.injEq] at hr
            subst hr
            exact ⟨_, ret, rfl, hsend⟩

/-- With a callee that aborts with exit code 7, Exec aborts with exit code 7. -/
theorem InitActor.Exec_send_propagates_witness :
    (InitActor.Exec sampleBuiltin 12 [4] failingRuntime (RtState.start 0 sampleStore)).1
      = .error (Failure.abort (ExitCode.Other 7)) :=
  (InitActor.Exec_send_propagates sampleBuiltin failingRuntime 0 sampleStore 12 [4]).1
    [Op.ValidateImmediateCallerAcceptAny, Op.ImmediateCaller,
     Op.GetActorCodeID (Address.ID 50), Op.ImmediateCaller,
     Op.NewActorAddress, Op.AcquireState, Op.Take, Op.IpldGet 0,
     Op.IpldPut ((InitActor.Constructor.st sampleBuiltin "net").MapAddressToNewID
        (Address.Actor 1)).1,
     Op.UpdateRelease 101, Op.CreateActor 12 (Address.ID 100), Op.ValueReceived]
    [] (Address.ID 100) 1 [4] 5 (ExitCode.Other 7) rfl rfl

/-! ## Cron actor -/

/-- C7: for every entry list and every behaviour of the callbacks (every runtime), EpochTick
invoked by the system actor issues, after its caller check, exactly one SendCatchingErrors
per entry, in list order, the i-th to `Entries[i].ToAddr` with method
`Entries[i].MethodNum`, no parameters and zero value, and then returns EmptyReturn. -/
theorem CronActor.EpochTick_sends_all (b : Builtin) (a : CronActor) (rt : Runtime) (cid : Cid)
    (store : Cid → Option InitActorState)
    (h : rt.ImmediateCaller = b.SystemActorAddr) :
    CronActor.EpochTick b a rt (RtState.start cid store) =
      (.ok {},
       { log := Op.ValidateImmediateCallerIs [b.SystemActorAddr] ::
           a.Entries.map (fun entry => Op.SendCatchingErrors
             { To := entry.ToAddr, Method := entry.MethodNum, Params := [], Value := 0 })
         stateCID := cid
         store := store }) ∧
    (CronActor.EpochTick b a rt (RtState.start cid store)).2.log.countP Op.isSendCatchingErrors
      = a.Entries.length ∧
    (∀ i, (CronActor.EpochTick b a rt (RtState.start cid store)).2.log[i + 1]?
      = (a.Entries[i]?).map (fun entry => Op.SendCatchingErrors
          { To := entry.ToAddr, Method := entry.MethodNum, Params := [], Value := 0 })) := by
  rw [CronActor.EpochTick_run_ok b a rt _ h]
  refine ⟨by simp [RtState.start, CronActor.EpochTick.input], ?_, ?_⟩
  · simp only [RtState.start, List.nil_append, List.countP_cons, List.countP_map]
    simp [Function.comp_def, Op.isSendCatchingErrors]
  · intro i
    simp [RtState.start, CronActor.EpochTick.input]

/-- With the table [(7, 2), (8, 3)] and a failing callback to actor 7, EpochTick still
calls actor 8 and returns. -/
theorem CronActor.EpochTick_sends_all_witness :
    (systemRuntime.SendCatchingErrors [Op.ValidateImmediateCallerIs [Address.ID 0]]
        { To := Address.ID 7, Method := 2, Params := [], Value := 0 }).2
      = ExitCode.InconsistentState_User ∧
    CronActor.EpochTick sampleBuiltin sampleCron systemRuntime (RtState.start 0 sampleStore) =
      (.ok {},
       { log := [Op.ValidateImmediateCallerIs [Address.ID 0],
                 Op.SendCatchingErrors { To := Address.ID 7, Method := 2, Params := [], Value := 0 },
                 Op.SendCatchingErrors { To := Address.ID 8, Method := 3, Params := [], Value := 0 }]
         stateCID := 0
         store := sampleStore }) :=
  ⟨rfl, (CronActor.EpochTick_sends_all sampleBuiltin sampleCron systemRuntime 0 sampleStore rfl).1⟩

/-! ## Caller checks -/

/-- The log of every run of Exec starts with ValidateImmediateCallerAcceptAny and holds no
other caller check. -/
theorem InitActor.Exec_caller_check (b : Builtin) (rt : Runtime) (cid : Cid)
    (store : Cid → Option InitActorState) (e : ActorCodeID) (params : MethodParams) :
    (InitActor.Exec b e params rt (RtState.start cid store)).2.log.head?
      = some Op.ValidateImmediateCallerAcceptAny ∧
    (InitActor.Exec b e params rt (RtState.start cid store)).2.log.countP Op.isCallerCheck
      = 1 := by
  cases hc : rt.GetActorCodeID rt.ImmediateCaller with
  | none =>
    rw [InitActor.Exec_run_nocode b rt _ e params hc]
    simp [RtState.start, InitActor.Exec.logCheck, Op.isCallerCheck]
  | some c =>
    cases hs : InitActor._codeIDSupportsExec b c e with
    | false =>
      rw [InitActor.Exec_run_reject b rt _ c e params hc hs]
      simp [RtState.start, InitActor.Exec.logCheck, Op.isCallerCheck]
    | true =>
      cases hl : store cid with
      | none =>
        rw [InitActor.Exec_run_nostate b rt _ c e params hc hs hl]
        simp [RtState.start, InitActor.Exec.logCheck, InitActor.Exec.logLoad, Op.isCallerCheck]
      | some st =>
        rw [InitActor.Exec_run_loaded b rt _ c e params st hc hs hl]
        simp [RtState.start, InitActor.Exec.logCheck, InitActor.Exec.logLoad,
          InitActor.Exec.logCommit, Op.isCallerCheck]

/-- The callbacks of EpochTick are no caller checks. -/
theorem CronActor.EpochTick.callbacks_no_check (entries : List CronTableEntry) :
    (entries.map (fun entry =>
      Op.SendCatchingErrors (CronActor.EpochTick.input entry))).countP Op.isCallerCheck = 0 := by
  rw [List.countP_map, List.countP_eq_zero]
  intro entry _
  simp [Op.isCallerCheck]

/-- C8: in every run of Cron.Constructor, Cron.EpochTick, Init.Constructor and Init.Exec
the first runtime operation is a caller check and the run holds exactly one caller check:
ValidateImmediateCallerIs(SystemActorAddr) for the two constructors and EpochTick,
ValidateImmediateCallerAcceptAny for Exec.  When the caller is not the system actor,
EpochTick issues no SendCatchingErrors and Init.Constructor acquires no state handle. -/
theorem caller_check_first_and_once (b : Builtin) (rt : Runtime) (cid : Cid)
    (store : Cid → Option InitActorState) (a : CronActor) (e : ActorCodeID)
    (params : MethodParams) :
    ((CronActor.Constructor b a rt (RtState.start cid store)).2.log.head?
        = some (Op.ValidateImmediateCallerIs [b.SystemActorAddr]) ∧
      (CronActor.Constructor b a rt (RtState.start cid store)).2.log.countP Op.isCallerCheck
        = 1) ∧
    ((CronActor.EpochTick b a rt (RtState.start cid store)).2.log.head?
        = some (Op.ValidateImmediateCallerIs [b.SystemActorAddr]) ∧
      (CronActor.EpochTick b a rt (RtState.start cid store)).2.log.countP Op.isCallerCheck
        = 1) ∧
    ((InitActor.Constructor b rt (RtState.start cid store)).2.log.head?
        = some (Op.ValidateImmediateCallerIs [b.SystemActorAddr]) ∧
      (InitActor.Constructor b rt (RtState.start cid store)).2.log.countP Op.isCallerCheck
        = 1) ∧
    ((InitActor.Exec b e params rt (RtState.start cid store)).2.log.head?
        = some Op.ValidateImmediateCallerAcceptAny ∧
      (InitActor.Exec b e params rt (RtState.start cid store)).2.log.countP Op.isCallerCheck
        = 1) ∧
    (rt.ImmediateCaller ≠ b.SystemActorAddr →
      (CronActor.EpochTick b a rt (RtState.start cid store)).2.log.any Op.isSendCatchingErrors
        = false ∧
      (InitActor.Constructor b rt (RtState.start cid store)).2.log.any Op.isAcquireState
        = false) := by
  refine ⟨?_, ?_, ?_, InitActor.Exec_caller_check b rt cid store e params, ?_⟩
  · rw [CronActor.Constructor_run]
    simp [RtState.start, Op.isCallerCheck]
  · by_cases h : rt.ImmediateCaller = b.SystemActorAddr
    · rw [CronActor.EpochTick_run_ok b a rt _ h]
      simp only [RtState.start, List.nil_append, List.head?_cons, List.countP_cons,
        CronActor.EpochTick.callbacks_no_check]
      simp [Op.isCallerCheck]
    · rw [CronActor.EpochTick_run_denied b a rt _ h]
      simp [RtState.start, Op.isCallerCheck]
  · by_cases h : rt.ImmediateCaller = b.SystemActorAddr
    · rw [InitActor.Constructor_run_ok b rt _ h]
      simp [RtState.start, Op.isCallerCheck]
    · rw [InitActor.Constructor_run_denied b rt _ h]
      simp [RtState.start, Op.isCallerCheck]
  · intro h
    rw [CronActor.EpochTick_run_denied b a rt _ h, InitActor.Constructor_run_denied b rt _ h]
    simp [RtState.start, Op.isSendCatchingErrors, Op.isAcquireState]

/-- Called by actor 50, which is not the system actor, EpochTick stops at its caller check
with an authorization failure and sends nothing. -/
theorem caller_check_first_and_once_witness :
    (CronActor.EpochTick sampleBuiltin sampleCron sampleRuntime
        (RtState.start 0 sampleStore)).2.log.any Op.isSendCatchingErrors = false ∧
    (InitActor.Constructor sampleBuiltin sampleRuntime
        (RtState.start 0 sampleStore)).2.log.any Op.isAcquireState = false :=
  (caller_check_first_and_once sampleBuiltin sampleRuntime 0 sampleStore sampleCron 12
    []).2.2.2.2 (by decide)

/-! ## State handles -/

/-- The state handle in the runs of Init.Exec: at most one AcquireState; a run that
returns has one UpdateRelease, after the AcquireState, and no Release. -/
theorem InitActor.Exec_handle (b : Builtin) (rt : Runtime) (cid : Cid)
    (store : Cid → Option InitActorState) (e : ActorCodeID) (params : MethodParams) :
    (InitActor.Exec b e params rt (RtState.start cid store)).2.log.countP Op.isAcquireState
      ≤ 1 ∧
    (∀ r, (InitActor.Exec b e params rt (RtState.start cid store)).1 = .ok r →
      (InitActor.Exec b e params rt (RtState.start cid store)).2.log.countP Op.isUpdateRelease
        = 1 ∧
      (InitActor.Exec b e params rt (RtState.start cid store)).2.log.countP Op.isRelease = 0 ∧
      ∃ pre mid post newCID,
        (InitActor.Exec b e params rt (RtState.start cid store)).2.log
          = pre ++ Op.AcquireState :: mid ++ Op.UpdateRelease newCID :: post) ∧
    ((InitActor.Exec b e params rt (RtState.start cid store)).2.log.any Op.isUpdateRelease
        = false →
      (InitActor.Exec b e params rt (RtState.start cid store)).2.stateCID = cid) := by
  cases hc : rt.GetActorCodeID rt.ImmediateCaller with
  | none =>
    rw [InitActor.Exec_run_nocode b rt _ e params hc]
    simp [RtState.start, InitActor.Exec.logCheck, Op.isAcquireState]
  | some c =>
    cases hs : InitActor._codeIDSupportsExec b c e with
    | false =>
      rw [InitActor.Exec_run_reject b rt _ c e params hc hs]
      simp [RtState.start, InitActor.Exec.logCheck, Op.isAcquireState]
    | true =>
      cases hl : store cid with
      | none =>
        rw [InitActor.Exec_run_nostate b rt _ c e params hc hs hl]
        simp [RtState.start, InitActor.Exec.logCheck, InitActor.Exec.logLoad, Op.isAcquireState]
      | some st =>
        rw [InitActor.Exec_run_loaded b rt _ c e params st hc hs hl]
        refine ⟨?_, ?_, ?_⟩
        · simp [RtState.start, InitActor.Exec.logCheck, InitActor.Exec.logLoad,
            InitActor.Exec.logCommit, Op.isAcquireState]
        · intro r _
          refine ⟨?_, ?_, InitActor.Exec.logCheck rt ++ [Op.NewActorAddress],
            [Op.Take, Op.IpldGet cid, Op.IpldPut (InitActor.Exec.newState rt st)],
            [Op.CreateActor e (NewIDAddress st.NextID), Op.ValueReceived,
             Op.Send (NewIDAddress st.NextID) b.MethodConstructor params rt.ValueReceived],
            rt.cidOf (InitActor.Exec.newState rt st), rfl⟩
          · simp [RtState.start, InitActor.Exec.logCheck, InitActor.Exec.logLoad,
              InitActor.Exec.logCommit, Op.isUpdateRelease]
          · simp [RtState.start, InitActor.Exec.logCheck, InitActor.Exec.logLoad,
              InitActor.Exec.logCommit, Op.isRelease]
        · simp [RtState.start, InitActor.Exec.logCheck, InitActor.Exec.logLoad,
            InitActor.Exec.logCommit, Op.isUpdateRelease]

/-- C9: in every run of Init.Constructor and of Init.Exec at most one state handle is
acquired; a run that returns without aborting has exactly one UpdateRelease, issued after
the AcquireState, and no Release; a run without UpdateRelease leaves the persisted state
identifier as it was at acquisition; and Exec, when the check passes and the state object
is not in the store, is such a run: it aborts after AcquireState with no UpdateRelease. -/
theorem state_handle_protocol (b : Builtin) (rt : Runtime) (cid : Cid)
    (store : Cid → Option InitActorState) (c e : ActorCodeID) (params : MethodParams) :
    ((InitActor.Constructor b rt (RtState.start cid store)).2.log.countP Op.isAcquireState
        ≤ 1 ∧
      (∀ r, (InitActor.Constructor b rt (RtState.start cid store)).1 = .ok r →
        (InitActor.Constructor b rt (RtState.start cid store)).2.log.countP Op.isUpdateRelease
          = 1 ∧
        (InitActor.Constructor b rt (RtState.start cid store)).2.log.countP Op.isRelease
          = 0 ∧
        ∃ pre mid post newCID,
          (InitActor.Constructor b rt (RtState.start cid store)).2.log
            = pre ++ Op.AcquireState :: mid ++ Op.UpdateRelease newCID :: post) ∧
      ((InitActor.Constructor b rt (RtState.start cid store)).2.log.any Op.isUpdateRelease
          = false →
        (InitActor.Constructor b rt (RtState.start cid store)).2.stateCID = cid)) ∧
    ((InitActor.Exec b e params rt (RtState.start cid store)).2.log.countP Op.isAcquireState
        ≤ 1 ∧
      (∀ r, (InitActor.Exec b e params rt (RtState.start cid store)).1 = .ok r →
        (InitActor.Exec b e params rt (RtState.start cid store)).2.log.countP Op.isUpdateRelease
          = 1 ∧
        (InitActor.Exec b e params rt (RtState.start cid store)).2.log.countP Op.isRelease
          = 0 ∧
        ∃ pre mid post newCID,
          (InitActor.Exec b e params rt (RtState.start cid store)).2.log
            = pre ++ Op.AcquireState :: mid ++ Op.UpdateRelease newCID :: post) ∧
      ((InitActor.Exec b e params rt (RtState.start cid store)).2.log.any Op.isUpdateRelease
          = false →
        (InitActor.Exec b e params rt (RtState.start cid store)).2.stateCID = cid)) ∧
    (rt.GetActorCodeID rt.ImmediateCaller = some c →
      InitActor._codeIDSupportsExec b c e = true → store cid = none →
      (InitActor.Exec b e params rt (RtState.start cid store)).1
        = .error (Failure.abort ExitCode.RuntimeAPIError) ∧
      (InitActor.Exec b e params rt (RtState.start cid store)).2.log.countP Op.isAcquireState
        = 1 ∧
      (InitActor.Exec b e params rt (RtState.start cid store)).2.log.any Op.isUpdateRelease
        = false ∧
      (InitActor.Exec b e params rt (RtState.start cid store)).2.stateCID = cid) := by
  refine ⟨?_, InitActor.Exec_handle b rt cid store e params, ?_⟩
  · by_cases h : rt.ImmediateCaller = b.SystemActorAddr
    · rw [InitActor.Constructor_run_ok b rt _ h]
      refine ⟨by simp [RtState.start, Op.isAcquireState], ?_,
        by simp [RtState.start, Op.isUpdateRelease]⟩
      intro r _
      exact ⟨by simp [RtState.start, Op.isUpdateRelease], by simp [RtState.start, Op.isRelease],
        [Op.ValidateImmediateCallerIs [b.SystemActorAddr]],
        [Op.IpldPut (InitActor.Constructor.st b rt.NetworkName)], [],
        rt.cidOf (InitActor.Constructor.st b rt.NetworkName), rfl⟩
    · rw [InitActor.Constructor_run_denied b rt _ h]
      simp [RtState.start, Op.isAcquireState]
  · intro hc hs hl
    rw [InitActor.Exec_run_nostate b rt _ c e params hc hs hl]
    simp [RtState.start, InitActor.Exec.logCheck, InitActor.Exec.logLoad, Op.isAcquireState,
      Op.isUpdateRelease]

/-- With an empty store, Exec by the storage-power caller aborts after AcquireState and the
persisted state identifier stays 3. -/
theorem state_handle_protocol_witness :
    (InitActor.Exec sampleBuiltin 12 [] sampleRuntime (RtState.start 3 (fun _ => none))).1
      = .error (Failure.abort ExitCode.RuntimeAPIError) ∧
    (InitActor.Exec sampleBuiltin 12 [] sampleRuntime
      (RtState.start 3 (fun _ => none))).2.log.countP Op.isAcquireState = 1 ∧
    (InitActor.Exec sampleBuiltin 12 [] sampleRuntime
      (RtState.start 3 (fun _ => none))).2.log.any Op.isUpdateRelease = false ∧
    (InitActor.Exec sampleBuiltin 12 [] sampleRuntime
      (RtState.start 3 (fun _ => none))).2.stateCID = 3 :=
  (state_handle_protocol sampleBuiltin sampleRuntime 3 (fun _ => none) 13 12 []).2.2
    rfl (by decide) rfl

/-! ## Market state checker -/

/-- Over proposals whose fingerprints compute, are pairwise different and are not yet in
`proposalCids`, the callback records nothing and collects the IDs and fingerprints. -/
theorem Market.proposals_clean (env : Market.Env) (bound : Int)
    (ps : List (Int × Market.DealProposal)) (s : Market.ProposalVars)
    (hok : ∀ e ∈ ps, ∃ c, env.proposalCid e.2 = .ok c)
    (hnd : (ps.map (fun e => env.proposalCid e.2)).Nodup)
    (hnew : ∀ e ∈ ps, ∀ c, env.proposalCid e.2 = .ok c → c ∉ s.proposalCids) :
    ∃ p, Market.Walk.ForEach.go (Market.proposalStep env) none ps s = (p, none) ∧
      p.acc = s.acc ∧ p.proposalCount = s.proposalCount + ps.length ∧
      (∀ x, x ∈ p.allIDs ↔ x ∈ s.allIDs ∨ ∃ e ∈ ps, Market.toDealID e.1 = x) ∧
      (∀ c, c ∈ p.proposalCids ↔ c ∈ s.proposalCids ∨ ∃ e ∈ ps, env.proposalCid e.2 = .ok c) ∧
      (s.maxDealID < bound → (∀ e ∈ ps, e.1 < bound) → p.maxDealID < bound) := by
  induction ps generalizing s with
  | nil => exact ⟨s, rfl, rfl, by simp, by simp, by simp, fun h _ => h⟩
  | cons e rest ih =>
    obtain ⟨c, hc⟩ := hok e (List.mem_cons_self _ _)
    have hfresh : c ∉ s.proposalCids := hnew e (List.mem_cons_self _ _) c hc
    simp only [List.map_cons, List.nodup_cons] at hnd
    obtain ⟨p, hp, hacc, hcount, hids, hcids, hmax⟩ := ih
      { allIDs := Market.toDealID e.1 :: s.allIDs
        proposalCids := c :: s.proposalCids
        maxDealID := if e.1 > s.maxDealID then e.1 else s.maxDealID
        proposalCount := s.proposalCount + 1
        acc := s.acc }
      (fun x hx => hok x (List.mem_cons_of_mem _ hx)) hnd.2
      (by
        intro x hx c' hc'
        simp only [List.mem_cons, not_or]
        refine ⟨?_, hnew x (List.mem_cons_of_mem _ hx) c' hc'⟩
        rintro rfl
        exact hnd.1 (by rw [hc]; exact List.mem_map.mpr ⟨x, hx, hc'⟩))
    refine ⟨p, ?_, hacc, ?_, ?_, ?_, ?_⟩
    · have hcont : s.proposalCids.contains c = false := by
        simpa using hfresh
      simp only [Market.Walk.ForEach.go, Market.proposalStep, hc,
        Market.MessageAccumulator.Require, hcont, Bool.not_false, if_true]
      exact hp
    · rw [hcount]; simp only [List.length_cons]; omega
    · intro x
      rw [hids x]
      simp only [List.mem_cons, exists_eq_or_imp]
      constructor
      · rintro ((h | h) | h)
        · exact Or.inr (Or.inl h.symm)
        · exact Or.inl h
        · exact Or.inr (Or.inr h)
      · rintro (h | h | h)
        · exact Or.inl (Or.inr h)
        · exact Or.inl (Or.inl h.symm)
        · exact Or.inr h
    · intro c'
      rw [hcids c']
      simp only [List.mem_cons, exists_eq_or_imp, hc, Except.ok.injEq]
      constructor
      · rintro ((h | h) | h)
        · exact Or.inr (Or.inl h.symm)
        · exact Or.inl h
        · exact Or.inr (Or.inr h)
      · rintro (h | h | h)
        · exact Or.inl (Or.inr h)
        · exact Or.inl (Or.inl h.symm)
        · exact Or.inr h
    · intro hs hall
      apply hmax
      · have := hall e (List.mem_cons_self _ _)
        simp only
        split <;> assumption
      · exact fun x hx => hall x (List.mem_cons_of_mem _ hx)

/-- Over well-formed deal states that reference collected IDs the callback records
nothing. -/
theorem Market.dealStates_clean (env : Market.Env) (allIDs : List Nat)
    (ds : List (Int × Market.DealState)) (s : Market.CountVars)
    (h : ∀ e ∈ ds, 0 ≤ e.2.SectorStartEpoch ∧
      (e.2.LastUpdatedEpoch = env.epochUndefined ∨ e.2.SectorStartEpoch ≤ e.2.LastUpdatedEpoch) ∧
      (e.2.SlashEpoch = env.epochUndefined ∨ e.2.SectorStartEpoch ≤ e.2.SlashEpoch) ∧
      Market.toDealID e.1 ∈ allIDs) :
    Market.Walk.ForEach.go (Market.dealStateStep env allIDs) none ds s =
      ({ count := s.count + ds.length, acc := s.acc }, none) := by
  induction ds generalizing s with
  | nil => rfl
  | cons e rest ih =>
    obtain ⟨h1, h2, h3, h4⟩ := h e (List.mem_cons_self _ _)
    have h2' : (decide (e.2.LastUpdatedEpoch = env.epochUndefined) ||
        decide (e.2.LastUpdatedEpoch ≥ e.2.SectorStartEpoch)) = true := by
      rcases h2 with h2 | h2 <;> simp [h2]
    have h3' : (decide (e.2.SlashEpoch = env.epochUndefined) ||
        decide (e.2.SlashEpoch ≥ e.2.SectorStartEpoch)) = true := by
      rcases h3 with h3 | h3 <;> simp [h3]
    have h4' : allIDs.contains (Market.toDealID e.1) = true := by simpa using h4
    simp only [Market.Walk.ForEach.go, Market.dealStateStep, Market.MessageAccumulator.Require,
      h2', h3', h4', ge_iff_le, h1, decide_True, if_true]
    rw [ih _ (fun x hx => h x (List.mem_cons_of_mem _ hx))]
    simp only [List.length_cons]
    congr 2
    omega

/-- Over pending proposals keyed by their own fingerprint, which is a collected one, the
callback records nothing. -/
theorem Market.pending_clean (env : Market.Env) (cids : List Cid)
    (pp : List (Market.Key × Market.DealProposal)) (s : Market.CountVars)
    (h : ∀ e ∈ pp, ∃ c, env.cidParse e.1 = .ok c ∧ env.proposalCid e.2 = .ok c ∧ c ∈ cids) :
    Market.Walk.ForEach.go (Market.pendingStep env cids) none pp s =
      ({ count := s.count + pp.length, acc := s.acc }, none) := by
  induction pp generalizing s with
  | nil => rfl
  | cons e rest ih =>
    obtain ⟨c, h1, h2, h3⟩ := h e (List.mem_cons_self _ _)
    have h3' : cids.contains c = true := by simpa using h3
    simp only [Market.Walk.ForEach.go, Market.pendingStep, Market.MessageAccumulator.Require,
      h1, h2, h3', decide_True, if_true]
    rw [ih _ (fun x hx => h x (List.mem_cons_of_mem _ hx))]
    simp only [List.length_cons]
    congr 2
    omega

/-- Over locked amounts that the escrow table covers the callback records nothing and adds
the amounts up. -/
theorem Market.locked_clean (env : Market.Env) (escrowTable : Market.BalanceTable)
    (ls : List (Market.Key × Int)) (s : Market.LockVars)
    (h : ∀ e ∈ ls, ∃ a v, env.addressFromBytes e.1 = .ok a ∧ escrowTable.Get a = .ok v ∧
      e.2 ≤ v) :
    Market.Walk.ForEach.go (Market.lockedStep env escrowTable) none ls s =
      ({ lockedTotal := s.lockedTotal + (ls.map Prod.snd).sum
         lockTableCount := s.lockTableCount + ls.length
         acc := s.acc }, none) := by
  induction ls generalizing s with
  | nil => simp [Market.Walk.ForEach.go]
  | cons e rest ih =>
    obtain ⟨a, v, h1, h2, h3⟩ := h e (List.mem_cons_self _ _)
    simp only [Market.Walk.ForEach.go, Market.lockedStep, Market.MessageAccumulator.Require,
      h1, h2, ge_iff_le, h3, decide_True, if_true]
    rw [ih _ (fun x hx => h x (List.mem_cons_of_mem _ hx))]
    simp only [List.length_cons, List.map_cons, List.sum_cons]
    congr 2
    · omega
    · omega

/-- Over deal IDs that were collected the inner callback of the deal ops records
nothing. -/
theorem Market.dealOp_inner_clean (allIDs : List Nat) (epoch : Int) (ids : List Nat)
    (s : Market.DealOpVars) (h : ∀ id ∈ ids, id ∈ allIDs) :
    Market.Walk.ForEach.go (fun s id (_ : Unit) => Market.dealOpStep allIDs epoch s id) none
        (ids.map (fun id => (id, ()))) s =
      ({ s with dealOpCount := s.dealOpCount + ids.length }, none) := by
  induction ids generalizing s with
  | nil => simp [Market.Walk.ForEach.go]
  | cons id rest ih =>
    have hid : allIDs.contains id = true := by simpa using h id (List.mem_cons_self _ _)
    have hstep : Market.dealOpStep allIDs epoch s id =
        ({ s with dealOpCount := s.dealOpCount + 1 }, none) := by
      simp only [Market.dealOpStep, Market.MessageAccumulator.Require, hid, if_true]
    rw [List.map_cons, Market.Walk.ForEach.go]
    simp only [hstep]
    rw [ih _ (fun x hx => h x (List.mem_cons_of_mem _ hx))]
    simp only [List.length_cons]
    congr 2
    omega

/-- A set found in a readable multimap is the set of one of its entries. -/
theorem Market.lookup_readable (ops : List (Market.Key × List Nat)) (k : Market.Key)
    (set : Except Market.Error (Market.Walk Nat Unit))
    (h : (ops.map (fun e => (e.1, Market.Readable.set e.2))).lookup k = some set) :
    ∃ e ∈ ops, set = Market.Readable.set e.2 := by
  induction ops with
  | nil => simp at h
  | cons e rest ih =>
    simp only [List.map_cons, List.lookup_cons] at h
    split at h
    · exact ⟨e, List.mem_cons_self _ _, by simpa using h.symm⟩
    · obtain ⟨x, hx, hset⟩ := ih h
      exact ⟨x, List.mem_cons_of_mem _ hx, hset⟩

/-- Over keys that parse as integers, in a multimap whose deal IDs were all collected, the
callback of the deal ops records one "key that is not a natural number" message per key
and nothing else. -/
theorem Market.dealOps_flagged (allIDs : List Nat) (all ops : List (Market.Key × List Nat))
    (s : Market.DealOpVars)
    (hall : ∀ e ∈ all, ∀ id ∈ e.2, id ∈ allIDs)
    (hkeys : ∀ e ∈ ops, (Market.ParseInt e.1).2 = false) :
    ∃ o, Market.Walk.ForEach.go
        (Market.dealOpsStep allIDs
          { mp := { entries := all.map (fun e => (e.1, Market.Readable.set e.2)), fault := none } })
        none (ops.map (fun e => (e.1, Market.Readable.set e.2))) s = (o, none) ∧
      o.acc = s.acc ++ ops.map (fun e => Market.Msg.dealOpsKeyNotNatural e.1) ∧
      o.dealOpEpochCount = s.dealOpEpochCount + ops.length := by
  induction ops generalizing s with
  | nil => exact ⟨s, rfl, by simp, by simp⟩
  | cons e rest ih =>
    have hk := hkeys e (List.mem_cons_self _ _)
    have hrest := fun x hx => hkeys x (List.mem_cons_of_mem _ hx)
    simp only [List.map_cons, Market.Walk.ForEach.go, Market.dealOpsStep,
      Market.MessageAccumulator.Require, hk, Market.SetMultimap.ForEach]
    cases hl : (all.map (fun e => (e.1, Market.Readable.set e.2))).lookup
        (Market.SetMultimap.key (Market.ParseInt e.1).1) with
    | none =>
      obtain ⟨o, ho, hacc, hcount⟩ := ih
        { s with acc := s.acc ++ [Market.Msg.dealOpsKeyNotNatural e.1]
                 dealOpEpochCount := s.dealOpEpochCount + 1 } hrest
      refine ⟨o, by simpa using ho, ?_, ?_⟩
      · rw [hacc]; simp
      · rw [hcount]; simp only [List.length_cons]; omega
    | some set =>
      obtain ⟨x, hx, rfl⟩ := Market.lookup_readable all _ set hl
      obtain ⟨o, ho, hacc, hcount⟩ := ih
        { acc := s.acc ++ [Market.Msg.dealOpsKeyNotNatural e.1]
          dealOpEpochCount := s.dealOpEpochCount + 1
          dealOpCount := s.dealOpCount + x.2.length } hrest
      refine ⟨o, ?_, ?_, ?_⟩
      · simp only [Market.Readable.set, Market.Walk.ForEach, Bool.false_eq_true, if_false]
        rw [Market.dealOp_inner_clean allIDs _ x.2 _ (hall x hx)]
        exact ho
      · rw [hacc]; simp
      · rw [hcount]; simp only [List.length_cons]; omega

/-- Conversions of deal IDs below 2^63 change nothing. -/
theorem Market.toInt64_small (x : Nat) (h : x < 2 ^ 63) : Market.toInt64 x = (x : Int) := by
  unfold Market.toInt64
  have h1 : x % 2 ^ 64 = x := Nat.mod_eq_of_lt (by omega)
  rw [h1, if_pos h]

theorem Market.toDealID_small (x : Nat) (h : x < 2 ^ 64) : Market.toDealID (x : Int) = x := by
  unfold Market.toDealID
  have h1 : ((x : Int) % 2 ^ 64) = (x : Int) := Int.emod_eq_of_lt (by omega) (by omega)
  rw [h1, Int.toNat_ofNat]

/-- On every readable snapshot that satisfies the six invariants and has NextID below
2^63, the checker returns no error, the counts of the collections, and as violations
exactly one "key that is not a natural number" message per deal-ops key. -/
theorem Market.CheckStateInvariants_of_invariants (env : Market.Env) (r : Market.Readable)
    (hinv : r.invariants env) (hN : r.NextID < 2 ^ 63) :
    ∃ n, Market.CheckStateInvariants env r.toSnapshot =
      { summary := some { ProposalCount := r.proposals.length
                          PendingProposalCount := r.pending.length
                          DealStateCount := r.states.length
                          LockTableCount := r.locked.length
                          DealOpEpochCount := r.dealOps.length
                          DealOpCount := n }
        acc := some (r.dealOps.map (fun e => Market.Msg.dealOpsKeyNotNatural e.1))
        err := none } := by
  obtain ⟨⟨h1a, h1b, h1c⟩, ⟨h2ok, h2nd, h2id⟩, h3, h4, ⟨h5a, h5b⟩, h6⟩ := hinv
  obtain ⟨p, hp, hpacc, hpcount, hpids, hpcids, hpmax⟩ :=
    Market.proposals_clean env (Market.toInt64 r.NextID) r.proposals
      { allIDs := [], proposalCids := [], maxDealID := -1, proposalCount := 0, acc := [] }
      h2ok h2nd (by simp)
  have hNext := Market.toInt64_small r.NextID hN
  have hmax : p.maxDealID < Market.toInt64 r.NextID := by
    apply hpmax
    · rw [hNext]; simp only; omega
    · intro e he
      have := (h2id e he).2
      rw [hNext]; omega
  have hmem : ∀ i : Int, i ∈ r.proposals.map Prod.fst → Market.toDealID i ∈ p.allIDs := by
    intro i hi
    obtain ⟨e, he, rfl⟩ := List.mem_map.mp hi
    exact (hpids _).mpr (Or.inr ⟨e, he, rfl⟩)
  have hstates := Market.dealStates_clean env p.allIDs r.states { count := 0, acc := p.acc }
    (fun e he => ⟨(h3 e he).1, (h3 e he).2.1, (h3 e he).2.2.1, hmem _ (h3 e he).2.2.2⟩)
  have hpending := Market.pending_clean env p.proposalCids r.pending { count := 0, acc := p.acc }
    (fun e he => by
      obtain ⟨c, hc1, hc2, q, hq, hqc⟩ := h4 e he
      exact ⟨c, hc1, hc2, (hpcids c).mpr (Or.inr ⟨q, hq, hqc⟩)⟩)
  have hlocked := Market.locked_clean env { lookup := fun a => .ok (r.escrow a) } r.locked
    { lockedTotal := 0, lockTableCount := 0, acc := p.acc }
    (fun e he => by
      obtain ⟨a, ha, -, hle⟩ := h5a e he
      refine ⟨a, (r.escrow a).getD 0, ha, ?_, hle⟩
      simp only [Market.BalanceTable.Get]
      cases r.escrow a <;> rfl)
  obtain ⟨o, ho, hoacc, hocount⟩ := Market.dealOps_flagged p.allIDs r.dealOps r.dealOps
    { dealOpEpochCount := 0, dealOpCount := 0, acc := p.acc }
    (fun e he id hid => by
      have hin := (h6 e he).2.2 id hid
      obtain ⟨q, hq, hqid⟩ := List.mem_map.mp hin
      have hlt : id < 2 ^ 64 := by
        have := (h2id q hq).2
        rw [hqid] at this
        omega
      have := hmem _ hin
      rwa [Market.toDealID_small id hlt] at this)
    (fun e he => (h6 e he).1)
  refine ⟨o.dealOpCount, ?_⟩
  simp only [Market.CheckStateInvariants, Market.Readable.toSnapshot, Market.Walk.ForEach,
    Market.MessageAccumulator.Require, ge_iff_le, h1a, h1b, h1c, decide_True, if_true, hp,
    gt_iff_lt, hmax, hstates, hpending, hlocked, zero_add, h5b, ho]
  rw [hpacc] at hoacc
  simp only [List.nil_append] at hoacc
  simp only [zero_add] at hpcount hocount
  rw [hoacc, hocount, hpcount]

/-- The positive case of the specification passes the checker: no error, no violation, one
proposal and one deal state counted. -/
theorem Market.CheckStateInvariants_positiveCase :
    Market.CheckStateInvariants Market.sampleEnv Market.positiveCase.toSnapshot =
      { summary := some { ProposalCount := 1, PendingProposalCount := 0, DealStateCount := 1,
                          LockTableCount := 1, DealOpEpochCount := 0, DealOpCount := 0 }
        acc := some []
        err := none } := by
  decide

/-- C10, the failing input: the positive case of the specification with one deal op, deal
7 under the epoch key "150", satisfies all six invariants, and the checker returns the
violation "deal ops has key that is not a natural number" for the key "150". -/
theorem Market.CheckStateInvariants_dealOpCase :
    Market.dealOpCase.invariants Market.sampleEnv ∧
    Market.ParseInt [49, 53, 48] = (150, false) ∧
    Market.CheckStateInvariants Market.sampleEnv Market.dealOpCase.toSnapshot =
      { summary := some { ProposalCount := 1, PendingProposalCount := 0, DealStateCount := 1,
                          LockTableCount := 1, DealOpEpochCount := 1, DealOpCount := 1 }
        acc := some [Market.Msg.dealOpsKeyNotNatural [49, 53, 48]]
        err := none } := by
  refine ⟨?_, by decide, by decide⟩
  simp [Market.Readable.invariants, Market.dealOpCase, Market.positiveCase, Market.sampleEnv]
  decide

/-! ## Market state checker: the run on readable data -/

theorem Market.Require_eq (acc : Market.MessageAccumulator) (b : Bool) (m : Market.Msg) :
    Market.MessageAccumulator.Require acc b m = acc ++ (if b = true then [] else [m]) := by
  cases b <;> simp [Market.MessageAccumulator.Require]

theorem Market.cidOf_eq (env : Market.Env) (p : Market.DealProposal) (c : Cid)
    (h : env.proposalCid p = .ok c) : env.cidOf p = c := by
  simp [Market.Env.cidOf, h]

theorem Market.keyCid_eq (env : Market.Env) (k : Market.Key) (c : Cid)
    (h : env.cidParse k = .ok c) : env.keyCid k = c := by
  simp [Market.Env.keyCid, h]

theorem Market.keyAddress_eq (env : Market.Env) (k : Market.Key) (a : Address)
    (h : env.addressFromBytes k = .ok a) : env.keyAddress k = a := by
  simp [Market.Env.keyAddress, h]

/-- The walk over proposals that have fingerprints. -/
theorem Market.proposals_run (env : Market.Env) (ps : List (Int × Market.DealProposal))
    (s : Market.ProposalVars) (hok : ∀ e ∈ ps, ∃ c, env.proposalCid e.2 = .ok c) :
    Market.Walk.ForEach.go (Market.proposalStep env) none ps s =
      ({ allIDs := (ps.map (fun e => Market.toDealID e.1)).reverse ++ s.allIDs
         proposalCids := (ps.map (fun e => env.cidOf e.2)).reverse ++ s.proposalCids
         maxDealID := Market.maxDealIDFrom s.maxDealID ps
         proposalCount := s.proposalCount + ps.length
         acc := s.acc ++ Market.duplicateMsgs env s.proposalCids ps }, none) := by
  induction ps generalizing s with
  | nil => simp [Market.Walk.ForEach.go, Market.maxDealIDFrom, Market.duplicateMsgs]
  | cons e rest ih =>
    obtain ⟨c, hc⟩ := hok e (List.mem_cons_self _ _)
    have hcid := Market.cidOf_eq env e.2 c hc
    have hstep : Market.proposalStep env s e.1 e.2 =
        ({ allIDs := Market.toDealID e.1 :: s.allIDs
           proposalCids := c :: s.proposalCids
           maxDealID := if e.1 > s.maxDealID then e.1 else s.maxDealID
           proposalCount := s.proposalCount + 1
           acc := s.acc ++ (if c ∈ s.proposalCids then [Market.Msg.duplicateDealProposal e.1]
             else []) }, none) := by
      simp only [Market.proposalStep, hc, Market.Require_eq]
      by_cases hin : c ∈ s.proposalCids <;> simp [hin]
    rw [Market.Walk.ForEach.go, hstep]
    simp only
    rw [ih _ (fun x hx => hok x (List.mem_cons_of_mem _ hx))]
    simp only [List.map_cons, List.reverse_cons, List.append_assoc, List.singleton_append,
      List.length_cons, Market.maxDealIDFrom, List.foldl_cons, Market.duplicateMsgs, hcid,
      Nat.add_assoc, Nat.add_comm 1]

/-- One deal state. -/
theorem Market.dealStateStep_eq (env : Market.Env) (allIDs : List Nat) (s : Market.CountVars)
    (d : Int) (st : Market.DealState) :
    Market.dealStateStep env allIDs s d st =
      ({ count := s.count + 1, acc := s.acc ++ Market.dealStateMsgs env allIDs (d, st) }, none) := by
  simp only [Market.dealStateStep, Market.Require_eq, Market.dealStateMsgs, List.append_assoc]
  by_cases h1 : st.SectorStartEpoch < 0 <;>
  by_cases h2 : st.LastUpdatedEpoch = env.epochUndefined <;>
  by_cases h2' : st.LastUpdatedEpoch < st.SectorStartEpoch <;>
  by_cases h3 : st.SlashEpoch = env.epochUndefined <;>
  by_cases h3' : st.SlashEpoch < st.SectorStartEpoch <;>
  by_cases h4 : Market.toDealID d ∈ allIDs <;>
  simp [h1, h2, h2', h3, h3', h4, not_lt.mp, Int.not_le.mpr]

/-- The walk over the deal states. -/
theorem Market.dealStates_run (env : Market.Env) (allIDs : List Nat)
    (ds : List (Int × Market.DealState)) (s : Market.CountVars) :
    Market.Walk.ForEach.go (Market.dealStateStep env allIDs) none ds s =
      ({ count := s.count + ds.length
         acc := s.acc ++ ds.flatMap (Market.dealStateMsgs env allIDs) }, none) := by
  induction ds generalizing s with
  | nil => simp [Market.Walk.ForEach.go]
  | cons e rest ih =>
    rw [Market.Walk.ForEach.go, Market.dealStateStep_eq]
    simp only
    rw [ih]
    simp only [List.length_cons, List.flatMap_cons, List.append_assoc, Nat.add_assoc,
      Nat.add_comm 1]

/-- The walk over pending proposals whose keys and fingerprints decode. -/
theorem Market.pending_run (env : Market.Env) (cids : List Cid)
    (pp : List (Market.Key × Market.DealProposal)) (s : Market.CountVars)
    (hok : ∀ e ∈ pp, (∃ c, env.cidParse e.1 = .ok c) ∧ ∃ c, env.proposalCid e.2 = .ok c) :
    Market.Walk.ForEach.go (Market.pendingStep env cids) none pp s =
      ({ count := s.count + pp.length
         acc := s.acc ++ pp.flatMap (Market.pendingMsgs env cids) }, none) := by
  induction pp generalizing s with
  | nil => simp [Market.Walk.ForEach.go]
  | cons e rest ih =>
    obtain ⟨⟨k, hk⟩, ⟨c, hc⟩⟩ := hok e (List.mem_cons_self _ _)
    have hstep : Market.pendingStep env cids s e.1 e.2 =
        ({ count := s.count + 1, acc := s.acc ++ Market.pendingMsgs env cids e }, none) := by
      simp only [Market.pendingStep, hk, hc, Market.Require_eq, Market.pendingMsgs,
        Market.cidOf_eq env e.2 c hc, Market.keyCid_eq env e.1 k hk, List.append_assoc]
      by_cases h1 : c = k <;> by_cases h2 : c ∈ cids <;> simp [h1, h2]
    rw [Market.Walk.ForEach.go, hstep]
    simp only
    rw [ih _ (fun x hx => hok x (List.mem_cons_of_mem _ hx))]
    simp only [List.length_cons, List.flatMap_cons, List.append_assoc, Nat.add_assoc,
      Nat.add_comm 1]

/-- The walk over a locked table whose keys decode, against a readable escrow table. -/
theorem Market.locked_run (env : Market.Env) (r : Market.Readable)
    (ls : List (Market.Key × Int)) (s : Market.LockVars)
    (hok : ∀ e ∈ ls, ∃ a, env.addressFromBytes e.1 = .ok a) :
    Market.Walk.ForEach.go
        (Market.lockedStep env { lookup := fun a => .ok (r.escrow a) }) none ls s =
      ({ lockedTotal := s.lockedTotal + (ls.map Prod.snd).sum
         lockTableCount := s.lockTableCount + ls.length
         acc := s.acc ++ ls.flatMap (Market.lockedMsgs env r) }, none) := by
  induction ls generalizing s with
  | nil => simp [Market.Walk.ForEach.go]
  | cons e rest ih =>
    obtain ⟨a, ha⟩ := hok e (List.mem_cons_self _ _)
    have hget : Market.BalanceTable.Get { lookup := fun a => .ok (r.escrow a) } a
        = .ok (r.escrowOf a) := by
      simp only [Market.BalanceTable.Get, Market.Readable.escrowOf]
      cases r.escrow a <;> rfl
    have hstep : Market.lockedStep env { lookup := fun a => .ok (r.escrow a) } s e.1 e.2 =
        ({ lockedTotal := s.lockedTotal + e.2
           lockTableCount := s.lockTableCount + 1
           acc := s.acc ++ Market.lockedMsgs env r e }, none) := by
      simp only [Market.lockedStep, ha, hget, Market.Require_eq, Market.lockedMsgs,
        Market.keyAddress_eq env e.1 a ha]
      by_cases h1 : r.escrowOf a < e.2
      · simp [h1, not_le.mpr h1]
      · simp [h1, not_lt.mp h1]
    rw [Market.Walk.ForEach.go, hstep]
    simp only
    rw [ih _ (fun x hx => hok x (List.mem_cons_of_mem _ hx))]
    simp only [List.length_cons, List.flatMap_cons, List.append_assoc, Nat.add_assoc,
      Nat.add_comm 1, List.map_cons, List.sum_cons, Int.add_assoc]

/-- The walk over one set of deal IDs. -/
theorem Market.dealOp_inner_run (allIDs : List Nat) (epoch : Int) (ids : List Nat)
    (s : Market.DealOpVars) :
    Market.Walk.ForEach.go (fun s id (_ : Unit) => Market.dealOpStep allIDs epoch s id) none
        (ids.map (fun id => (id, ()))) s =
      ({ dealOpEpochCount := s.dealOpEpochCount
         dealOpCount := s.dealOpCount + ids.length
         acc := s.acc ++ (ids.filter (fun id => !allIDs.contains id)).map
           (fun id => Market.Msg.dealOpWithoutProposal id epoch) }, none) := by
  induction ids generalizing s with
  | nil => simp [Market.Walk.ForEach.go]
  | cons id rest ih =>
    have hstep : Market.dealOpStep allIDs epoch s id =
        ({ dealOpEpochCount := s.dealOpEpochCount
           dealOpCount := s.dealOpCount + 1
           acc := s.acc ++ (if allIDs.contains id = true then []
             else [Market.Msg.dealOpWithoutProposal id epoch]) }, none) := by
      simp only [Market.dealOpStep, Market.Require_eq]
    rw [List.map_cons, Market.Walk.ForEach.go]
    simp only [hstep]
    rw [ih]
    by_cases hm : id ∈ allIDs <;>
      simp [List.filter_cons, hm, Nat.add_assoc, Nat.add_comm 1]

/-- A lookup in the multimap of readable data. -/
theorem Market.lookup_set (ops : List (Market.Key × List Nat)) (k : Market.Key) :
    (ops.map (fun e => (e.1, Market.Readable.set e.2))).lookup k
      = (ops.lookup k).map Market.Readable.set := by
  induction ops with
  | nil => rfl
  | cons e rest ih =>
    obtain ⟨k', ids⟩ := e
    simp only [List.map_cons, List.lookup_cons]
    cases hk : (k == k') <;> simp [ih]

/-- The walk over the outer keys of the deal ops of readable data. -/
theorem Market.dealOps_run (r : Market.Readable) (ops : List (Market.Key × List Nat))
    (s : Market.DealOpVars) :
    Market.Walk.ForEach.go
        (Market.dealOpsStep r.allIDs
          { mp := { entries := r.dealOps.map (fun e => (e.1, Market.Readable.set e.2))
                    fault := none } })
        none (ops.map (fun e => (e.1, Market.Readable.set e.2))) s =
      ({ dealOpEpochCount := s.dealOpEpochCount + ops.length
         dealOpCount := s.dealOpCount + (ops.map (fun e => (r.visited e.1).length)).sum
         acc := s.acc ++ ops.flatMap (fun e => Market.dealOpsMsgs r e.1) }, none) := by
  induction ops generalizing s with
  | nil => simp [Market.Walk.ForEach.go]
  | cons e rest ih =>
    have hstep : Market.dealOpsStep r.allIDs
          { mp := { entries := r.dealOps.map (fun e => (e.1, Market.Readable.set e.2))
                    fault := none } } s e.1 (Market.Readable.set e.2) =
        ({ dealOpEpochCount := s.dealOpEpochCount + 1
           dealOpCount := s.dealOpCount + (r.visited e.1).length
           acc := s.acc ++ Market.dealOpsMsgs r e.1 }, none) := by
      simp only [Market.dealOpsStep, Market.SetMultimap.ForEach, Market.lookup_set,
        Market.Readable.visited, Market.dealOpsMsgs, Market.Require_eq]
      cases hl : r.dealOps.lookup (Market.SetMultimap.key (Market.ParseInt e.1).1) with
      | none => simp
      | some ids =>
        simp only [Option.map_some', Market.Readable.set, Market.Walk.ForEach]
        rw [Market.dealOp_inner_run]
        simp [List.append_assoc]
    rw [List.map_cons, Market.Walk.ForEach.go, hstep]
    simp only
    rw [ih]
    simp only [List.length_cons, List.flatMap_cons, List.append_assoc, Nat.add_assoc,
      Nat.add_comm 1, List.map_cons, List.sum_cons]

/-- The run of the checker on readable data whose keys and proposals decode: no error, the
summary, and all messages. -/
theorem Market.CheckStateInvariants_run (env : Market.Env) (r : Market.Readable)
    (h : r.decodes env) :
    Market.CheckStateInvariants env r.toSnapshot =
      { summary := some r.summary, acc := some (r.violations env), err := none } := by
  obtain ⟨hp, hq, hl⟩ := h
  have hagg : Market.MessageAccumulator.Require
        (Market.MessageAccumulator.Require
          (Market.MessageAccumulator.Require []
            (decide (r.TotalClientLockedCollateral ≥ 0))
            (Market.Msg.negativeTotalClientLockedCollateral r.TotalClientLockedCollateral))
          (decide (r.TotalProviderLockedCollateral ≥ 0))
          (Market.Msg.negativeTotalProviderLockedCollateral r.TotalClientLockedCollateral))
        (decide (r.TotalClientStorageFee ≥ 0))
        (Market.Msg.negativeTotalClientStorageFee r.TotalClientLockedCollateral)
      = Market.aggregateMsgs r := by
    simp only [Market.Require_eq, Market.aggregateMsgs, List.nil_append]
    by_cases h1 : r.TotalClientLockedCollateral < 0 <;>
    by_cases h2 : r.TotalProviderLockedCollateral < 0 <;>
    by_cases h3 : r.TotalClientStorageFee < 0 <;>
    simp [h1, h2, h3, not_lt.mp, Int.not_le.mpr]
  have hnext : ∀ acc : Market.MessageAccumulator,
      Market.MessageAccumulator.Require acc
        (decide (Market.toInt64 r.NextID > Market.maxDealIDFrom (-1) r.proposals))
        (Market.Msg.nextIDNotGreater r.NextID (Market.maxDealIDFrom (-1) r.proposals))
      = acc ++ Market.nextIDMsgs r := by
    intro acc
    simp only [Market.Require_eq, Market.nextIDMsgs, Market.Readable.maxDealID, decide_eq_true_eq]
  have htotal : ∀ acc : Market.MessageAccumulator,
      Market.MessageAccumulator.Require acc (decide ((0 : Int) + (r.locked.map Prod.snd).sum =
          r.TotalProviderLockedCollateral + r.TotalClientLockedCollateral +
            r.TotalClientStorageFee))
        (Market.Msg.lockedTotalMismatch ((0 : Int) + (r.locked.map Prod.snd).sum)
          r.TotalProviderLockedCollateral r.TotalClientLockedCollateral
          r.TotalClientStorageFee)
      = acc ++ Market.lockedTotalMsgs r := by
    intro acc
    simp only [Market.Require_eq, Market.lockedTotalMsgs, decide_eq_true_eq, Int.zero_add]
  have hops := fun s => Market.dealOps_run r r.dealOps s
  simp only [Market.Readable.allIDs] at hops
  simp only [Market.CheckStateInvariants, Market.Readable.toSnapshot, Market.Walk.ForEach,
    hagg, Market.proposals_run env r.proposals _ hp, hnext, Market.dealStates_run,
    Market.pending_run env _ r.pending _ hq, Market.locked_run env r r.locked _ hl, htotal,
    List.append_nil, hops]
  simp only [Market.Readable.summary, Market.Readable.violations, Market.Readable.allIDs,
    Market.Readable.proposalCids, List.append_nil, Nat.zero_add, List.append_assoc]

/-! ## Market state checker: which requirement records what -/

theorem Market.kind_aggregateMsgs (r : Market.Readable) :
    ∀ m ∈ Market.aggregateMsgs r, m.kind ≤ 2 := by
  intro m hm
  simp only [Market.aggregateMsgs, List.mem_append] at hm
  rcases hm with (hm | hm) | hm <;> split at hm <;> simp at hm <;> subst hm <;>
    simp [Market.Msg.kind]

theorem Market.kind_duplicateMsgs (env : Market.Env) (seen : List Cid)
    (ps : List (Int × Market.DealProposal)) :
    ∀ m ∈ Market.duplicateMsgs env seen ps, m.kind = 3 := by
  induction ps generalizing seen with
  | nil => simp [Market.duplicateMsgs]
  | cons e rest ih =>
    intro m hm
    simp only [Market.duplicateMsgs, List.mem_append] at hm
    rcases hm with hm | hm
    · split at hm <;> simp at hm
      subst hm
      rfl
    · exact ih _ m hm

theorem Market.kind_nextIDMsgs (r : Market.Readable) :
    ∀ m ∈ Market.nextIDMsgs r, m.kind = 4 := by
  intro m hm
  simp only [Market.nextIDMsgs] at hm
  split at hm <;> simp at hm
  subst hm
  rfl

theorem Market.kind_dealStateMsgs (env : Market.Env) (allIDs : List Nat)
    (e : Int × Market.DealState) :
    ∀ m ∈ Market.dealStateMsgs env allIDs e, 5 ≤ m.kind ∧ m.kind ≤ 8 := by
  intro m hm
  simp only [Market.dealStateMsgs, List.mem_append] at hm
  rcases hm with ((hm | hm) | hm) | hm <;> split at hm <;> simp at hm <;> subst hm <;>
    simp [Market.Msg.kind]

theorem Market.kind_pendingMsgs (env : Market.Env) (cids : List Cid)
    (e : Market.Key × Market.DealProposal) :
    ∀ m ∈ Market.pendingMsgs env cids e, 9 ≤ m.kind ∧ m.kind ≤ 10 := by
  intro m hm
  simp only [Market.pendingMsgs, List.mem_append] at hm
  rcases hm with hm | hm <;> split at hm <;> simp at hm <;> subst hm <;>
    simp [Market.Msg.kind]

theorem Market.kind_lockedMsgs (env : Market.Env) (r : Market.Readable)
    (e : Market.Key × Int) :
    ∀ m ∈ Market.lockedMsgs env r e, m.kind = 11 := by
  intro m hm
  simp only [Market.lockedMsgs] at hm
  split at hm <;> simp at hm
  subst hm
  rfl

theorem Market.kind_lockedTotalMsgs (r : Market.Readable) :
    ∀ m ∈ Market.lockedTotalMsgs r, m.kind = 12 := by
  intro m hm
  simp only [Market.lockedTotalMsgs] at hm
  split at hm <;> simp at hm
  subst hm
  rfl

theorem Market.kind_dealOpsMsgs (r : Market.Readable) (key : Market.Key) :
    ∀ m ∈ Market.dealOpsMsgs r key, 13 ≤ m.kind ∧ m.kind ≤ 14 := by
  intro m hm
  simp only [Market.dealOpsMsgs, List.mem_append, List.mem_map] at hm
  rcases hm with hm | ⟨id, -, rfl⟩
  · split at hm <;> simp at hm
    subst hm
    simp [Market.Msg.kind]
  · simp [Market.Msg.kind]

theorem Market.kind_earlyViolations (env : Market.Env) (r : Market.Readable) :
    ∀ m ∈ r.earlyViolations env, m.kind ≤ 8 := by
  intro m hm
  simp only [Market.Readable.earlyViolations, List.mem_append, List.mem_flatMap] at hm
  rcases hm with ((hm | hm) | hm) | ⟨e, -, hm⟩
  · have := Market.kind_aggregateMsgs r m hm; omega
  · have := Market.kind_duplicateMsgs env _ _ m hm; omega
  · have := Market.kind_nextIDMsgs r m hm; omega
  · have := Market.kind_dealStateMsgs env _ e m hm; omega

/-- The walk over pending proposals, whatever decodes: it only adds messages of the two
requirements on pending proposals. -/
theorem Market.pending_acc (env : Market.Env) (cids : List Cid)
    (pp : List (Market.Key × Market.DealProposal)) (s : Market.CountVars) :
    ∃ tail, (Market.Walk.ForEach.go (Market.pendingStep env cids) none pp s).1.acc
        = s.acc ++ tail ∧ ∀ m ∈ tail, 9 ≤ m.kind ∧ m.kind ≤ 10 := by
  induction pp generalizing s with
  | nil => exact ⟨[], by simp [Market.Walk.ForEach.go], by simp⟩
  | cons e rest ih =>
    rw [Market.Walk.ForEach.go]
    cases hk : env.cidParse e.1 with
    | error err => exact ⟨[], by simp [Market.pendingStep, hk], by simp⟩
    | ok k =>
      cases hc : env.proposalCid e.2 with
      | error err => exact ⟨[], by simp [Market.pendingStep, hk, hc], by simp⟩
      | ok c =>
        have hstep : Market.pendingStep env cids s e.1 e.2 =
            ({ count := s.count + 1, acc := s.acc ++ Market.pendingMsgs env cids e }, none) := by
          simp only [Market.pendingStep, hk, hc, Market.Require_eq, Market.pendingMsgs,
            Market.cidOf_eq env e.2 c hc, Market.keyCid_eq env e.1 k hk, List.append_assoc]
          by_cases h1 : c = k <;> by_cases h2 : c ∈ cids <;> simp [h1, h2]
        obtain ⟨tail, htail, hkind⟩ := ih
          { count := s.count + 1, acc := s.acc ++ Market.pendingMsgs env cids e }
        refine ⟨Market.pendingMsgs env cids e ++ tail, ?_, ?_⟩
        · simp only [hstep]
          rw [htail, List.append_assoc]
        · intro m hm
          rcases List.mem_append.mp hm with hm | hm
          · exact Market.kind_pendingMsgs env cids e m hm
          · exact hkind m hm

/-- The walk over the locked table, whatever decodes: it only adds messages of the
requirement of locked against escrow. -/
theorem Market.locked_acc (env : Market.Env) (r : Market.Readable)
    (ls : List (Market.Key × Int)) (s : Market.LockVars) :
    ∃ tail, (Market.Walk.ForEach.go
        (Market.lockedStep env { lookup := fun a => .ok (r.escrow a) }) none ls s).1.acc
        = s.acc ++ tail ∧ ∀ m ∈ tail, m.kind = 11 := by
  induction ls generalizing s with
  | nil => exact ⟨[], by simp [Market.Walk.ForEach.go], by simp⟩
  | cons e rest ih =>
    rw [Market.Walk.ForEach.go]
    cases ha : env.addressFromBytes e.1 with
    | error err => exact ⟨[], by simp [Market.lockedStep, ha], by simp⟩
    | ok a =>
      have hget : Market.BalanceTable.Get { lookup := fun a => .ok (r.escrow a) } a
          = .ok (r.escrowOf a) := by
        simp only [Market.BalanceTable.Get, Market.Readable.escrowOf]
        cases r.escrow a <;> rfl
      have hstep : Market.lockedStep env { lookup := fun a => .ok (r.escrow a) } s e.1 e.2 =
          ({ lockedTotal := s.lockedTotal + e.2
             lockTableCount := s.lockTableCount + 1
             acc := s.acc ++ Market.lockedMsgs env r e }, none) := by
        simp only [Market.lockedStep, ha, hget, Market.Require_eq, Market.lockedMsgs,
          Market.keyAddress_eq env e.1 a ha]
        by_cases h1 : r.escrowOf a < e.2
        · simp [h1, not_le.mpr h1]
        · simp [h1, not_lt.mp h1]
      obtain ⟨tail, htail, hkind⟩ := ih
        { lockedTotal := s.lockedTotal + e.2
          lockTableCount := s.lockTableCount + 1
          acc := s.acc ++ Market.lockedMsgs env r e }
      refine ⟨Market.lockedMsgs env r e ++ tail, ?_, ?_⟩
      · simp only [hstep]
        rw [htail, List.append_assoc]
      · intro m hm
        rcases List.mem_append.mp hm with hm | hm
        · exact Market.kind_lockedMsgs env r e m hm
        · exact hkind m hm

theorem Market.aggregate_eq (r : Market.Readable) :
    Market.MessageAccumulator.Require
        (Market.MessageAccumulator.Require
          (Market.MessageAccumulator.Require []
            (decide (r.TotalClientLockedCollateral ≥ 0))
            (Market.Msg.negativeTotalClientLockedCollateral r.TotalClientLockedCollateral))
          (decide (r.TotalProviderLockedCollateral ≥ 0))
          (Market.Msg.negativeTotalProviderLockedCollateral r.TotalClientLockedCollateral))
        (decide (r.TotalClientStorageFee ≥ 0))
        (Market.Msg.negativeTotalClientStorageFee r.TotalClientLockedCollateral)
      = Market.aggregateMsgs r := by
  simp only [Market.Require_eq, Market.aggregateMsgs, List.nil_append]
  by_cases h1 : r.TotalClientLockedCollateral < 0 <;>
  by_cases h2 : r.TotalProviderLockedCollateral < 0 <;>
  by_cases h3 : r.TotalClientStorageFee < 0 <;>
  simp [h1, h2, h3, not_lt.mp, Int.not_le.mpr]

theorem Market.nextID_eq (r : Market.Readable) (acc : Market.MessageAccumulator) :
    Market.MessageAccumulator.Require acc
        (decide (Market.toInt64 r.NextID > Market.maxDealIDFrom (-1) r.proposals))
        (Market.Msg.nextIDNotGreater r.NextID (Market.maxDealIDFrom (-1) r.proposals))
      = acc ++ Market.nextIDMsgs r := by
  simp only [Market.Require_eq, Market.nextIDMsgs, Market.Readable.maxDealID, decide_eq_true_eq]

theorem Market.lockedTotal_eq (r : Market.Readable) (acc : Market.MessageAccumulator) :
    Market.MessageAccumulator.Require acc (decide ((0 : Int) + (r.locked.map Prod.snd).sum =
          r.TotalProviderLockedCollateral + r.TotalClientLockedCollateral +
            r.TotalClientStorageFee))
        (Market.Msg.lockedTotalMismatch ((0 : Int) + (r.locked.map Prod.snd).sum)
          r.TotalProviderLockedCollateral r.TotalClientLockedCollateral
          r.TotalClientStorageFee)
      = acc ++ Market.lockedTotalMsgs r := by
  simp only [Market.Require_eq, Market.lockedTotalMsgs, decide_eq_true_eq, Int.zero_add]

/-- The accumulator of every run on readable data whose proposals have fingerprints: the
messages up to the deal states, followed by messages of later requirements only. -/
theorem Market.CheckStateInvariants_early (env : Market.Env) (r : Market.Readable)
    (hp : ∀ e ∈ r.proposals, ∃ c, env.proposalCid e.2 = .ok c) :
    ∃ tail, (Market.CheckStateInvariants env r.toSnapshot).acc
        = some (r.earlyViolations env ++ tail) ∧ ∀ m ∈ tail, 9 ≤ m.kind := by
  have hops := fun s => Market.dealOps_run r r.dealOps s
  simp only [Market.Readable.allIDs] at hops
  simp only [Market.CheckStateInvariants, Market.Readable.toSnapshot, Market.Walk.ForEach,
    Market.aggregate_eq, Market.proposals_run env r.proposals _ hp, Market.nextID_eq,
    Market.dealStates_run, List.append_nil]
  have hX : Market.aggregateMsgs r ++ Market.duplicateMsgs env [] r.proposals ++
      Market.nextIDMsgs r ++ r.states.flatMap
        (Market.dealStateMsgs env (r.proposals.map (fun e => Market.toDealID e.1)).reverse)
      = r.earlyViolations env := rfl
  rw [hX]
  obtain ⟨t1, h1, k1⟩ := Market.pending_acc env
    (r.proposals.map (fun e => env.cidOf e.2)).reverse r.pending
    { count := 0, acc := r.earlyViolations env }
  generalize Market.Walk.ForEach.go (Market.pendingStep env _) none r.pending _ = res1 at h1 ⊢
  obtain ⟨q, _ | err⟩ := res1
  swap
  · exact ⟨t1, by simpa using h1, fun m hm => (k1 m hm).1⟩
  simp only at h1 ⊢
  obtain ⟨t2, h2, k2⟩ := Market.locked_acc env r r.locked
    { lockedTotal := 0, lockTableCount := 0, acc := q.acc }
  generalize Market.Walk.ForEach.go (Market.lockedStep env _) none r.locked _ = res2 at h2 ⊢
  obtain ⟨l, _ | err⟩ := res2
  swap
  · refine ⟨t1 ++ t2, ?_, ?_⟩
    · simp only at h2 ⊢
      rw [h2, h1, List.append_assoc]
    · intro m hm
      rcases List.mem_append.mp hm with hm | hm
      · exact (k1 m hm).1
      · have := k2 m hm; omega
  simp only [hops, Market.Require_eq] at h2 ⊢
  refine ⟨t1 ++ (t2 ++ ((if decide (l.lockedTotal = r.TotalProviderLockedCollateral +
      r.TotalClientLockedCollateral + r.TotalClientStorageFee) = true then []
      else [Market.Msg.lockedTotalMismatch l.lockedTotal r.TotalProviderLockedCollateral
        r.TotalClientLockedCollateral r.TotalClientStorageFee]) ++
      r.dealOps.flatMap (fun e => Market.dealOpsMsgs r e.1))), ?_, ?_⟩
  · rw [h2, h1]
    simp only [List.append_assoc]
  · intro m hm
    simp only [List.mem_append, List.mem_flatMap] at hm
    rcases hm with hm | hm | hm | ⟨e, -, hm⟩
    · exact (k1 m hm).1
    · have := k2 m hm; omega
    · split at hm <;> simp at hm
      subst hm
      simp [Market.Msg.kind]
    · have := Market.kind_dealOpsMsgs r e.1 m hm; omega

/-- The accumulator of every run on readable data whose proposals and pending proposals
decode: the messages up to the pending proposals, followed by messages of later
requirements only. -/
theorem Market.CheckStateInvariants_pending (env : Market.Env) (r : Market.Readable)
    (hp : ∀ e ∈ r.proposals, ∃ c, env.proposalCid e.2 = .ok c)
    (hq : ∀ e ∈ r.pending, (∃ c, env.cidParse e.1 = .ok c) ∧ ∃ c, env.proposalCid e.2 = .ok c) :
    ∃ tail, (Market.CheckStateInvariants env r.toSnapshot).acc
        = some (r.earlyViolations env ++
            r.pending.flatMap (Market.pendingMsgs env (r.proposalCids env)) ++ tail) ∧
      ∀ m ∈ tail, 11 ≤ m.kind := by
  have hops := fun s => Market.dealOps_run r r.dealOps s
  simp only [Market.Readable.allIDs] at hops
  simp only [Market.CheckStateInvariants, Market.Readable.toSnapshot, Market.Walk.ForEach,
    Market.aggregate_eq, Market.proposals_run env r.proposals _ hp, Market.nextID_eq,
    Market.dealStates_run, List.append_nil, Market.pending_run env _ r.pending _ hq]
  have hX : Market.aggregateMsgs r ++ Market.duplicateMsgs env [] r.proposals ++
      Market.nextIDMsgs r ++ r.states.flatMap
        (Market.dealStateMsgs env (r.proposals.map (fun e => Market.toDealID e.1)).reverse)
      = r.earlyViolations env := rfl
  have hY : (r.proposals.map (fun e => env.cidOf e.2)).reverse = r.proposalCids env := rfl
  rw [hX, hY]
  obtain ⟨t2, h2, k2⟩ := Market.locked_acc env r r.locked
    { lockedTotal := 0, lockTableCount := 0
      acc := r.earlyViolations env ++
        r.pending.flatMap (Market.pendingMsgs env (r.proposalCids env)) }
  generalize Market.Walk.ForEach.go (Market.lockedStep env _) none r.locked _ = res2 at h2 ⊢
  obtain ⟨l, _ | err⟩ := res2
  swap
  · exact ⟨t2, by simpa using h2, fun m hm => by have := k2 m hm; omega⟩
  simp only [hops, Market.Require_eq] at h2 ⊢
  refine ⟨t2 ++ ((if decide (l.lockedTotal = r.TotalProviderLockedCollateral +
      r.TotalClientLockedCollateral + r.TotalClientStorageFee) = true then []
      else [Market.Msg.lockedTotalMismatch l.lockedTotal r.TotalProviderLockedCollateral
        r.TotalClientLockedCollateral r.TotalClientStorageFee]) ++
      r.dealOps.flatMap (fun e => Market.dealOpsMsgs r e.1)), ?_, ?_⟩
  · rw [h2]
    simp only [List.append_assoc]
  · intro m hm
    simp only [List.mem_append, List.mem_flatMap] at hm
    rcases hm with hm | hm | ⟨e, -, hm⟩
    · have := k2 m hm; omega
    · split at hm <;> simp at hm
      subst hm
      simp [Market.Msg.kind]
    · have := Market.kind_dealOpsMsgs r e.1 m hm; omega

/-! ## Market state checker: the deal-ops keys -/

/-- On readable data the "key that is not a natural number" message is recorded for
exactly the outer keys for which `strconv.ParseInt` returns no error. -/
theorem Market.dealOpsKey_recorded_iff (env : Market.Env) (r : Market.Readable)
    (h : r.decodes env) (key : Market.Key) :
    (∃ acc, (Market.CheckStateInvariants env r.toSnapshot).acc = some acc ∧
      (Market.Msg.dealOpsKeyNotNatural key ∈ acc ↔
        key ∈ r.dealOps.map Prod.fst ∧ (Market.ParseInt key).2 = false)) := by
  refine ⟨r.violations env, by rw [Market.CheckStateInvariants_run env r h], ?_⟩
  constructor
  · intro hm
    simp only [Market.Readable.violations, List.mem_append, List.mem_flatMap] at hm
    rcases hm with ((((((hm | hm) | hm) | ⟨e, -, hm⟩) | ⟨e, -, hm⟩) | ⟨e, -, hm⟩) | hm) |
      ⟨e, he, hm⟩
    · have := Market.kind_aggregateMsgs r _ hm; simp [Market.Msg.kind] at this
    · have := Market.kind_duplicateMsgs env _ _ _ hm; simp [Market.Msg.kind] at this
    · have := Market.kind_nextIDMsgs r _ hm; simp [Market.Msg.kind] at this
    · have := Market.kind_dealStateMsgs env _ e _ hm; simp [Market.Msg.kind] at this
    · have := Market.kind_pendingMsgs env _ e _ hm; simp [Market.Msg.kind] at this
    · have := Market.kind_lockedMsgs env r e _ hm; simp [Market.Msg.kind] at this
    · have := Market.kind_lockedTotalMsgs r _ hm; simp [Market.Msg.kind] at this
    · simp only [Market.dealOpsMsgs, List.mem_append, List.mem_map] at hm
      rcases hm with hm | ⟨id, -, hid⟩
      · split at hm
        · simp at hm
        · simp only [List.mem_singleton, Market.Msg.dealOpsKeyNotNatural.injEq] at hm
          subst hm
          exact ⟨List.mem_map.mpr ⟨e, he, rfl⟩, Bool.eq_false_iff.mpr ‹_›⟩
      · cases hid
  · rintro ⟨hk, hparse⟩
    obtain ⟨e, he, rfl⟩ := List.mem_map.mp hk
    simp only [Market.Readable.violations, List.mem_append, List.mem_flatMap]
    refine Or.inr ⟨e, he, ?_⟩
    simp [Market.dealOpsMsgs, hparse]

/-- C11, the failing input: in the positive case of the specification with the deal-ops
keys "150" and "abc", the key "150" parses as the epoch 150 and "abc" does not parse, and
the checker records the "key that is not a natural number" violation for "150" and none for
"abc". -/
theorem Market.CheckStateInvariants_keyCase :
    Market.ParseInt [49, 53, 48] = (150, false) ∧
    Market.ParseInt [97, 98, 99] = (0, true) ∧
    Market.CheckStateInvariants Market.sampleEnv Market.keyCase.toSnapshot =
      { summary := some { ProposalCount := 1, PendingProposalCount := 0, DealStateCount := 1,
                          LockTableCount := 1, DealOpEpochCount := 2, DealOpCount := 1 }
        acc := some [Market.Msg.dealOpsKeyNotNatural [49, 53, 48]]
        err := none } := by
  refine ⟨by decide, by decide, by decide⟩

/-! ## Market state checker: NextID -/

/-- The variable `maxDealID` is at least its start value and every deal ID walked, and it
is one of them. -/
theorem Market.maxDealIDFrom_spec (m : Int) (ps : List (Int × Market.DealProposal)) :
    m ≤ Market.maxDealIDFrom m ps ∧ (∀ e ∈ ps, e.1 ≤ Market.maxDealIDFrom m ps) ∧
    (Market.maxDealIDFrom m ps = m ∨ Market.maxDealIDFrom m ps ∈ ps.map Prod.fst) := by
  induction ps generalizing m with
  | nil => simp [Market.maxDealIDFrom]
  | cons e rest ih =>
    have hunf : Market.maxDealIDFrom m (e :: rest)
        = Market.maxDealIDFrom (if e.1 > m then e.1 else m) rest := by
      simp [Market.maxDealIDFrom]
    rw [hunf]
    have hM : m ≤ (if e.1 > m then e.1 else m) ∧ e.1 ≤ (if e.1 > m then e.1 else m) ∧
        ((if e.1 > m then e.1 else m) = m ∨ (if e.1 > m then e.1 else m) = e.1) := by
      split <;> omega
    generalize (if e.1 > m then e.1 else m) = M at hM ⊢
    obtain ⟨h1, h2, h3⟩ := ih M
    refine ⟨by omega, ?_, ?_⟩
    · intro x hx
      rcases List.mem_cons.mp hx with rfl | hx
      · omega
      · exact h2 x hx
    · rcases h3 with h3 | h3
      · rcases hM.2.2 with hm | hm
        · left; rw [h3, hm]
        · right; rw [h3, hm]; simp
      · right; simp only [List.map_cons, List.mem_cons]; exact Or.inr h3

/-- On readable data the NextID message is recorded exactly when `int64(NextID)` is at most
the highest deal ID; for NextID below 2^63 that is when the highest deal ID plus one
exceeds NextID, and for NextID from 2^63 on it is always. -/
theorem Market.nextID_recorded_iff (env : Market.Env) (r : Market.Readable)
    (hp : ∀ e ∈ r.proposals, ∃ c, env.proposalCid e.2 = .ok c) (ht : r.typed) :
    ∃ acc, (Market.CheckStateInvariants env r.toSnapshot).acc = some acc ∧
      (Market.Msg.nextIDNotGreater r.NextID r.maxDealID ∈ acc ↔
        Market.toInt64 r.NextID ≤ r.maxDealID) ∧
      (r.NextID < 2 ^ 63 → (Market.Msg.nextIDNotGreater r.NextID r.maxDealID ∈ acc ↔
        r.maxDealID + 1 > (r.NextID : Int))) ∧
      (2 ^ 63 ≤ r.NextID → Market.Msg.nextIDNotGreater r.NextID r.maxDealID ∈ acc) := by
  obtain ⟨tail, hacc, htail⟩ := Market.CheckStateInvariants_early env r hp
  have key : Market.Msg.nextIDNotGreater r.NextID r.maxDealID ∈ r.earlyViolations env ++ tail ↔
      Market.toInt64 r.NextID ≤ r.maxDealID := by
    constructor
    · intro hm
      rcases List.mem_append.mp hm with hm | hm
      · simp only [Market.Readable.earlyViolations, List.mem_append, List.mem_flatMap] at hm
        rcases hm with ((hm | hm) | hm) | ⟨e, -, hm⟩
        · have := Market.kind_aggregateMsgs r _ hm; simp [Market.Msg.kind] at this
        · have := Market.kind_duplicateMsgs env _ _ _ hm; simp [Market.Msg.kind] at this
        · simp only [Market.nextIDMsgs] at hm
          split at hm
          · simp at hm
          · omega
        · have := Market.kind_dealStateMsgs env _ e _ hm; simp [Market.Msg.kind] at this
      · have := htail _ hm; simp [Market.Msg.kind] at this
    · intro hle
      apply List.mem_append_left
      simp only [Market.Readable.earlyViolations, List.mem_append]
      refine Or.inl (Or.inr ?_)
      simp [Market.nextIDMsgs, not_lt.mpr hle]
  have hmax := Market.maxDealIDFrom_spec (-1) r.proposals
  refine ⟨_, hacc, key, ?_, ?_⟩
  · intro hlt
    rw [key, Market.toInt64_small r.NextID hlt]
    constructor <;> intro h <;> omega
  · intro hge
    rw [key]
    have h64 := ht.2.2.2
    have hneg : Market.toInt64 r.NextID < 0 := by
      unfold Market.toInt64
      rw [Nat.mod_eq_of_lt h64, if_neg (by omega)]
      omega
    have := hmax.1
    simp only [Market.Readable.maxDealID]
    omega

/-- C12, the failing input: in the positive case of the specification with NextID = 2^63
(proposal at deal ID 7, so the highest deal ID plus one is 8), the checker records the
violation "next id, 9223372036854775808, is not greater than highest id in proposals, 7";
with NextID = 5 it records the violation for 5 and 7. -/
theorem Market.CheckStateInvariants_largeNextIDCase :
    Market.toInt64 9223372036854775808 = -9223372036854775808 ∧
    (Market.CheckStateInvariants Market.sampleEnv Market.largeNextIDCase.toSnapshot).acc
      = some [Market.Msg.nextIDNotGreater 9223372036854775808 7] ∧
    (Market.CheckStateInvariants Market.sampleEnv Market.smallNextIDCase.toSnapshot).acc
      = some [Market.Msg.nextIDNotGreater 5 7] := by
  refine ⟨by decide, by decide, by decide⟩

/-! ## Market state checker: the deal states -/

theorem Market.toDealID_index (x : Int) (h0 : 0 ≤ x) (h1 : x < 2 ^ 63) :
    Market.toDealID x = x.toNat := by
  unfold Market.toDealID
  rw [Int.emod_eq_of_lt h0 (by omega)]

/-- For array indices, membership in `allIDs` is membership among the keys of the
proposals. -/
theorem Market.mem_allIDs_index (r : Market.Readable) (ht : r.typed) (d : Int)
    (h0 : 0 ≤ d) (h1 : d < 2 ^ 63) :
    Market.toDealID d ∈ r.allIDs ↔ d ∈ r.proposals.map Prod.fst := by
  simp only [Market.Readable.allIDs, List.mem_reverse, List.mem_map]
  constructor
  · rintro ⟨e, he, heq⟩
    refine ⟨e, he, ?_⟩
    have := ht.1 e he
    rw [Market.toDealID_index e.1 this.1 this.2, Market.toDealID_index d h0 h1] at heq
    omega
  · rintro ⟨e, he, rfl⟩
    exact ⟨e, he, rfl⟩

/-- For unsigned 64-bit deal IDs, membership in `allIDs` is membership among the keys of
the proposals. -/
theorem Market.mem_allIDs_id (r : Market.Readable) (ht : r.typed) (id : Nat)
    (h : id < 2 ^ 64) :
    id ∈ r.allIDs ↔ Int.ofNat id ∈ r.proposals.map Prod.fst := by
  simp only [Market.Readable.allIDs, List.mem_reverse, List.mem_map]
  constructor
  · rintro ⟨e, he, heq⟩
    refine ⟨e, he, ?_⟩
    have := ht.1 e he
    rw [Market.toDealID_index e.1 this.1 this.2] at heq
    simp only [Int.ofNat_eq_coe]
    omega
  · rintro ⟨e, he, heq⟩
    refine ⟨e, he, ?_⟩
    rw [heq]
    exact Market.toDealID_small id h

/-- With typed keys, the messages of the requirements on a deal state are its violations
in the words of the specification. -/
theorem Market.dealStateMsgs_eq (env : Market.Env) (r : Market.Readable) (ht : r.typed)
    (e : Int × Market.DealState) (he : e ∈ r.states) :
    Market.dealStateMsgs env r.allIDs e = r.dealStateViolations env e := by
  have hk := ht.2.1 e he
  have hiff := Market.mem_allIDs_index r ht e.1 hk.1 hk.2
  simp only [Market.dealStateMsgs, Market.Readable.dealStateViolations]
  by_cases hm : e.1 ∈ r.proposals.map Prod.fst
  · rw [if_pos (hiff.mpr hm), if_pos hm]
  · rw [if_neg (fun h => hm (hiff.mp h)), if_neg hm]

/-- The violations of a deal state, one by one. -/
theorem Market.mem_dealStateViolations (env : Market.Env) (r : Market.Readable)
    (e : Int × Market.DealState) (d : Int) (st : Market.DealState) :
    (Market.Msg.startEpochUndefined d st ∈ r.dealStateViolations env e ↔
      e = (d, st) ∧ st.SectorStartEpoch < 0) ∧
    (Market.Msg.lastUpdatedBeforeStart d st ∈ r.dealStateViolations env e ↔
      e = (d, st) ∧ st.LastUpdatedEpoch ≠ env.epochUndefined ∧
        st.LastUpdatedEpoch < st.SectorStartEpoch) ∧
    (Market.Msg.slashedBeforeStart d st ∈ r.dealStateViolations env e ↔
      e = (d, st) ∧ st.SlashEpoch ≠ env.epochUndefined ∧
        st.SlashEpoch < st.SectorStartEpoch) ∧
    (Market.Msg.dealStateWithoutProposal d ∈ r.dealStateViolations env e ↔
      e.1 = d ∧ d ∉ r.proposals.map Prod.fst) := by
  obtain ⟨d', st'⟩ := e
  simp only [Market.Readable.dealStateViolations, List.mem_append, Prod.mk.injEq]
  refine ⟨?_, ?_, ?_, ?_⟩
  · constructor
    · rintro (((h | h) | h) | h) <;> split at h <;> simp at h
      obtain ⟨rfl, rfl⟩ := h
      exact ⟨⟨rfl, rfl⟩, ‹_›⟩
    · rintro ⟨⟨rfl, rfl⟩, h⟩
      simp [h]
  · constructor
    · rintro (((h | h) | h) | h) <;> split at h <;> simp at h
      obtain ⟨rfl, rfl⟩ := h
      exact ⟨⟨rfl, rfl⟩, ‹_›⟩
    · rintro ⟨⟨rfl, rfl⟩, h⟩
      simp [h]
  · constructor
    · rintro (((h | h) | h) | h) <;> split at h <;> simp at h
      obtain ⟨rfl, rfl⟩ := h
      exact ⟨⟨rfl, rfl⟩, ‹_›⟩
    · rintro ⟨⟨rfl, rfl⟩, h⟩
      simp [h]
  · constructor
    · rintro (((h | h) | h) | h) <;> split at h <;> simp at h
      subst h
      exact ⟨rfl, ‹_›⟩
    · rintro ⟨rfl, h⟩
      simp [h]

/-- C13: on every readable snapshot (proposals with fingerprints, array keys that are
array indices), for every deal-state entry with key `d` the checker records a start-epoch
violation iff SectorStartEpoch < 0, a last-updated violation iff LastUpdatedEpoch is not
the undefined sentinel and is below SectorStartEpoch, a slash violation iff SlashEpoch is
not the undefined sentinel and is below SectorStartEpoch, and a dangling-reference
violation iff `d` is the ID of no proposal; and the messages of the deal-state
requirements in the accumulator are exactly these, entry by entry. -/
theorem Market.dealState_violations (env : Market.Env) (r : Market.Readable)
    (hp : ∀ e ∈ r.proposals, ∃ c, env.proposalCid e.2 = .ok c) (ht : r.typed) :
    ∃ acc, (Market.CheckStateInvariants env r.toSnapshot).acc = some acc ∧
      (∀ d st, (d, st) ∈ r.states →
        (Market.Msg.startEpochUndefined d st ∈ acc ↔ st.SectorStartEpoch < 0) ∧
        (Market.Msg.lastUpdatedBeforeStart d st ∈ acc ↔
          st.LastUpdatedEpoch ≠ env.epochUndefined ∧
            st.LastUpdatedEpoch < st.SectorStartEpoch) ∧
        (Market.Msg.slashedBeforeStart d st ∈ acc ↔
          st.SlashEpoch ≠ env.epochUndefined ∧ st.SlashEpoch < st.SectorStartEpoch) ∧
        (Market.Msg.dealStateWithoutProposal d ∈ acc ↔ d ∉ r.proposals.map Prod.fst)) ∧
      acc.filter (fun m => decide (5 ≤ m.kind ∧ m.kind ≤ 8))
        = r.states.flatMap (r.dealStateViolations env) := by
  obtain ⟨tail, hacc, htail⟩ := Market.CheckStateInvariants_early env r hp
  have hseg : r.states.flatMap (Market.dealStateMsgs env r.allIDs)
      = r.states.flatMap (r.dealStateViolations env) := by
    apply List.flatMap_congr
    exact fun e he => Market.dealStateMsgs_eq env r ht e he
  have hmem : ∀ m : Market.Msg, 5 ≤ m.kind → m.kind ≤ 8 →
      (m ∈ r.earlyViolations env ++ tail ↔
        ∃ e ∈ r.states, m ∈ r.dealStateViolations env e) := by
    intro m h5 h8
    rw [← List.mem_flatMap, ← hseg]
    simp only [Market.Readable.earlyViolations, List.mem_append]
    constructor
    · rintro ((((hm | hm) | hm) | hm) | hm)
      · have := Market.kind_aggregateMsgs r _ hm; omega
      · have := Market.kind_duplicateMsgs env _ _ _ hm; omega
      · have := Market.kind_nextIDMsgs r _ hm; omega
      · exact hm
      · have := htail _ hm; omega
    · exact fun hm => Or.inl (Or.inr hm)
  refine ⟨_, hacc, ?_, ?_⟩
  · intro d st hin
    refine ⟨?_, ?_, ?_, ?_⟩
    · rw [hmem _ (by simp [Market.Msg.kind]) (by simp [Market.Msg.kind])]
      constructor
      · rintro ⟨e, -, hm⟩
        exact (((Market.mem_dealStateViolations env r e d st).1).mp hm).2
      · intro h
        exact ⟨(d, st), hin, ((Market.mem_dealStateViolations env r _ d st).1).mpr ⟨rfl, h⟩⟩
    · rw [hmem _ (by simp [Market.Msg.kind]) (by simp [Market.Msg.kind])]
      constructor
      · rintro ⟨e, -, hm⟩
        exact (((Market.mem_dealStateViolations env r e d st).2.1).mp hm).2
      · intro h
        exact ⟨(d, st), hin, ((Market.mem_dealStateViolations env r _ d st).2.1).mpr ⟨rfl, h⟩⟩
    · rw [hmem _ (by simp [Market.Msg.kind]) (by simp [Market.Msg.kind])]
      constructor
      · rintro ⟨e, -, hm⟩
        exact (((Market.mem_dealStateViolations env r e d st).2.2.1).mp hm).2
      · intro h
        exact ⟨(d, st), hin,
          ((Market.mem_dealStateViolations env r _ d st).2.2.1).mpr ⟨rfl, h⟩⟩
    · rw [hmem _ (by simp [Market.Msg.kind]) (by simp [Market.Msg.kind])]
      constructor
      · rintro ⟨e, -, hm⟩
        exact (((Market.mem_dealStateViolations env r e d st).2.2.2).mp hm).2
      · intro h
        exact ⟨(d, st), hin,
          ((Market.mem_dealStateViolations env r _ d st).2.2.2).mpr ⟨rfl, h⟩⟩
  · simp only [Market.Readable.earlyViolations, List.filter_append, hseg]
    have e1 : (Market.aggregateMsgs r).filter (fun m => decide (5 ≤ m.kind ∧ m.kind ≤ 8)) = [] :=
      List.filter_eq_nil_iff.mpr (fun m hm => by
        have := Market.kind_aggregateMsgs r m hm
        simp only [decide_eq_true_eq]; omega)
    have e2 : (Market.duplicateMsgs env [] r.proposals).filter
        (fun m => decide (5 ≤ m.kind ∧ m.kind ≤ 8)) = [] :=
      List.filter_eq_nil_iff.mpr (fun m hm => by
        have := Market.kind_duplicateMsgs env _ _ m hm
        simp only [decide_eq_true_eq]; omega)
    have e3 : (Market.nextIDMsgs r).filter (fun m => decide (5 ≤ m.kind ∧ m.kind ≤ 8)) = [] :=
      List.filter_eq_nil_iff.mpr (fun m hm => by
        have := Market.kind_nextIDMsgs r m hm
        simp only [decide_eq_true_eq]; omega)
    have e4 : tail.filter (fun m => decide (5 ≤ m.kind ∧ m.kind ≤ 8)) = [] :=
      List.filter_eq_nil_iff.mpr (fun m hm => by
        have := htail m hm
        simp only [decide_eq_true_eq]; omega)
    have e5 : (r.states.flatMap (r.dealStateViolations env)).filter
        (fun m => decide (5 ≤ m.kind ∧ m.kind ≤ 8))
        = r.states.flatMap (r.dealStateViolations env) := by
      rw [← hseg]
      exact List.filter_eq_self.mpr (fun m hm => by
        obtain ⟨e, -, hm⟩ := List.mem_flatMap.mp hm
        have := Market.kind_dealStateMsgs env _ e m hm
        simp only [decide_eq_true_eq]; omega)
    rw [e1, e2, e3, e4, e5]
    simp

/-- A proposal at deal ID 7 and a deal state at deal ID 9 with a negative start epoch: the
checker records the start-epoch violation and the dangling reference for deal 9. -/
theorem Market.dealState_violations_witness :
    ∃ acc, (Market.CheckStateInvariants Market.sampleEnv
        { Market.positiveCase with
          states := [(9, { SectorStartEpoch := -3, LastUpdatedEpoch := -1, SlashEpoch := -1 })]
        }.toSnapshot).acc = some acc ∧
      Market.Msg.startEpochUndefined 9
        { SectorStartEpoch := -3, LastUpdatedEpoch := -1, SlashEpoch := -1 } ∈ acc ∧
      Market.Msg.dealStateWithoutProposal 9 ∈ acc :=
  have h := Market.dealState_violations Market.sampleEnv
    { Market.positiveCase with
      states := [(9, { SectorStartEpoch := -3, LastUpdatedEpoch := -1, SlashEpoch := -1 })] }
    (fun _ _ => ⟨_, rfl⟩)
    (by simp [Market.Readable.typed, Market.positiveCase])
  h.elim fun acc hacc =>
    ⟨acc, hacc.1,
      ((hacc.2.1 9 { SectorStartEpoch := -3, LastUpdatedEpoch := -1, SlashEpoch := -1 }
        (by simp)).1).mpr (by decide),
      ((hacc.2.1 9 { SectorStartEpoch := -3, LastUpdatedEpoch := -1, SlashEpoch := -1 }
        (by simp)).2.2.2).mpr (by simp [Market.positiveCase])⟩

/-! ## Market state checker: escrow and locked tables -/

/-- Messages of one requirement in the list of all messages of a run. -/
theorem Market.mem_violations_locked (env : Market.Env) (r : Market.Readable) (m : Market.Msg)
    (hk : m.kind = 11) :
    m ∈ r.violations env ↔ ∃ e ∈ r.locked, m ∈ Market.lockedMsgs env r e := by
  simp only [Market.Readable.violations, List.mem_append, List.mem_flatMap]
  constructor
  · rintro (((((((hm | hm) | hm) | ⟨e, -, hm⟩) | ⟨e, -, hm⟩) | hm) | hm) | ⟨e, -, hm⟩)
    · have := Market.kind_aggregateMsgs r _ hm; omega
    · have := Market.kind_duplicateMsgs env _ _ _ hm; omega
    · have := Market.kind_nextIDMsgs r _ hm; omega
    · have := Market.kind_dealStateMsgs env _ e _ hm; omega
    · have := Market.kind_pendingMsgs env _ e _ hm; omega
    · exact hm
    · have := Market.kind_lockedTotalMsgs r _ hm; omega
    · have := Market.kind_dealOpsMsgs r e.1 _ hm; omega
  · exact fun hm => Or.inl (Or.inl (Or.inr hm))

theorem Market.mem_violations_lockedTotal (env : Market.Env) (r : Market.Readable)
    (m : Market.Msg) (hk : m.kind = 12) :
    m ∈ r.violations env ↔ m ∈ Market.lockedTotalMsgs r := by
  simp only [Market.Readable.violations, List.mem_append, List.mem_flatMap]
  constructor
  · rintro (((((((hm | hm) | hm) | ⟨e, -, hm⟩) | ⟨e, -, hm⟩) | ⟨e, -, hm⟩) | hm) | ⟨e, -, hm⟩)
    · have := Market.kind_aggregateMsgs r _ hm; omega
    · have := Market.kind_duplicateMsgs env _ _ _ hm; omega
    · have := Market.kind_nextIDMsgs r _ hm; omega
    · have := Market.kind_dealStateMsgs env _ e _ hm; omega
    · have := Market.kind_pendingMsgs env _ e _ hm; omega
    · have := Market.kind_lockedMsgs env r e _ hm; omega
    · exact hm
    · have := Market.kind_dealOpsMsgs r e.1 _ hm; omega
  · exact fun hm => Or.inl (Or.inr hm)

/-- C14, as amended: on every readable snapshot in which every proposal (of the proposals
array and among the pending proposals) has a fingerprint, every pending-proposal key parses
as a content identifier and every locked-table key parses as an address, (i) for every
entry of the locked table, with address `a` and amount `locked`, the checker records the
locked-greater-than-escrow violation for `a` exactly when the escrow balance of `a`, 0
when `a` has no escrow entry, is below `locked`; (ii) it records the locked-total
violation exactly when the sum of the locked amounts differs from
TotalProviderLockedCollateral + TotalClientLockedCollateral + TotalClientStorageFee. -/
theorem Market.locked_violations (env : Market.Env) (r : Market.Readable)
    (h : r.decodes env) :
    ∃ acc, (Market.CheckStateInvariants env r.toSnapshot).acc = some acc ∧
      (∀ key locked a, (key, locked) ∈ r.locked → env.addressFromBytes key = .ok a →
        (Market.Msg.lockedGreaterThanEscrow a locked ((r.escrow a).getD 0) ∈ acc ↔
          (r.escrow a).getD 0 < locked)) ∧
      ((∃ m ∈ acc, m.kind = 12) ↔
        (r.locked.map Prod.snd).sum ≠ r.TotalProviderLockedCollateral +
          r.TotalClientLockedCollateral + r.TotalClientStorageFee) ∧
      (∀ m ∈ acc, m.kind = 12 →
        m = Market.Msg.lockedTotalMismatch (r.locked.map Prod.snd).sum
          r.TotalProviderLockedCollateral r.TotalClientLockedCollateral
          r.TotalClientStorageFee) := by
  refine ⟨r.violations env, by rw [Market.CheckStateInvariants_run env r h], ?_, ?_, ?_⟩
  · intro key locked a hin ha
    rw [Market.mem_violations_locked env r
      (Market.Msg.lockedGreaterThanEscrow a locked ((r.escrow a).getD 0)) rfl]
    constructor
    · rintro ⟨e, -, hm⟩
      simp only [Market.lockedMsgs] at hm
      split at hm
      · simp only [List.mem_singleton, Market.Msg.lockedGreaterThanEscrow.injEq] at hm
        obtain ⟨h1, h2, h3⟩ := hm
        rename_i hlt
        rw [← h1, ← h2] at hlt
        exact hlt
      · simp at hm
    · intro hlt
      refine ⟨(key, locked), hin, ?_⟩
      have hka := Market.keyAddress_eq env key a ha
      simp only [Market.lockedMsgs, hka, Market.Readable.escrowOf, hlt, if_true,
        List.mem_singleton]
  · constructor
    · rintro ⟨m, hm, hk⟩
      rw [Market.mem_violations_lockedTotal env r m hk] at hm
      simp only [Market.lockedTotalMsgs] at hm
      split at hm
      · simp at hm
      · assumption
    · intro hne
      refine ⟨Market.Msg.lockedTotalMismatch (r.locked.map Prod.snd).sum
        r.TotalProviderLockedCollateral r.TotalClientLockedCollateral
        r.TotalClientStorageFee, ?_, rfl⟩
      rw [Market.mem_violations_lockedTotal env r
        (Market.Msg.lockedTotalMismatch (r.locked.map Prod.snd).sum
          r.TotalProviderLockedCollateral r.TotalClientLockedCollateral
          r.TotalClientStorageFee) rfl]
      simp [Market.lockedTotalMsgs, hne]
  · intro m hm hk
    rw [Market.mem_violations_lockedTotal env r m hk] at hm
    simp only [Market.lockedTotalMsgs] at hm
    split at hm
    · simp at hm
    · simpa using hm

/-- Locked 10 against escrow 5 for one address: the violation is recorded. -/
theorem Market.locked_violations_witness :
    ∃ acc, (Market.CheckStateInvariants Market.sampleEnv
        { Market.positiveCase with
          escrow := fun a => if a = Address.ID 9 then some 5 else none }.toSnapshot).acc
        = some acc ∧
      Market.Msg.lockedGreaterThanEscrow (Address.ID 9) 10 5 ∈ acc :=
  have h := Market.locked_violations Market.sampleEnv
    { Market.positiveCase with escrow := fun a => if a = Address.ID 9 then some 5 else none }
    (by simp [Market.Readable.decodes, Market.positiveCase, Market.sampleEnv])
  h.elim fun acc hacc =>
    ⟨acc, hacc.1, (hacc.2.1 [9] 10 (Address.ID 9) (by simp [Market.positiveCase]) rfl).mpr
      (by decide)⟩

/-- C14 fails as stated: with locked 10 against escrow 5 for one address, a locked total
of 10 against aggregates that sum to 11, and a pending proposal under a key that
`cid.Parse` rejects, every collection loads and iterates, and the checker returns the error
of `cid.Parse` before it reads the locked table: the accumulator is empty, with neither
the locked-greater-than-escrow violation nor the locked-total violation. -/
theorem Market.CheckStateInvariants_stoppedLockedCase :
    (([9], 10) : Market.Key × Int) ∈ Market.stoppedLockedCase.locked ∧
    Market.sampleEnv.addressFromBytes [9] = .ok (Address.ID 9) ∧
    (Market.stoppedLockedCase.escrow (Address.ID 9)).getD 0 < 10 ∧
    (Market.stoppedLockedCase.locked.map Prod.snd).sum ≠
      Market.stoppedLockedCase.TotalProviderLockedCollateral +
        Market.stoppedLockedCase.TotalClientLockedCollateral +
        Market.stoppedLockedCase.TotalClientStorageFee ∧
    Market.CheckStateInvariants Market.sampleEnv Market.stoppedLockedCase.toSnapshot =
      { summary := none, acc := some [], err := some { code := 1 } } := by
  refine ⟨by decide, rfl, by decide, by decide, by decide⟩

/-! ## Market state checker: the pending proposals -/

/-- C16, as amended: on every readable snapshot in which every proposal (of the proposals
array and among the pending proposals) has a fingerprint and every pending-proposal key
parses as a content identifier, for every pending-proposal entry (key `k`, value `p`) the
checker records the key-mismatch violation exactly when the fingerprint recomputed from `p`
differs from the identifier `k` parses to, and the not-found violation exactly when that
fingerprint is not among the fingerprints of the proposals of the proposals array. -/
theorem Market.pending_violations (env : Market.Env) (r : Market.Readable)
    (hp : ∀ e ∈ r.proposals, ∃ c, env.proposalCid e.2 = .ok c)
    (hq : ∀ e ∈ r.pending, (∃ c, env.cidParse e.1 = .ok c) ∧ ∃ c, env.proposalCid e.2 = .ok c) :
    ∃ acc, (Market.CheckStateInvariants env r.toSnapshot).acc = some acc ∧
      ∀ k p kc pc, (k, p) ∈ r.pending → env.cidParse k = .ok kc →
        env.proposalCid p = .ok pc →
        (Market.Msg.pendingKeyMismatch pc kc ∈ acc ↔ pc ≠ kc) ∧
        (Market.Msg.pendingNotInProposals pc ∈ acc ↔
          ∀ e ∈ r.proposals, env.proposalCid e.2 ≠ .ok pc) := by
  obtain ⟨tail, hacc, htail⟩ := Market.CheckStateInvariants_pending env r hp hq
  have hmem : ∀ m : Market.Msg, 9 ≤ m.kind → m.kind ≤ 10 →
      (m ∈ r.earlyViolations env ++
          r.pending.flatMap (Market.pendingMsgs env (r.proposalCids env)) ++ tail ↔
        ∃ e ∈ r.pending, m ∈ Market.pendingMsgs env (r.proposalCids env) e) := by
    intro m h9 h10
    simp only [List.mem_append, List.mem_flatMap]
    constructor
    · rintro ((hm | hm) | hm)
      · have := Market.kind_earlyViolations env r m hm; omega
      · exact hm
      · have := htail m hm; omega
    · exact fun hm => Or.inl (Or.inr hm)
  have hcids : ∀ pc, pc ∈ r.proposalCids env ↔ ∃ e ∈ r.proposals, env.proposalCid e.2 = .ok pc := by
    intro pc
    simp only [Market.Readable.proposalCids, List.mem_reverse, List.mem_map]
    constructor
    · rintro ⟨e, he, rfl⟩
      obtain ⟨c, hc⟩ := hp e he
      exact ⟨e, he, by rw [hc, Market.cidOf_eq env e.2 c hc]⟩
    · rintro ⟨e, he, hc⟩
      exact ⟨e, he, Market.cidOf_eq env e.2 pc hc⟩
  refine ⟨_, hacc, ?_⟩
  intro k p kc pc hin hk hc
  have e1 := Market.cidOf_eq env p pc hc
  have e2 := Market.keyCid_eq env k kc hk
  constructor
  · rw [hmem _ (by simp [Market.Msg.kind]) (by simp [Market.Msg.kind])]
    constructor
    · rintro ⟨e, -, hm⟩
      simp only [Market.pendingMsgs, List.mem_append] at hm
      rcases hm with hm | hm
      · split at hm
        · simp at hm
        · simp only [List.mem_singleton, Market.Msg.pendingKeyMismatch.injEq] at hm
          rename_i hne
          rw [← hm.1, ← hm.2] at hne
          exact hne
      · split at hm <;> simp at hm
    · intro hne
      refine ⟨(k, p), hin, ?_⟩
      simp [Market.pendingMsgs, e1, e2, hne]
  · rw [hmem _ (by simp [Market.Msg.kind]) (by simp [Market.Msg.kind])]
    constructor
    · rintro ⟨e, -, hm⟩
      simp only [Market.pendingMsgs, List.mem_append] at hm
      rcases hm with hm | hm
      · split at hm <;> simp at hm
      · split at hm
        · simp at hm
        · simp only [List.mem_singleton, Market.Msg.pendingNotInProposals.injEq] at hm
          rename_i hnot
          rw [← hm] at hnot
          intro x hx hxc
          exact hnot ((hcids pc).mpr ⟨x, hx, hxc⟩)
    · intro hall
      refine ⟨(k, p), hin, ?_⟩
      have hnot : pc ∉ r.proposalCids env := by
        intro hmem'
        obtain ⟨x, hx, hxc⟩ := (hcids pc).mp hmem'
        exact hall x hx hxc
      simp [Market.pendingMsgs, e1, hnot]

/-- A pending proposal with fingerprint 1005 under the key that parses to 4, beside the
proposal with fingerprint 1001: both violations are recorded. -/
theorem Market.pending_violations_witness :
    ∃ acc, (Market.CheckStateInvariants Market.sampleEnv
        { Market.positiveCase with pending := [([4], { content := 5 })] }.toSnapshot).acc
        = some acc ∧
      Market.Msg.pendingKeyMismatch 1005 4 ∈ acc ∧
      Market.Msg.pendingNotInProposals 1005 ∈ acc :=
  have h := Market.pending_violations Market.sampleEnv
    { Market.positiveCase with pending := [([4], { content := 5 })] }
    (fun _ _ => ⟨_, rfl⟩)
    (by simp [Market.positiveCase, Market.sampleEnv])
  h.elim fun acc hacc =>
    ⟨acc, hacc.1,
      ((hacc.2 [4] { content := 5 } 4 1005 (by simp) rfl rfl).1).mpr (by decide),
      ((hacc.2 [4] { content := 5 } 4 1005 (by simp) rfl rfl).2).mpr
        (by simp [Market.positiveCase, Market.sampleEnv])⟩

/-- C16 fails as stated: with a first pending proposal under a key that `cid.Parse` rejects
and a second one under the key that parses to the identifier 4, whose recomputed
fingerprint 1005 differs from 4 and is the fingerprint of no proposal, the checker stops at
the first key: it returns the error of `cid.Parse` and an empty accumulator, with neither
violation for the second entry. -/
theorem Market.CheckStateInvariants_stoppedPendingCase :
    (([4], { content := 5 }) : Market.Key × Market.DealProposal)
      ∈ Market.stoppedPendingCase.pending ∧
    Market.sampleEnv.cidParse [4] = .ok 4 ∧
    Market.sampleEnv.proposalCid { content := 5 } = .ok 1005 ∧
    (∀ e ∈ Market.stoppedPendingCase.proposals, Market.sampleEnv.proposalCid e.2 ≠ .ok 1005) ∧
    Market.CheckStateInvariants Market.sampleEnv Market.stoppedPendingCase.toSnapshot =
      { summary := none, acc := some [], err := some { code := 1 } } := by
  refine ⟨by decide, rfl, rfl, ?_, by decide⟩
  simp [Market.stoppedPendingCase, Market.positiveCase, Market.sampleEnv]

/-! ## Market state checker: duplicate proposals -/

/-- A duplicate message carries the deal ID of a proposal walked. -/
theorem Market.duplicateMsgs_id (env : Market.Env) (seen : List Cid)
    (ps : List (Int × Market.DealProposal)) (d : Int)
    (h : Market.Msg.duplicateDealProposal d ∈ Market.duplicateMsgs env seen ps) :
    d ∈ ps.map Prod.fst := by
  induction ps generalizing seen with
  | nil => simp [Market.duplicateMsgs] at h
  | cons e rest ih =>
    simp only [Market.duplicateMsgs, List.mem_append] at h
    rcases h with h | h
    · split at h <;> simp at h
      simp [h]
    · simp only [List.map_cons, List.mem_cons]
      exact Or.inr (ih _ h)

/-- In a walk in ascending order of deal IDs, the duplicate message for the proposal at
`d` is recorded exactly when its fingerprint was seen before the walk or belongs to a
proposal of the walk at a smaller deal ID. -/
theorem Market.mem_duplicateMsgs (env : Market.Env) (seen : List Cid)
    (ps : List (Int × Market.DealProposal)) (d : Int) (p : Market.DealProposal)
    (hs : (ps.map Prod.fst).Pairwise (· < ·)) (hin : (d, p) ∈ ps) :
    Market.Msg.duplicateDealProposal d ∈ Market.duplicateMsgs env seen ps ↔
      (env.cidOf p ∈ seen ∨ ∃ e ∈ ps, e.1 < d ∧ env.cidOf e.2 = env.cidOf p) := by
  induction ps generalizing seen with
  | nil => simp at hin
  | cons e rest ih =>
    simp only [List.map_cons, List.pairwise_cons, List.mem_map, forall_exists_index, and_imp,
      forall_apply_eq_imp_iff₂] at hs
    obtain ⟨hlt, hrest⟩ := hs
    simp only [Market.duplicateMsgs, List.mem_append]
    rcases List.mem_cons.mp hin with heq | hin'
    · subst heq
      constructor
      · rintro (h | h)
        · split at h
          · exact Or.inl ‹_›
          · simp at h
        · have := Market.duplicateMsgs_id env _ rest d h
          obtain ⟨x, hx, hxd⟩ := List.mem_map.mp this
          have := hlt x hx
          simp only at this
          omega
      · rintro (h | ⟨x, hx, hxd, -⟩)
        · left; simp [h]
        · rcases List.mem_cons.mp hx with rfl | hx
          · simp only at hxd; omega
          · have := hlt x hx
            simp only at this
            omega
    · have hed : e.1 < d := hlt (d, p) hin'
      rw [ih (env.cidOf e.2 :: seen) hrest hin']
      constructor
      · rintro (h | h)
        · split at h
          · simp only [List.mem_singleton, Market.Msg.duplicateDealProposal.injEq] at h
            omega
          · simp at h
        · rcases h with h | ⟨x, hx, hxd, hxc⟩
          · rcases List.mem_cons.mp h with h | h
            · exact Or.inr ⟨e, List.mem_cons_self _ _, hed, h.symm⟩
            · exact Or.inl h
          · exact Or.inr ⟨x, List.mem_cons_of_mem _ hx, hxd, hxc⟩
      · rintro (h | ⟨x, hx, hxd, hxc⟩)
        · exact Or.inr (Or.inl (List.mem_cons_of_mem _ h))
        · rcases List.mem_cons.mp hx with rfl | hx
          · exact Or.inr (Or.inl (by rw [hxc]; exact List.mem_cons_self _ _))
          · exact Or.inr (Or.inr ⟨x, hx, hxd, hxc⟩)

/-- The duplicate messages of a walk and the fingerprints it sees for the first time add
up to the number of proposals walked. -/
theorem Market.duplicateMsgs_length (env : Market.Env) (seen : List Cid)
    (ps : List (Int × Market.DealProposal)) :
    (Market.duplicateMsgs env seen ps).length +
        ((ps.map (fun e => env.cidOf e.2)).toFinset \ seen.toFinset).card = ps.length := by
  induction ps generalizing seen with
  | nil => simp [Market.duplicateMsgs]
  | cons e rest ih =>
    have ih' := ih (env.cidOf e.2 :: seen)
    simp only [List.toFinset_cons] at ih'
    simp only [Market.duplicateMsgs, List.length_append, List.map_cons, List.toFinset_cons,
      List.length_cons]
    by_cases hc : env.cidOf e.2 ∈ seen
    · have hS : env.cidOf e.2 ∈ seen.toFinset := List.mem_toFinset.mpr hc
      rw [Finset.insert_eq_of_mem hS] at ih'
      rw [if_pos hc, Finset.insert_sdiff_of_mem _ hS]
      simp only [List.length_singleton]
      omega
    · have hS : env.cidOf e.2 ∉ seen.toFinset := fun h => hc (List.mem_toFinset.mp h)
      have hset : insert (env.cidOf e.2) (rest.map (fun e => env.cidOf e.2)).toFinset \
          seen.toFinset = insert (env.cidOf e.2)
            ((rest.map (fun e => env.cidOf e.2)).toFinset \
              insert (env.cidOf e.2) seen.toFinset) := by
        ext x
        simp only [Finset.mem_sdiff, Finset.mem_insert]
        constructor
        · rintro ⟨h1 | h1, h2⟩
          · exact Or.inl h1
          · by_cases hx : x = env.cidOf e.2
            · exact Or.inl hx
            · exact Or.inr ⟨h1, fun h => h.elim hx h2⟩
        · rintro (h1 | ⟨h1, h2⟩)
          · exact ⟨Or.inl h1, by rw [h1]; exact hS⟩
          · exact ⟨Or.inr h1, fun h => h2 (Or.inr h)⟩
      rw [if_neg hc, hset, Finset.card_insert_of_not_mem (by simp)]
      simp only [List.length_nil]
      omega

/-- C15: on every readable snapshot (proposals with fingerprints, walked in ascending
order of deal IDs), the checker records the duplicate-proposal violation at deal ID `d`
exactly when a proposal at a smaller deal ID has the same fingerprint as the proposal at
`d`; the number of duplicate violations is the number of proposals minus the number of
distinct fingerprints, and it is zero exactly when all fingerprints are different. -/
theorem Market.duplicate_violations (env : Market.Env) (r : Market.Readable)
    (hp : ∀ e ∈ r.proposals, ∃ c, env.proposalCid e.2 = .ok c)
    (hs : (r.proposals.map Prod.fst).Pairwise (· < ·)) :
    ∃ acc, (Market.CheckStateInvariants env r.toSnapshot).acc = some acc ∧
      (∀ d p, (d, p) ∈ r.proposals →
        (Market.Msg.duplicateDealProposal d ∈ acc ↔
          ∃ e ∈ r.proposals, e.1 < d ∧ env.cidOf e.2 = env.cidOf p)) ∧
      acc.countP (fun m => decide (m.kind = 3))
        = r.proposals.length - (r.proposals.map (fun e => env.cidOf e.2)).dedup.length ∧
      (acc.countP (fun m => decide (m.kind = 3)) = 0 ↔
        (r.proposals.map (fun e => env.cidOf e.2)).Nodup) := by
  obtain ⟨tail, hacc, htail⟩ := Market.CheckStateInvariants_early env r hp
  have hlen := Market.duplicateMsgs_length env [] r.proposals
  simp only [List.toFinset_nil, Finset.sdiff_empty, List.card_toFinset] at hlen
  have hcount : (r.earlyViolations env ++ tail).countP (fun m => decide (m.kind = 3))
      = (Market.duplicateMsgs env [] r.proposals).length := by
    simp only [Market.Readable.earlyViolations, List.countP_append]
    have e1 : (Market.aggregateMsgs r).countP (fun m => decide (m.kind = 3)) = 0 :=
      List.countP_eq_zero.mpr (fun m hm => by
        have := Market.kind_aggregateMsgs r m hm
        simp only [decide_eq_true_eq]; omega)
    have e2 : (Market.duplicateMsgs env [] r.proposals).countP (fun m => decide (m.kind = 3))
        = (Market.duplicateMsgs env [] r.proposals).length :=
      List.countP_eq_length.mpr (fun m hm => by
        have := Market.kind_duplicateMsgs env _ _ m hm
        simp only [decide_eq_true_eq]; omega)
    have e3 : (Market.nextIDMsgs r).countP (fun m => decide (m.kind = 3)) = 0 :=
      List.countP_eq_zero.mpr (fun m hm => by
        have := Market.kind_nextIDMsgs r m hm
        simp only [decide_eq_true_eq]; omega)
    have e4 : (r.states.flatMap (Market.dealStateMsgs env r.allIDs)).countP
        (fun m => decide (m.kind = 3)) = 0 :=
      List.countP_eq_zero.mpr (fun m hm => by
        obtain ⟨e, -, hm⟩ := List.mem_flatMap.mp hm
        have := Market.kind_dealStateMsgs env _ e m hm
        simp only [decide_eq_true_eq]; omega)
    have e5 : tail.countP (fun m => decide (m.kind = 3)) = 0 :=
      List.countP_eq_zero.mpr (fun m hm => by
        have := htail m hm
        simp only [decide_eq_true_eq]; omega)
    rw [e1, e2, e3, e4, e5]
    omega
  refine ⟨_, hacc, ?_, ?_, ?_⟩
  · intro d p hin
    have hiff := Market.mem_duplicateMsgs env [] r.proposals d p hs hin
    simp only [List.not_mem_nil, false_or] at hiff
    rw [← hiff]
    simp only [Market.Readable.earlyViolations, List.mem_append, List.mem_flatMap]
    constructor
    · rintro ((((hm | hm) | hm) | ⟨e, -, hm⟩) | hm)
      · have := Market.kind_aggregateMsgs r _ hm; simp [Market.Msg.kind] at this
      · exact hm
      · have := Market.kind_nextIDMsgs r _ hm; simp [Market.Msg.kind] at this
      · have := Market.kind_dealStateMsgs env _ e _ hm; simp [Market.Msg.kind] at this
      · have := htail _ hm; simp [Market.Msg.kind] at this
    · exact fun hm => Or.inl (Or.inl (Or.inl (Or.inr hm)))
  · rw [hcount]
    omega
  · rw [hcount]
    have hsub := List.dedup_sublist (r.proposals.map (fun e => env.cidOf e.2))
    constructor
    · intro h0
      have hl : (r.proposals.map (fun e => env.cidOf e.2)).dedup.length
          = (r.proposals.map (fun e => env.cidOf e.2)).length := by
        simp only [List.length_map]
        omega
      rw [← List.dedup_eq_self]
      exact hsub.eq_of_length hl
    · intro hnd
      rw [List.dedup_eq_self.mpr hnd, List.length_map] at hlen
      omega

/-- Proposals 7 and 8 with the same content: the duplicate is recorded at deal ID 8. -/
theorem Market.duplicate_violations_witness :
    ∃ acc, (Market.CheckStateInvariants Market.sampleEnv
        { Market.positiveCase with
          NextID := 9
          proposals := [(7, { content := 1 }), (8, { content := 1 })] }.toSnapshot).acc
        = some acc ∧
      Market.Msg.duplicateDealProposal 8 ∈ acc ∧
      ¬ Market.Msg.duplicateDealProposal 7 ∈ acc :=
  have h := Market.duplicate_violations Market.sampleEnv
    { Market.positiveCase with
      NextID := 9
      proposals := [(7, { content := 1 }), (8, { content := 1 })] }
    (fun _ _ => ⟨_, rfl⟩) (by simp)
  h.elim fun acc hacc =>
    ⟨acc, hacc.1,
      (hacc.2.1 8 { content := 1 } (by simp)).mpr ⟨(7, { content := 1 }), by simp, by decide, rfl⟩,
      fun hmem => by
        obtain ⟨e, he, hlt, -⟩ := (hacc.2.1 7 { content := 1 } (by simp)).mp hmem
        simp at he
        rcases he with rfl | rfl <;> simp at hlt⟩

/-! ## Market state checker: the deal ops -/

/-- With keys that do not repeat, looking up the key of an entry finds its value. -/
theorem Market.lookup_of_nodup (ops : List (Market.Key × List Nat)) (e : Market.Key × List Nat)
    (hnd : (ops.map Prod.fst).Nodup) (he : e ∈ ops) : ops.lookup e.1 = some e.2 := by
  induction ops with
  | nil => simp at he
  | cons x rest ih =>
    obtain ⟨k, ids⟩ := x
    simp only [List.map_cons, List.nodup_cons, List.mem_map, not_exists, not_and] at hnd
    rcases List.mem_cons.mp he with rfl | he'
    · simp [List.lookup_cons]
    · have hne : (e.1 == k) = false := by
        rw [beq_eq_false_iff_ne]
        intro heq
        exact hnd.1 e he' heq
      simp only [List.lookup_cons, hne]
      exact ih hnd.2 he'

/-- With canonical keys the checker visits, for each outer key, the set stored under it. -/
theorem Market.visited_of_canonical (r : Market.Readable) (hc : r.canonicalKeys)
    (e : Market.Key × List Nat) (he : e ∈ r.dealOps) : r.visited e.1 = e.2 := by
  simp only [Market.Readable.visited, hc.1 e he, Market.lookup_of_nodup r.dealOps e hc.2 he]

theorem Market.mem_violations_dealOp (env : Market.Env) (r : Market.Readable) (m : Market.Msg)
    (hk : m.kind = 14) :
    m ∈ r.violations env ↔ ∃ e ∈ r.dealOps, m ∈ Market.dealOpsMsgs r e.1 := by
  simp only [Market.Readable.violations, List.mem_append, List.mem_flatMap]
  constructor
  · rintro (((((((hm | hm) | hm) | ⟨e, -, hm⟩) | ⟨e, -, hm⟩) | ⟨e, -, hm⟩) | hm) | hm)
    · have := Market.kind_aggregateMsgs r _ hm; omega
    · have := Market.kind_duplicateMsgs env _ _ _ hm; omega
    · have := Market.kind_nextIDMsgs r _ hm; omega
    · have := Market.kind_dealStateMsgs env _ e _ hm; omega
    · have := Market.kind_pendingMsgs env _ e _ hm; omega
    · have := Market.kind_lockedMsgs env r e _ hm; omega
    · have := Market.kind_lockedTotalMsgs r _ hm; omega
    · exact hm
  · exact fun hm => Or.inr hm

/-- With canonical keys and typed deal IDs, the missing-proposal messages for an outer key
are its violations in the words of the specification. -/
theorem Market.dealOpsMsgs_filter (r : Market.Readable) (ht : r.typed) (hc : r.canonicalKeys)
    (e : Market.Key × List Nat) (he : e ∈ r.dealOps) :
    (Market.dealOpsMsgs r e.1).filter (fun m => decide (m.kind = 14))
      = r.dealOpViolations e := by
  simp only [Market.dealOpsMsgs, Market.visited_of_canonical r hc e he, List.filter_append,
    Market.Readable.dealOpViolations]
  have e1 : (if (Market.ParseInt e.1).2 = true then []
      else [Market.Msg.dealOpsKeyNotNatural e.1]).filter (fun m => decide (m.kind = 14)) = [] := by
    split <;> simp [Market.Msg.kind]
  have e2 : ((e.2.filter (fun id => !r.allIDs.contains id)).map
      (fun id => Market.Msg.dealOpWithoutProposal id (Market.ParseInt e.1).1)).filter
        (fun m => decide (m.kind = 14))
      = (e.2.filter (fun id => !r.allIDs.contains id)).map
        (fun id => Market.Msg.dealOpWithoutProposal id (Market.ParseInt e.1).1) :=
    List.filter_eq_self.mpr (fun m hm => by
      obtain ⟨id, -, rfl⟩ := List.mem_map.mp hm
      simp [Market.Msg.kind])
  rw [e1, e2, List.nil_append]
  congr 1
  apply List.filter_congr
  intro id hid
  have hiff := Market.mem_allIDs_id r ht id (ht.2.2.1 e he id hid)
  by_cases hm : id ∈ r.allIDs
  · have h2 := hiff.mp hm
    simp only [List.mem_map, Prod.exists, exists_and_right, exists_eq_right] at h2
    simpa [hm] using h2
  · have h2 : Int.ofNat id ∉ r.proposals.map Prod.fst := fun h => hm (hiff.mpr h)
    simp only [List.mem_map, Prod.exists, exists_and_right, exists_eq_right, not_exists] at h2
    simpa [hm] using h2

/-- C17, as amended: on every readable snapshot in which every proposal has a fingerprint,
every pending-proposal key parses as a content identifier, every locked-table key parses
as an address, and every outer key of the deal ops is the key under which the multimap
stores the epoch it parses to (the outer keys being distinct), every deal ID in the set
stored under an outer key produces the missing-proposal violation exactly when it is the
ID of no proposal of the proposals array, and every deal ID stored under every outer key
is examined exactly once: the missing-proposal messages are those of the stored IDs, key by
key, and DealOpCount is the number of stored deal IDs. -/
theorem Market.dealOp_violations (env : Market.Env) (r : Market.Readable)
    (h : r.decodes env) (ht : r.typed) (hc : r.canonicalKeys) :
    ∃ acc summary, Market.CheckStateInvariants env r.toSnapshot =
        { summary := some summary, acc := some acc, err := none } ∧
      (∀ k ids id, (k, ids) ∈ r.dealOps → id ∈ ids →
        (Market.Msg.dealOpWithoutProposal id (Market.ParseInt k).1 ∈ acc ↔
          Int.ofNat id ∉ r.proposals.map Prod.fst)) ∧
      acc.filter (fun m => decide (m.kind = 14)) = r.dealOps.flatMap r.dealOpViolations ∧
      summary.DealOpCount = (r.dealOps.map (fun e => e.2.length)).sum := by
  refine ⟨r.violations env, r.summary, Market.CheckStateInvariants_run env r h, ?_, ?_, ?_⟩
  · intro k ids id hin hid
    rw [Market.mem_violations_dealOp env r
      (Market.Msg.dealOpWithoutProposal id (Market.ParseInt k).1) rfl]
    constructor
    · rintro ⟨e, he, hm⟩
      simp only [Market.dealOpsMsgs, Market.visited_of_canonical r hc e he, List.mem_append,
        List.mem_map, List.mem_filter] at hm
      rcases hm with hm | ⟨id', ⟨hid', hnot⟩, heq⟩
      · split at hm <;> simp at hm
      · simp only [Market.Msg.dealOpWithoutProposal.injEq] at heq
        rw [heq.1] at hid' hnot
        intro hmem
        have := (Market.mem_allIDs_id r ht id (ht.2.2.1 e he id hid')).mpr hmem
        simp [this] at hnot
    · intro hnot
      refine ⟨(k, ids), hin, ?_⟩
      have hvis := Market.visited_of_canonical r hc (k, ids) hin
      simp only at hvis
      simp only [Market.dealOpsMsgs, hvis, List.mem_append, List.mem_map, List.mem_filter]
      refine Or.inr ⟨id, ⟨hid, ?_⟩, rfl⟩
      have : id ∉ r.allIDs := fun hmem =>
        hnot ((Market.mem_allIDs_id r ht id (ht.2.2.1 (k, ids) hin id hid)).mp hmem)
      simp [this]
  · simp only [Market.Readable.violations, List.filter_append]
    have z1 : (Market.aggregateMsgs r).filter (fun m => decide (m.kind = 14)) = [] :=
      List.filter_eq_nil_iff.mpr (fun m hm => by
        have := Market.kind_aggregateMsgs r m hm
        simp only [decide_eq_true_eq]; omega)
    have z2 : (Market.duplicateMsgs env [] r.proposals).filter
        (fun m => decide (m.kind = 14)) = [] :=
      List.filter_eq_nil_iff.mpr (fun m hm => by
        have := Market.kind_duplicateMsgs env _ _ m hm
        simp only [decide_eq_true_eq]; omega)
    have z3 : (Market.nextIDMsgs r).filter (fun m => decide (m.kind = 14)) = [] :=
      List.filter_eq_nil_iff.mpr (fun m hm => by
        have := Market.kind_nextIDMsgs r m hm
        simp only [decide_eq_true_eq]; omega)
    have z4 : (r.states.flatMap (Market.dealStateMsgs env r.allIDs)).filter
        (fun m => decide (m.kind = 14)) = [] :=
      List.filter_eq_nil_iff.mpr (fun m hm => by
        obtain ⟨e, -, hm⟩ := List.mem_flatMap.mp hm
        have := Market.kind_dealStateMsgs env _ e m hm
        simp only [decide_eq_true_eq]; omega)
    have z5 : (r.pending.flatMap (Market.pendingMsgs env (r.proposalCids env))).filter
        (fun m => decide (m.kind = 14)) = [] :=
      List.filter_eq_nil_iff.mpr (fun m hm => by
        obtain ⟨e, -, hm⟩ := List.mem_flatMap.mp hm
        have := Market.kind_pendingMsgs env _ e m hm
        simp only [decide_eq_true_eq]; omega)
    have z6 : (r.locked.flatMap (Market.lockedMsgs env r)).filter
        (fun m => decide (m.kind = 14)) = [] :=
      List.filter_eq_nil_iff.mpr (fun m hm => by
        obtain ⟨e, -, hm⟩ := List.mem_flatMap.mp hm
        have := Market.kind_lockedMsgs env r e m hm
        simp only [decide_eq_true_eq]; omega)
    have z7 : (Market.lockedTotalMsgs r).filter (fun m => decide (m.kind = 14)) = [] :=
      List.filter_eq_nil_iff.mpr (fun m hm => by
        have := Market.kind_lockedTotalMsgs r m hm
        simp only [decide_eq_true_eq]; omega)
    rw [z1, z2, z3, z4, z5, z6, z7]
    simp only [List.nil_append, List.filter_flatMap]
    apply List.flatMap_congr
    exact fun e he => Market.dealOpsMsgs_filter r ht hc e he
  · simp only [Market.Readable.summary]
    congr 1
    apply List.map_congr_left
    intro e he
    rw [Market.visited_of_canonical r hc e he]

/-- Deals 7 and 9 under the key "150", with a proposal only for deal 7: the missing
proposal of deal 9 is recorded and both deal IDs are counted. -/
theorem Market.dealOp_violations_witness :
    ∃ acc summary, Market.CheckStateInvariants Market.sampleEnv
        { Market.positiveCase with dealOps := [([49, 53, 48], [7, 9])] }.toSnapshot =
        { summary := some summary, acc := some acc, err := none } ∧
      Market.Msg.dealOpWithoutProposal 9 150 ∈ acc ∧ summary.DealOpCount = 2 :=
  have h := Market.dealOp_violations Market.sampleEnv
    { Market.positiveCase with dealOps := [([49, 53, 48], [7, 9])] }
    (by simp [Market.Readable.decodes, Market.positiveCase, Market.sampleEnv])
    (by simp [Market.Readable.typed, Market.positiveCase])
    (by
      simp only [Market.Readable.canonicalKeys, Market.positiveCase]
      decide)
  h.elim fun acc hrest => hrest.elim fun summary hs =>
    ⟨acc, summary, hs.1,
      (hs.2.1 [49, 53, 48] [7, 9] 9 (by simp) (by simp)).mpr
        (by simp [Market.positiveCase]),
      hs.2.2.2⟩

/-- C17 fails as stated, in two ways.  In the positive case of the specification with deal
9, which has no proposal, stored under the outer key "abc", the checker examines no deal
ID: it records no missing-proposal violation and DealOpCount is 0.  With deal 9 stored
under the outer key "150", which is the key of the epoch it parses to, and one pending
proposal under a key that `cid.Parse` rejects, the checker returns the error of `cid.Parse`
before it reads the deal ops, and the accumulator is empty. -/
theorem Market.CheckStateInvariants_orphanOpCase :
    Int.ofNat 9 ∉ Market.orphanOpCase.proposals.map Prod.fst ∧
    Market.CheckStateInvariants Market.sampleEnv Market.orphanOpCase.toSnapshot =
      { summary := some { ProposalCount := 1, PendingProposalCount := 0, DealStateCount := 1,
                          LockTableCount := 1, DealOpEpochCount := 1, DealOpCount := 0 }
        acc := some []
        err := none } ∧
    Int.ofNat 9 ∉ Market.stoppedDealOpCase.proposals.map Prod.fst ∧
    Market.SetMultimap.key (Market.ParseInt [49, 53, 48]).1 = [49, 53, 48] ∧
    Market.CheckStateInvariants Market.sampleEnv Market.stoppedDealOpCase.toSnapshot =
      { summary := none, acc := some [], err := some { code := 1 } } := by
  refine ⟨by decide, by decide, by decide, by decide, by decide⟩

/-! ## Market state checker: complete runs -/

/-- A walk stops with an error when the callback fails on one of the entries. -/
theorem Market.Walk.ForEach.go_stops {κ ν σ : Type}
    (f : σ → κ → ν → σ × Option Market.Error) (fault : Option Market.Error)
    (entries : List (κ × ν)) (s : σ)
    (h : ∃ e ∈ entries, ∀ s, (f s e.1 e.2).2 ≠ none) :
    (Market.Walk.ForEach.go f fault entries s).2 ≠ none := by
  induction entries generalizing s with
  | nil => simp at h
  | cons x rest ih =>
    obtain ⟨k, v⟩ := x
    obtain ⟨e, he, hbad⟩ := h
    rw [Market.Walk.ForEach.go]
    cases hstep : f s k v with
    | mk s1 o =>
      cases o with
      | some err => simp
      | none =>
        simp only
        apply ih
        rcases List.mem_cons.mp he with rfl | he'
        · have := hbad s
          rw [hstep] at this
          exact absurd rfl this
        · exact ⟨e, he', hbad⟩

/-- C18, as amended: the checker never stops on an invariant violation. On every snapshot
whose collections can all be loaded and iterated, and in which every proposal has a
fingerprint, every pending-proposal key parses as a content identifier and every
locked-table key parses as an address, it returns the summary and a nil error, and the
accumulator holds the messages of all failed requirements, in source order. When one of
these keys or proposals does not decode, it returns an error and a nil summary. -/
theorem Market.CheckStateInvariants_complete (env : Market.Env) (r : Market.Readable) :
    (r.decodes env →
      Market.CheckStateInvariants env r.toSnapshot =
        { summary := some r.summary, acc := some (r.violations env), err := none }) ∧
    (¬ r.decodes env →
      (Market.CheckStateInvariants env r.toSnapshot).err ≠ none ∧
      (Market.CheckStateInvariants env r.toSnapshot).summary = none) := by
  refine ⟨Market.CheckStateInvariants_run env r, fun hnot => ?_⟩
  by_cases hp : ∀ e ∈ r.proposals, ∃ c, env.proposalCid e.2 = .ok c
  swap
  · simp only [not_forall, not_exists] at hp
    obtain ⟨e, he, hbad⟩ := hp
    have hstop := fun s => Market.Walk.ForEach.go_stops (Market.proposalStep env) none
      r.proposals s ⟨e, he, fun s => by
        cases hc : env.proposalCid e.2 with
        | ok c => exact absurd hc (hbad c)
        | error err => simp [Market.proposalStep, hc]⟩
    simp only [Market.CheckStateInvariants, Market.Readable.toSnapshot, Market.Walk.ForEach]
    generalize hres : Market.Walk.ForEach.go (Market.proposalStep env) none r.proposals _ = res
    have h2 : res.2 ≠ none := by
      rw [← hres]
      exact hstop _
    obtain ⟨p, _ | err⟩ := res
    · exact absurd rfl h2
    · simp
  by_cases hq : ∀ e ∈ r.pending,
      (∃ c, env.cidParse e.1 = .ok c) ∧ ∃ c, env.proposalCid e.2 = .ok c
  swap
  · simp only [not_forall] at hq
    obtain ⟨e, he, hbad⟩ := hq
    have hstop := fun cids s => Market.Walk.ForEach.go_stops (Market.pendingStep env cids) none
      r.pending s ⟨e, he, fun s => by
        cases hk : env.cidParse e.1 with
        | error err => simp [Market.pendingStep, hk]
        | ok k =>
          cases hc : env.proposalCid e.2 with
          | error err => simp [Market.pendingStep, hk, hc]
          | ok c => exact absurd ⟨⟨k, hk⟩, ⟨c, hc⟩⟩ hbad⟩
    simp only [Market.CheckStateInvariants, Market.Readable.toSnapshot, Market.Walk.ForEach,
      Market.proposals_run env r.proposals _ hp, Market.dealStates_run]
    generalize hres : Market.Walk.ForEach.go (Market.pendingStep env _) none r.pending _ = res
    have h2 : res.2 ≠ none := by
      rw [← hres]
      exact hstop _ _
    obtain ⟨q, _ | err⟩ := res
    · exact absurd rfl h2
    · simp
  by_cases hl : ∀ e ∈ r.locked, ∃ a, env.addressFromBytes e.1 = .ok a
  swap
  · simp only [not_forall, not_exists] at hl
    obtain ⟨e, he, hbad⟩ := hl
    have hstop := fun table s => Market.Walk.ForEach.go_stops (Market.lockedStep env table) none
      r.locked s ⟨e, he, fun s => by
        cases hk : env.addressFromBytes e.1 with
        | error err => simp [Market.lockedStep, hk]
        | ok a => exact absurd hk (hbad a)⟩
    simp only [Market.CheckStateInvariants, Market.Readable.toSnapshot, Market.Walk.ForEach,
      Market.proposals_run env r.proposals _ hp, Market.dealStates_run,
      Market.pending_run env _ r.pending _ hq]
    generalize hres : Market.Walk.ForEach.go (Market.lockedStep env _) none r.locked _ = res
    have h2 : res.2 ≠ none := by
      rw [← hres]
      exact hstop _ _
    obtain ⟨l, _ | err⟩ := res
    · exact absurd rfl h2
    · simp
  exact absurd ⟨hp, hq, hl⟩ hnot

/-- The positive case of the specification runs to the end; with a pending proposal under a
key that is no content identifier the run returns an error and no summary. -/
theorem Market.CheckStateInvariants_complete_witness :
    Market.positiveCase.decodes Market.sampleEnv ∧
    Market.CheckStateInvariants Market.sampleEnv Market.positiveCase.toSnapshot =
      { summary := some Market.positiveCase.summary
        acc := some (Market.positiveCase.violations Market.sampleEnv)
        err := none } ∧
    ¬ Market.badPendingKeyCase.decodes Market.sampleEnv ∧
    (Market.CheckStateInvariants Market.sampleEnv Market.badPendingKeyCase.toSnapshot).err
      ≠ none :=
  have h1 : Market.positiveCase.decodes Market.sampleEnv := by
    simp [Market.Readable.decodes, Market.positiveCase, Market.sampleEnv]
  have h2 : ¬ Market.badPendingKeyCase.decodes Market.sampleEnv := by
    intro h
    have := (h.2.1 ([1, 2], { content := 1 })
      (by simp [Market.badPendingKeyCase, Market.positiveCase])).1
    simp [Market.sampleEnv] at this
  ⟨h1, (Market.CheckStateInvariants_complete Market.sampleEnv Market.positiveCase).1 h1,
    h2, ((Market.CheckStateInvariants_complete Market.sampleEnv Market.badPendingKeyCase).2 h2).1⟩

/-- C18 fails as stated: the positive case of the specification with one pending proposal
stored under a key that `cid.Parse` rejects has collections that all load and iterate, and
the checker returns the error of `cid.Parse` and a nil summary. -/
theorem Market.CheckStateInvariants_badPendingKeyCase :
    Market.CheckStateInvariants Market.sampleEnv Market.badPendingKeyCase.toSnapshot =
      { summary := none, acc := some [], err := some { code := 1 } } := by
  decide

/-! ## Market state checker: the summary -/

/-- C19, as amended: on every readable snapshot in which every proposal has a fingerprint,
every pending-proposal key parses as a content identifier and every locked-table key parses
as an address, a summary is returned and it counts the entries of the proposals array, the
pending proposals, the deal states, the locked table and the outer keys of the deal ops;
and when every outer key of the deal ops is the key under which the multimap stores the
epoch it parses to (the outer keys being distinct), DealOpCount is the total number of deal
IDs stored under all outer keys.  The counts are functions of the collections alone,
whatever violations are recorded. -/
theorem Market.summary_counts (env : Market.Env) (r : Market.Readable) (h : r.decodes env) :
    ∃ summary, (Market.CheckStateInvariants env r.toSnapshot).summary = some summary ∧
      summary.ProposalCount = r.proposals.length ∧
      summary.PendingProposalCount = r.pending.length ∧
      summary.DealStateCount = r.states.length ∧
      summary.LockTableCount = r.locked.length ∧
      summary.DealOpEpochCount = r.dealOps.length ∧
      (r.canonicalKeys →
        summary.DealOpCount = (r.dealOps.map (fun e => e.2.length)).sum) := by
  refine ⟨r.summary, by rw [Market.CheckStateInvariants_run env r h], rfl, rfl, rfl, rfl,
    rfl, fun hc => ?_⟩
  simp only [Market.Readable.summary]
  congr 1
  apply List.map_congr_left
  intro e he
  rw [Market.visited_of_canonical r hc e he]

/-- The positive case with deal 7 under the key "150": every count is 1 except the pending
proposals, of which there are none. -/
theorem Market.summary_counts_witness :
    Market.dealOpCase.decodes Market.sampleEnv ∧
    ∃ summary, (Market.CheckStateInvariants Market.sampleEnv
        Market.dealOpCase.toSnapshot).summary = some summary ∧
      summary.ProposalCount = 1 ∧ summary.PendingProposalCount = 0 ∧
      summary.DealStateCount = 1 ∧ summary.LockTableCount = 1 ∧
      summary.DealOpEpochCount = 1 ∧ summary.DealOpCount = 1 :=
  have h1 : Market.dealOpCase.decodes Market.sampleEnv := by
    simp [Market.Readable.decodes, Market.dealOpCase, Market.positiveCase, Market.sampleEnv]
  have h := Market.summary_counts Market.sampleEnv Market.dealOpCase h1
  ⟨h1, h.elim fun summary hs =>
    ⟨summary, hs.1, hs.2.1, hs.2.2.1, hs.2.2.2.1, hs.2.2.2.2.1, hs.2.2.2.2.2.1,
      (hs.2.2.2.2.2.2 (by
        simp only [Market.Readable.canonicalKeys, Market.dealOpCase, Market.positiveCase]
        decide)).trans (by decide)⟩⟩

/-- C19 fails as stated, in two ways.  With the deal IDs 7 and 8 stored under the outer
key "x", the deal ops hold two deal IDs and the returned DealOpCount is 0.  With one
pending proposal under a key that `cid.Parse` rejects, every collection loads and iterates
and no summary is returned. -/
theorem Market.CheckStateInvariants_strayKeyCase :
    (Market.strayKeyCase.dealOps.map (fun e => e.2.length)).sum = 2 ∧
    Market.CheckStateInvariants Market.sampleEnv Market.strayKeyCase.toSnapshot =
      { summary := some { ProposalCount := 2, PendingProposalCount := 0, DealStateCount := 1,
                          LockTableCount := 1, DealOpEpochCount := 1, DealOpCount := 0 }
        acc := some []
        err := none } ∧
    (Market.CheckStateInvariants Market.sampleEnv Market.stoppedDealOpCase.toSnapshot).summary
      = none := by
  refine ⟨by decide, by decide, by decide⟩

/-! ## Market state checker: store faults -/

/-- When the pending-proposals map cannot be loaded, the run returns the error with a nil
summary and a nil accumulator, whatever was recorded before. -/
theorem Market.CheckStateInvariants_pendingLoadFault (env : Market.Env) (r : Market.Readable)
    (err : Market.Error) (hp : ∀ e ∈ r.proposals, ∃ c, env.proposalCid e.2 = .ok c) :
    Market.CheckStateInvariants env { r.toSnapshot with PendingProposals := .error err } =
      { summary := none, acc := none, err := some err } := by
  simp only [Market.CheckStateInvariants, Market.Readable.toSnapshot, Market.Walk.ForEach,
    Market.proposals_run env r.proposals _ hp, Market.dealStates_run]

/-- C20: on a snapshot with NextID = 5 below its proposal at deal ID 7 whose
pending-proposals map fails to load, the checker returns the store error with a nil summary
and a nil accumulator: the next-ID violation recorded before the fault is lost.  The same
fault on the deal-states array returns the accumulator with that violation. -/
theorem Market.CheckStateInvariants_pendingFaultCase :
    Market.CheckStateInvariants Market.sampleEnv Market.pendingFaultCase =
      { summary := none, acc := none, err := some { code := 5 } } ∧
    Market.CheckStateInvariants Market.sampleEnv Market.statesFaultCase =
      { summary := none, acc := some [Market.Msg.nextIDNotGreater 5 7]
        err := some { code := 5 } } := by
  refine ⟨by decide, by decide⟩

end SpecsActors
